import Mathlib

/-!
Focus stacking: contrast metric, best-image selection and static-partition compositing.

A shallow embedding of the compositing core of the four `main.cpp` variants
(`C++_thread/Version1`, `C++ thread/Version2`, `C++_thread/Version3`,
`pthread/Version2`).

Conventions of the embedding

* `unsigned char` is `Fin 256`.
* `int` values are `Int`; signed overflow is undefined behaviour in C++ and is
  excluded by explicit range hypotheses (`FitsInt`, `WindowInRange`).
* The conversion `int -> unsigned int` is `toUnsigned` (reduction modulo `2^32`),
  the conversion `unsigned int -> int` is `toSigned`.
* `double` values are rational numbers (`ℚ`). The functions `convertToGrayscale` and
  `calculateWindowContrast` compute in exact arithmetic; they serve the claims whose
  statement does not depend on the rounding. The functions of the namespace `Rounded`
  are the same source functions with the rounding of the division by `3.0` and of the
  final subtraction as a parameter `rnd`, `roundDouble` being IEEE 754 round-to-nearest;
  the claims that rank images by contrast are stated for them.
* `raster2D` is a function from (row, byte offset) to bytes; the raster buffer of an
  image is the part of it with `0 ≤ row < height` and
  `0 ≤ offset < width * bytesPerPixel`.
* Threads are modelled by running the workers one after the other.
* A worker of a random-sampling variant is a function of the sequence of its loop inputs
  (the value of the stop flag and the sampled centre at each test of the loop condition),
  with a ghost record of the mutexes it holds.
-/

set_option autoImplicit false

/-! ## Data model -/

/-- Modelled from the spec: the pixel format tag of `RasterImage` (declared in the header
`ImageIO_TGA.h`/`RasterImage.h`, which is not part of the sources). The spec gives the two
formats `{RGBA, Gray}`; the names are the enumerators the sources compare against. -/
inductive ImageType where
  | RGBA32_RASTER
  | GRAY_RASTER
  deriving DecidableEq, Repr

/-- Modelled from the spec: the `RasterImage` record
`{width: u32, height: u32, format: {RGBA, Gray}, pixels: mutable 2D buffer}` (its declaration
is in a header that is not part of the sources). The fields are the ones the sources use:
`type`, `width`, `height` and the row-pointer table `raster2D`; `raster2D row k` is the byte
`((unsigned char**) raster2D)[row][k]`. -/
structure RasterImage where
  type : ImageType
  width : Nat
  height : Nat
  raster2D : Int → Int → Fin 256

/-- Conversion `int -> unsigned int` (32 bit): reduction modulo `2^32`. -/
def toUnsigned (x : Int) : Nat := (x % 4294967296).toNat

/-- Conversion `unsigned int -> int` (32 bit, two's complement). -/
def toSigned (n : Nat) : Int :=
  if n % 4294967296 < 2147483648 then ((n % 4294967296 : Nat) : Int)
  else ((n % 4294967296 : Nat) : Int) - 4294967296

/-- Values of the loop variable of `for (int i = lo; i <= hi; i++)`. -/
def intRange (lo hi : Int) : List Int :=
  (List.range (hi + 1 - lo).toNat).map (fun (k : Nat) => lo + (k : Int))

/-- Offsets visited by `for (int i = -windowSize / 2; i <= windowSize / 2; i++)`
(C++ integer division truncates towards zero). -/
def windowOffsets (windowSize : Int) : List Int :=
  intRange (Int.tdiv (-windowSize) 2) (Int.tdiv windowSize 2)

/-! ## Functions shared verbatim by all four variants -/

/-- Source `convertToGrayscale` (Version1 l.215-228, Version2 l.205-218, Version3 l.324-337,
pthread l.358-371), with the division by `3.0` in exact arithmetic; the rounded quotient of
the program is `Rounded.convertToGrayscale`. -/
def convertToGrayscale (image : RasterImage) (row col : Int) : ℚ :=
  if image.type = ImageType.RGBA32_RASTER then
    let pixel : Int → Fin 256 := fun k => image.raster2D row (col * 4 + k)
    (((pixel 0).val + (pixel 1).val + (pixel 2).val : Nat) : ℚ) / 3
  else if image.type = ImageType.GRAY_RASTER then
    ((image.raster2D row col).val : ℚ)
  else 0

/-- Store of one byte: `raster2D[row][k] = v`. -/
def writeByte (image : RasterImage) (row k : Int) (v : Fin 256) : RasterImage :=
  { image with raster2D := fun r j => if r = row ∧ j = k then v else image.raster2D r j }

/-- Source `copyPixel` (Version1 l.237-252, Version2 l.221-236, Version3 l.346-361,
pthread l.380-395); returns the destination image after the call. The byte table `raster2D`
of the model is total, whereas a call with `(row, col)` outside the raster of `srcImage` or
`dstImage` is undefined behaviour in C++: the theorems about copied values are stated for
pixels inside the output image and stack images of the size of the output image. -/
def copyPixel (srcImage dstImage : RasterImage) (row col : Int) : RasterImage :=
  if srcImage.type = ImageType.RGBA32_RASTER ∧ dstImage.type = ImageType.RGBA32_RASTER then
    (intRange 0 3).foldl
      (fun dst i => writeByte dst row (col * 4 + i) (srcImage.raster2D row (col * 4 + i)))
      dstImage
  else if srcImage.type = ImageType.GRAY_RASTER ∧ dstImage.type = ImageType.GRAY_RASTER then
    writeByte dstImage row col (srcImage.raster2D row col)
  else dstImage

/-- Body of the two nested loops of `calculateWindowContrast`, identical in all variants up to
the names of the variables: the state is `(minGray, maxGray)`. -/
def contrastBody (image : RasterImage) (centerRow centerCol : Int) (acc : ℚ × ℚ) (i j : Int) :
    ℚ × ℚ :=
  let currentRow := toUnsigned (centerRow + i)
  let currentCol := toUnsigned (centerCol + j)
  if 0 ≤ currentRow ∧ currentRow < image.height ∧ 0 ≤ currentCol ∧ currentCol < image.width then
    let gray := convertToGrayscale image (toSigned currentRow) (toSigned currentCol)
    (min acc.1 gray, max acc.2 gray)
  else acc

/-- Source `calculateWindowContrast(image, centerRow, centerCol, windowSize)` of Version2
(l.240-259), Version3 (l.372-389) and pthread/Version2 (l.406-425). -/
def calculateWindowContrast (image : RasterImage) (centerRow centerCol windowSize : Int) : ℚ :=
  let final := (windowOffsets windowSize).foldl
    (fun acc i => (windowOffsets windowSize).foldl
      (fun acc j => contrastBody image centerRow centerCol acc i j) acc)
    ((255 : ℚ), (0 : ℚ))
  final.2 - final.1

/-- The selection loop `for (size_t imgIndex = 0; imgIndex < imageStack.size(); ++imgIndex)`
of `focusStackingThread`, started at index `imgIndex` on the remaining images; the state is
`(highestContrast, bestImageIndex)` and `contrastOf` is the call of
`calculateWindowContrast` at the current window. -/
def selectionLoop (contrastOf : RasterImage → ℚ) :
    List RasterImage → Nat → ℚ × Int → ℚ × Int
  | [], _, acc => acc
  | image :: rest, imgIndex, acc =>
    let contrast := contrastOf image
    if contrast > acc.1 then selectionLoop contrastOf rest (imgIndex + 1) (contrast, (imgIndex : Int))
    else selectionLoop contrastOf rest (imgIndex + 1) acc

/-- Value of `bestImageIndex` after the selection loop, started from
`highestContrast = -1.0`, `bestImageIndex = -1`. -/
def bestImageIndex (contrastOf : RasterImage → ℚ) (imageStack : List RasterImage) : Int :=
  (selectionLoop contrastOf imageStack 0 ((-1 : ℚ), (-1 : Int))).2

/-- The statement `if (bestImageIndex != -1) copyPixel(imageStack[bestImageIndex], out, row, col)`. -/
def copyBest (imageStack : List RasterImage) (best : Int) (out : RasterImage) (row col : Int) :
    RasterImage :=
  if best ≠ -1 then
    match imageStack[best.toNat]? with
    | some src => copyPixel src out row col
    | none => out
  else out

namespace Version2

/-- Selection loop of Version2 `focusStackingThread` (l.272-282; the same loop is in Version3
l.426-436 and pthread/Version2 l.442-452) at the window `(centerRow, centerCol, windowSize)`. -/
def selectBest (imageStack : List RasterImage) (centerRow centerCol windowSize : Int) : Int :=
  bestImageIndex (fun image => calculateWindowContrast image centerRow centerCol windowSize)
    imageStack

end Version2

namespace Version1

/-- Source `calculateWindowContrast(image, row, col)` of Version1 (l.262-278): fixed 5x5 window. -/
def calculateWindowContrast (image : RasterImage) (row col : Int) : ℚ :=
  let final := (intRange (-2) 2).foldl
    (fun acc i => (intRange (-2) 2).foldl
      (fun acc j => contrastBody image row col acc i j) acc)
    ((255 : ℚ), (0 : ℚ))
  final.2 - final.1

/-- Selection loop of Version1 `focusStackingThread` (l.290-299) at pixel `(row, col)`. -/
def selectBest (imageStack : List RasterImage) (row col : Int) : Int :=
  bestImageIndex (fun image => calculateWindowContrast image row col) imageStack

/-- Source `focusStackingThread(imageStack, outputImage, startRow, endRow)` of Version1
(l.287-306); returns the output image after the worker has finished. -/
def focusStackingThread (imageStack : List RasterImage) (outputImage : RasterImage)
    (startRow endRow : Int) : RasterImage :=
  (intRange startRow (endRow - 1)).foldl
    (fun out row => (List.range outputImage.width).foldl
      (fun out col =>
        copyBest imageStack (selectBest imageStack row (toSigned col)) out row (toSigned col))
      out)
    outputImage

/-- The worker `focusStackingThread` of Version1 with a ghost log: the second component
records, in order, the `(row, col)` of every call of `copyPixel`. -/
def focusStackingThreadLogged (imageStack : List RasterImage)
    (state : RasterImage × List (Int × Int)) (startRow endRow : Int) :
    RasterImage × List (Int × Int) :=
  (intRange startRow (endRow - 1)).foldl
    (fun st row => (List.range state.1.width).foldl
      (fun st col =>
        let best := selectBest imageStack row (toSigned col)
        if best ≠ -1 then
          (copyBest imageStack best st.1 row (toSigned col), st.2 ++ [(row, toSigned col)])
        else st)
      st)
    state

/-- Row bands computed in `main` of Version1 (l.339-347; Version3 l.269-275 computes the same
values into `unsigned int` variables): the list of `(startRow, endRow)` in thread order.
The arithmetic is in unbounded integers; for `numThreads ≥ 1` and `height < 2^31` it agrees
with the C++ arithmetic whether the field `height` is a signed or an unsigned 32-bit
integer. -/
def bands (height : Nat) (numThreads : Int) : List (Int × Int) :=
  let rowsPerThread : Int := Int.tdiv (height : Int) numThreads
  (intRange 0 (numThreads - 1)).map (fun i =>
    let startRow := i * rowsPerThread
    let endRow := if i = numThreads - 1 then (height : Int) else startRow + rowsPerThread
    (startRow, endRow))

/-- All band workers created by `main` of Version1, run to completion one after the other
in creation order on the shared output image. -/
def runThreads (imageStack : List RasterImage) (imageOut : RasterImage) (numThreads : Int) :
    RasterImage :=
  (bands imageOut.height numThreads).foldl
    (fun out band => focusStackingThread imageStack out band.1 band.2) imageOut

/-- The band workers of `runThreads` with the ghost log of `copyPixel` calls. -/
def runThreadsLogged (imageStack : List RasterImage) (imageOut : RasterImage)
    (numThreads : Int) : RasterImage × List (Int × Int) :=
  (bands imageOut.height numThreads).foldl
    (fun st band => focusStackingThreadLogged imageStack st band.1 band.2) (imageOut, [])

end Version1

/-! ## The window copy and the random-sampling iteration (Version2, Version3, pthread) -/

/-- Body of the two nested loops of the window copy in `focusStackingThread` (Version2
l.288-296, Version3 l.442-450, pthread/Version2 l.458-466), identical in the three variants:
`copyPixel(imageStack[bestImageIndex], outputImage, targetRow, targetCol)` under the bounds
test; `src` is `imageStack[bestImageIndex]`. -/
def windowCopyBody (src out : RasterImage) (centerRow centerCol : Int) (i j : Int) :
    RasterImage :=
  let targetRow := toUnsigned (centerRow + i)
  let targetCol := toUnsigned (centerCol + j)
  if 0 ≤ targetRow ∧ targetRow < out.height ∧ 0 ≤ targetCol ∧ targetCol < out.width then
    copyPixel src out (toSigned targetRow) (toSigned targetCol)
  else out

/-- The window copy: the two nested loops over the window offsets. -/
def windowCopy (src outputImage : RasterImage) (centerRow centerCol windowSize : Int) :
    RasterImage :=
  (windowOffsets windowSize).foldl
    (fun out i => (windowOffsets windowSize).foldl
      (fun out j => windowCopyBody src out centerRow centerCol i j) out)
    outputImage

/-- The window copy with a ghost log: the second component records, in order, the
`(row, col)` passed to every call of `copyPixel` (the pixel read in the source image and
written in the output image). -/
def windowCopyLogged (src : RasterImage) (state : RasterImage × List (Int × Int))
    (centerRow centerCol windowSize : Int) : RasterImage × List (Int × Int) :=
  (windowOffsets windowSize).foldl
    (fun st i => (windowOffsets windowSize).foldl
      (fun (st : RasterImage × List (Int × Int)) j =>
        let targetRow := toUnsigned (centerRow + i)
        let targetCol := toUnsigned (centerCol + j)
        if 0 ≤ targetRow ∧ targetRow < st.1.height ∧ 0 ≤ targetCol ∧ targetCol < st.1.width then
          (copyPixel src st.1 (toSigned targetRow) (toSigned targetCol),
           st.2 ++ [(toSigned targetRow, toSigned targetCol)])
        else st)
      st)
    state

/-- The loop body `contrastBody` with a ghost log: the second component of the state records,
in order, the `(row, col)` passed to every call of `convertToGrayscale`. -/
def contrastBodyLogged (image : RasterImage) (centerRow centerCol : Int)
    (acc : (ℚ × ℚ) × List (Int × Int)) (i j : Int) : (ℚ × ℚ) × List (Int × Int) :=
  let currentRow := toUnsigned (centerRow + i)
  let currentCol := toUnsigned (centerCol + j)
  if 0 ≤ currentRow ∧ currentRow < image.height ∧ 0 ≤ currentCol ∧ currentCol < image.width then
    let gray := convertToGrayscale image (toSigned currentRow) (toSigned currentCol)
    ((min acc.1.1 gray, max acc.1.2 gray), acc.2 ++ [(toSigned currentRow, toSigned currentCol)])
  else acc

/-- The function `calculateWindowContrast` with the ghost log of the pixels it reads. -/
def calculateWindowContrastLogged (image : RasterImage)
    (centerRow centerCol windowSize : Int) : ℚ × List (Int × Int) :=
  let final := (windowOffsets windowSize).foldl
    (fun acc i => (windowOffsets windowSize).foldl
      (fun acc j => contrastBodyLogged image centerRow centerCol acc i j) acc)
    (((255 : ℚ), (0 : ℚ)), [])
  (final.1.2 - final.1.1, final.2)

namespace Version2

/-- One iteration of the `while` loop of Version2 `focusStackingThread` (l.268-298; the loop
body of pthread/Version2 l.438-469 is the same) for the sampled centre
`(centerRow, centerCol)`: selection with `windowSize = 11`, then the window copy of the
winner under the lock. -/
def iteration (imageStack : List RasterImage) (outputImage : RasterImage)
    (centerRow centerCol : Int) : RasterImage :=
  let windowSize : Int := 11
  let best := selectBest imageStack centerRow centerCol windowSize
  if best ≠ -1 then
    match imageStack[best.toNat]? with
    | some src => windowCopy src outputImage centerRow centerCol windowSize
    | none => outputImage
  else outputImage

/-- A finite run of the random-sampling engine: the iterations for the given sampled centres,
one after the other (each window copy is executed under the mutex, so the iterations of any
number of workers take effect in some sequential order). -/
def run (imageStack : List RasterImage) (outputImage : RasterImage)
    (centers : List (Int × Int)) : RasterImage :=
  centers.foldl (fun out c => iteration imageStack out c.1 c.2) outputImage

end Version2

/-! ## The region locks of Version3 -/

/-- Model of `std::set<int>::insert`: the set is the list of its elements in ascending order
(the order in which a `std::set<int>` is iterated), and an element that is already present
is not inserted again. -/
def setInsert (x : Int) : List Int → List Int
  | [] => [x]
  | y :: ys =>
    if x < y then x :: y :: ys
    else if x = y then y :: ys
    else y :: setInsert x ys

namespace Version3

/-- Source `const int GRID_ROWS = 4;` (Version3 l.133). -/
def GRID_ROWS : Nat := 4

/-- Source `const int GRID_COLS = 4;` (Version3 l.136). -/
def GRID_COLS : Nat := 4

/-- Number of region mutexes, `numRegions = GRID_ROWS * GRID_COLS` (Version3 l.304-308):
`regionMutexes` has the valid indices `0 .. numRegions - 1`. -/
def numRegions : Nat := GRID_ROWS * GRID_COLS

/-- The expression `regionIndex` of Version3 `focusStackingThread` (l.415):
`(targetRow / (height / GRID_ROWS)) * GRID_COLS + (targetCol / (width / GRID_COLS))`,
evaluated in `unsigned int` (the fields `height` and `width` are unsigned, so `targetRow` is
converted) and converted to `int`. A division by zero (`height < 4` or `width < 4`) is
undefined behaviour in C++ and yields 0 here; the theorems assume sizes of at least 4. -/
def regionIndex (outputImage : RasterImage) (targetRow : Int) (targetCol : Nat) : Int :=
  toSigned ((toUnsigned targetRow / (outputImage.height / GRID_ROWS)) * GRID_COLS
    + targetCol / (outputImage.width / GRID_COLS))

/-- Body of the two nested loops that fill `uniqueRegionIndices` (Version3 l.410-419). -/
def lockSetBody (outputImage : RasterImage) (startRow endRow centerRow centerCol : Int)
    (regions : List Int) (i j : Int) : List Int :=
  let targetRow : Int := centerRow + i
  let targetCol : Nat := toUnsigned (centerCol + j)
  if targetRow ≥ startRow ∧ targetRow < endRow ∧ 0 ≤ targetCol ∧
      targetCol < outputImage.width then
    setInsert (regionIndex outputImage targetRow targetCol) regions
  else regions

/-- The set `uniqueRegionIndices` computed by one iteration of Version3 `focusStackingThread`
(l.409-419, `windowSize = 11`), as the ascending list in which it is iterated. -/
def uniqueRegionIndices (outputImage : RasterImage)
    (startRow endRow centerRow centerCol : Int) : List Int :=
  (windowOffsets 11).foldl
    (fun regions i => (windowOffsets 11).foldl
      (fun regions j =>
        lockSetBody outputImage startRow endRow centerRow centerCol regions i j)
      regions)
    []

/-- Ghost record of one iteration of the Version3 worker: the indices passed to
`regionMutexes[..]->lock()` in order, the pixels passed to `copyPixel` in order, and the
indices passed to `regionMutexes[..]->unlock()` in order. -/
structure IterationLog where
  locked : List Int
  written : List (Int × Int)
  unlocked : List Int

/-- One iteration of the `while (true)` loop of Version3 `focusStackingThread` (l.404-456)
for the sampled centre, with its ghost record: lock the regions of `uniqueRegionIndices` in
iteration order, select with `windowSize = 11`, copy the window of the winner (under
`imageMutex`), unlock the regions in iteration order. -/
def iterationLogged (imageStack : List RasterImage) (outputImage : RasterImage)
    (startRow endRow centerRow centerCol : Int) : RasterImage × IterationLog :=
  let windowSize : Int := 11
  let regions := uniqueRegionIndices outputImage startRow endRow centerRow centerCol
  let best := Version2.selectBest imageStack centerRow centerCol windowSize
  let copied : RasterImage × List (Int × Int) :=
    if best ≠ -1 then
      match imageStack[best.toNat]? with
      | some src => windowCopyLogged src (outputImage, []) centerRow centerCol windowSize
      | none => (outputImage, [])
    else (outputImage, [])
  (copied.1, { locked := regions, written := copied.2, unlocked := regions })

end Version3

/-! ## Start-up: `main` and `initializeApplication` -/

/-- Digits loop of the model of `atoi`: accumulates decimal digits and stops at the first
character that is not a digit. -/
def atoiDigits : List Char → Int → Int
  | [], acc => acc
  | c :: cs, acc =>
    if 48 ≤ c.toNat ∧ c.toNat ≤ 57 then atoiDigits cs (acc * 10 + ((c.toNat : Int) - 48))
    else acc

/-- White space in the sense of the C function `isspace`: space and the characters 9..13. -/
def isSpaceChar (c : Char) : Bool := decide (c.toNat = 32 ∨ (9 ≤ c.toNat ∧ c.toNat ≤ 13))

/-- Model of the C library function `strtol(s, NULL, 10)` (not part of the repository) for a
64-bit `long`: leading white space is skipped, an optional sign (`-` is character 45, `+` is
43) is read, then decimal digits; the result is 0 when no digit follows, and a value outside
the range of `long` is replaced by `LONG_MIN` or `LONG_MAX`. -/
def strtol (s : String) : Int :=
  let value : Int :=
    match s.toList.dropWhile isSpaceChar with
    | [] => 0
    | c :: rest =>
      if c.toNat = 45 then - atoiDigits rest 0
      else if c.toNat = 43 then atoiDigits rest 0
      else atoiDigits (c :: rest) 0
  if value < -9223372036854775808 then -9223372036854775808
  else if 9223372036854775807 < value then 9223372036854775807
  else value

/-- Model of the C library function `atoi` (not part of the repository), which is
`(int) strtol(s, NULL, 10)`: the result is a 32-bit `int`, the value of `strtol` reduced
modulo `2^32`. For a number in the range of `int` this is the number itself, which is all
that the C standard specifies; outside that range it is what the GNU C library returns. -/
def atoi (s : String) : Int := toSigned (toUnsigned (strtol s))

/-- Source `initializeApplication` (Version1 l.387-415, Version2 l.366-393, Version3
l.292-315, pthread/Version2 l.328-348), restricted to the image stack and the output image:
every path is loaded with `readTGA` and pushed on the stack, in order, and, if the stack is
not empty, `imageOut = new RasterImage(width, height, type)` of the first image. The loader
`readTGA` and the constructor of `RasterImage` are not part of the sources and are
parameters. The result is `(imageStack, imageOut)`; `none` is the unassigned pointer. -/
def initializeApplication (readTGA : String → RasterImage)
    (newRasterImage : Nat → Nat → ImageType → RasterImage) (Vec_of_FilePaths : List String) :
    List RasterImage × Option RasterImage :=
  let imageStack := Vec_of_FilePaths.foldl (fun stack filePath => stack ++ [readTGA filePath]) []
  let imageOut :=
    match imageStack with
    | [] => none
    | first :: _ => some (newRasterImage first.width first.height first.type)
  (imageStack, imageOut)

/-- What `main` does up to the call of `glutMainLoop`: either it writes the usage message to
`cerr` and returns `exitCode` (no image is loaded, no thread is created); or it loads the
images of the paths `loaded` and then divides by a worker count of zero (undefined
behaviour) or constructs a vector of negative length (an exception); or it loads the images,
creates one thread for each entry of `workers` and enters the main loop. -/
inductive MainOutcome (α : Type) where
  | usageExit (exitCode : Int)
  | divisionByZero (loaded : List String)
  | lengthError (loaded : List String)
  | running (loaded : List String) (numThreads : Int) (workers : List α)
  deriving DecidableEq

/-- Paths whose images were loaded. -/
def MainOutcome.loaded {α : Type} : MainOutcome α → List String
  | MainOutcome.usageExit _ => []
  | MainOutcome.divisionByZero l => l
  | MainOutcome.lengthError l => l
  | MainOutcome.running l _ _ => l

/-- Arguments of the worker threads that were created. -/
def MainOutcome.workers {α : Type} : MainOutcome α → List α
  | MainOutcome.running _ _ w => w
  | _ => []

/-- Exit code with which `main` returned before the main loop, if it did. -/
def MainOutcome.exitCode {α : Type} : MainOutcome α → Option Int
  | MainOutcome.usageExit c => some c
  | _ => none

namespace Version1

/-- Source `main` of Version1 (l.314-347) up to the creation of the threads; `height` is
`imageOut->height` after `initializeApplication`. The workers are the bands
`(startRow, endRow)`. -/
def main (argv : List String) (height : Nat) : MainOutcome (Int × Int) :=
  if argv.length < 4 then MainOutcome.usageExit 1
  else
    let numThreads := atoi (argv.getD 1 default)
    let Vec_of_FilePaths := argv.drop 3
    if numThreads = 0 then MainOutcome.divisionByZero Vec_of_FilePaths
    else MainOutcome.running Vec_of_FilePaths numThreads (bands height numThreads)

end Version1

namespace Version3

/-- Source `main` of Version3 (l.249-275) up to the creation of the threads: the statements
of Version1 `main`, with `startRow` and `endRow` held in `unsigned int` variables. -/
def main (argv : List String) (height : Nat) : MainOutcome (Int × Int) :=
  if argv.length < 4 then MainOutcome.usageExit 1
  else
    let numThreads := atoi (argv.getD 1 default)
    let Vec_of_FilePaths := argv.drop 3
    if numThreads = 0 then MainOutcome.divisionByZero Vec_of_FilePaths
    else MainOutcome.running Vec_of_FilePaths numThreads (Version1.bands height numThreads)

end Version3

namespace Version2

/-- Source `main` of Version2 (l.302-330) up to the creation of the threads: `numThreads`
threads are created by `for (int i = 0; i < numThreads; ++i)`, all with the same
arguments. -/
def main (argv : List String) : MainOutcome Unit :=
  if argv.length < 4 then MainOutcome.usageExit 1
  else
    let numThreads := atoi (argv.getD 1 default)
    let Vec_of_FilePaths := argv.drop 3
    MainOutcome.running Vec_of_FilePaths numThreads (List.replicate numThreads.toNat ())

end Version2

namespace PthreadVersion2

/-- Source `main` of pthread/Version2 (l.270-298) up to the creation of the threads:
`std::vector<pthread_t> threads(numThreads)` is constructed first, which throws for a
negative `numThreads`. -/
def main (argv : List String) : MainOutcome Unit :=
  if argv.length < 4 then MainOutcome.usageExit 1
  else
    let numThreads := atoi (argv.getD 1 default)
    let Vec_of_FilePaths := argv.drop 3
    if numThreads < 0 then MainOutcome.lengthError Vec_of_FilePaths
    else MainOutcome.running Vec_of_FilePaths numThreads (List.replicate numThreads.toNat ())

end PthreadVersion2

/-! ## The worker loops of the random-sampling variants -/

/-- The mutexes of the programs: `myMutex` (Version2 l.24, pthread/Version2 l.26),
`imageMutex` (Version3 l.142) and the region mutexes `regionMutexes[i]` (Version3 l.148). -/
inductive Mutex where
  | myMutex
  | imageMutex
  | region (i : Int)
  deriving DecidableEq

/-- A lock operation executed by a worker. -/
inductive LockOp where
  | lock (m : Mutex)
  | unlock (m : Mutex)
  deriving DecidableEq

/-- The mutexes a worker holds after a lock operation, given the ones it held before. -/
def holdAfter (held : List Mutex) : LockOp → List Mutex
  | LockOp.lock m => m :: held
  | LockOp.unlock m => held.filter (fun x => decide (x ≠ m))

/-- What a worker meets at one evaluation of its loop condition: the value that the global
`continue_going` (Version2 l.25) has at that moment, which is `false` once a stop has been
requested, and the centre that the two distributions deliver in the iteration that follows.
Version3 and pthread/Version2 have no such global; there the field records whether a stop
has been requested. -/
structure LoopInput where
  continue_going : Bool
  centerRow : Int
  centerCol : Int

/-- State of a worker between two iterations of its loop: the shared output image, the
mutexes the worker holds, and whether `focusStackingThread` has returned. -/
structure WorkerState where
  outputImage : RasterImage
  held : List Mutex
  returned : Bool

namespace Version2

/-- The lock operations of one iteration of Version2 `focusStackingThread`: the
`std::lock_guard` on `myMutex` is constructed at l.285 and destroyed at the end of the loop
body (l.298). The loop body of pthread/Version2 has the same operations, written as
`pthread_mutex_lock` (l.455) and `pthread_mutex_unlock` (l.468). -/
def lockOps : List LockOp := [LockOp.lock Mutex.myMutex, LockOp.unlock Mutex.myMutex]

/-- Source `focusStackingThread` of Version2 (l.262-299), `while (continue_going) { ... }`,
run on the given sequence of loop inputs, one per evaluation of the loop condition. -/
def focusStackingThread (imageStack : List RasterImage) :
    WorkerState → List LoopInput → WorkerState
  | st, [] => st
  | st, inp :: rest =>
    if inp.continue_going then
      focusStackingThread imageStack
        { outputImage := iteration imageStack st.outputImage inp.centerRow inp.centerCol,
          held := lockOps.foldl holdAfter st.held,
          returned := false } rest
    else { st with returned := true }

end Version2

namespace PthreadVersion2

/-- Source `focusStackingThread` of pthread/Version2 (l.431-472), `while (true) { ... }`
followed by the statements `delete data; return NULL;`, run on the given sequence of loop
inputs: the loop condition is the constant `true`, so every input starts an iteration. -/
def focusStackingThread (imageStack : List RasterImage) :
    WorkerState → List LoopInput → WorkerState
  | st, [] => st
  | st, inp :: rest =>
    focusStackingThread imageStack
      { outputImage :=
          Version2.iteration imageStack st.outputImage inp.centerRow inp.centerCol,
        held := Version2.lockOps.foldl holdAfter st.held,
        returned := false } rest

end PthreadVersion2

namespace Version3

/-- The lock operations of one iteration of Version3 `focusStackingThread`: the region
mutexes are locked in the iteration order of `uniqueRegionIndices` (l.422-424), the
`std::lock_guard` on `imageMutex` lives in the block of `if (bestImageIndex != -1)`
(l.439-452), and the region mutexes are unlocked in the same iteration order (l.453-455). -/
def lockOps (log : IterationLog) (best : Int) : List LockOp :=
  log.locked.map (fun i => LockOp.lock (Mutex.region i))
    ++ (if best ≠ -1 then [LockOp.lock Mutex.imageMutex, LockOp.unlock Mutex.imageMutex]
        else [])
    ++ log.unlocked.map (fun i => LockOp.unlock (Mutex.region i))

/-- Source `focusStackingThread` of Version3 (l.398-457), `while (true) { ... }`, run on the
given sequence of loop inputs: the loop condition is the constant `true`, so every input
starts an iteration. -/
def focusStackingThread (imageStack : List RasterImage) (startRow endRow : Int) :
    WorkerState → List LoopInput → WorkerState
  | st, [] => st
  | st, inp :: rest =>
    let result := iterationLogged imageStack st.outputImage startRow endRow
      inp.centerRow inp.centerCol
    focusStackingThread imageStack startRow endRow
      { outputImage := result.1,
        held := (lockOps result.2
          (Version2.selectBest imageStack inp.centerRow inp.centerCol 11)).foldl
            holdAfter st.held,
        returned := false } rest

end Version3

/-! ## The contrast and the selection in `double` arithmetic

The functions above compute the intensities and the contrast in exact rational arithmetic.
The programs compute them in `double`: the division by `3.0` and the final subtraction are
rounded, so that two windows whose exact contrasts are equal can have different contrasts in
the program. The definitions of this section take the rounding as the parameter `rnd`
(`rnd x` is the `double` nearest to `x`); `roundDouble` is the rounding of IEEE 754 binary64.
They are the source functions again, with the two rounded operations made explicit. -/

/-- The integer nearest to the rational `x`, a tie going to the even integer. -/
def roundHalfEven (x : ℚ) : Int :=
  if x - (⌊x⌋ : ℚ) < 1 / 2 then ⌊x⌋
  else if 1 / 2 < x - (⌊x⌋ : ℚ) then ⌊x⌋ + 1
  else if ⌊x⌋ % 2 = 0 then ⌊x⌋ else ⌊x⌋ + 1

/-- The `double` nearest to the rational `x` (IEEE 754 binary64, round to nearest, ties to
even), as a rational number: with `2^e ≤ |x| < 2^(e+1)` the value is rounded to a multiple
of `2^(e-52)`. Overflow and subnormal numbers are not modelled: the values of the programs
are 0 or of magnitude between `2^-54` and 255. -/
def roundDouble (x : ℚ) : ℚ :=
  if x = 0 then 0
  else
    (roundHalfEven (x * (2 : ℚ) ^ (52 - Int.log 2 |x|)) : ℚ) / (2 : ℚ) ^ (52 - Int.log 2 |x|)

/-- Source `convertToGrayscale` in `double` arithmetic: `(pixel[0] + pixel[1] + pixel[2]) /
3.0` is the rounded quotient (the sum is an `int`, converted exactly); the byte of a Gray
image converts exactly. -/
def Rounded.convertToGrayscale (rnd : ℚ → ℚ) (image : RasterImage) (row col : Int) : ℚ :=
  if image.type = ImageType.RGBA32_RASTER then
    let pixel : Int → Fin 256 := fun k => image.raster2D row (col * 4 + k)
    rnd ((((pixel 0).val + (pixel 1).val + (pixel 2).val : Nat) : ℚ) / 3)
  else if image.type = ImageType.GRAY_RASTER then
    ((image.raster2D row col).val : ℚ)
  else 0

/-- Body of the two nested loops of `calculateWindowContrast` in `double` arithmetic:
`std::min` and `std::max` are exact. -/
def Rounded.contrastBody (rnd : ℚ → ℚ) (image : RasterImage) (centerRow centerCol : Int)
    (acc : ℚ × ℚ) (i j : Int) : ℚ × ℚ :=
  let currentRow := toUnsigned (centerRow + i)
  let currentCol := toUnsigned (centerCol + j)
  if 0 ≤ currentRow ∧ currentRow < image.height ∧ 0 ≤ currentCol ∧ currentCol < image.width then
    let gray := Rounded.convertToGrayscale rnd image (toSigned currentRow) (toSigned currentCol)
    (min acc.1 gray, max acc.2 gray)
  else acc

/-- Source `calculateWindowContrast(image, centerRow, centerCol, windowSize)` of Version2,
Version3 and pthread/Version2 in `double` arithmetic: `maxGray - minGray` is rounded. -/
def Rounded.calculateWindowContrast (rnd : ℚ → ℚ) (image : RasterImage)
    (centerRow centerCol windowSize : Int) : ℚ :=
  let final := (windowOffsets windowSize).foldl
    (fun acc i => (windowOffsets windowSize).foldl
      (fun acc j => Rounded.contrastBody rnd image centerRow centerCol acc i j) acc)
    ((255 : ℚ), (0 : ℚ))
  rnd (final.2 - final.1)

/-- Selection loop of Version2, Version3 and pthread/Version2 `focusStackingThread` with the
contrast computed in `double` arithmetic; `double` values are compared exactly. -/
def Rounded.Version2.selectBest (rnd : ℚ → ℚ) (imageStack : List RasterImage)
    (centerRow centerCol windowSize : Int) : Int :=
  bestImageIndex
    (fun image => Rounded.calculateWindowContrast rnd image centerRow centerCol windowSize)
    imageStack

/-- Source `calculateWindowContrast(image, row, col)` of Version1 (l.262-278) in `double`
arithmetic. -/
def Rounded.Version1.calculateWindowContrast (rnd : ℚ → ℚ) (image : RasterImage)
    (row col : Int) : ℚ :=
  let final := (intRange (-2) 2).foldl
    (fun acc i => (intRange (-2) 2).foldl
      (fun acc j => Rounded.contrastBody rnd image row col acc i j) acc)
    ((255 : ℚ), (0 : ℚ))
  rnd (final.2 - final.1)

/-- Selection loop of Version1 `focusStackingThread` (l.290-299) with the contrast computed
in `double` arithmetic. -/
def Rounded.Version1.selectBest (rnd : ℚ → ℚ) (imageStack : List RasterImage)
    (row col : Int) : Int :=
  bestImageIndex (fun image => Rounded.Version1.calculateWindowContrast rnd image row col)
    imageStack

/-- Source `focusStackingThread(imageStack, outputImage, startRow, endRow)` of Version1
(l.287-306) with the contrast computed in `double` arithmetic. -/
def Rounded.Version1.focusStackingThread (rnd : ℚ → ℚ) (imageStack : List RasterImage)
    (outputImage : RasterImage) (startRow endRow : Int) : RasterImage :=
  (intRange startRow (endRow - 1)).foldl
    (fun out row => (List.range outputImage.width).foldl
      (fun out col =>
        copyBest imageStack (Rounded.Version1.selectBest rnd imageStack row (toSigned col))
          out row (toSigned col))
      out)
    outputImage

/-- The worker `Rounded.Version1.focusStackingThread` with a ghost log: the second component
records, in order, the `(row, col)` of every call of `copyPixel`. -/
def Rounded.Version1.focusStackingThreadLogged (rnd : ℚ → ℚ) (imageStack : List RasterImage)
    (state : RasterImage × List (Int × Int)) (startRow endRow : Int) :
    RasterImage × List (Int × Int) :=
  (intRange startRow (endRow - 1)).foldl
    (fun st row => (List.range state.1.width).foldl
      (fun st col =>
        let best := Rounded.Version1.selectBest rnd imageStack row (toSigned col)
        if best ≠ -1 then
          (copyBest imageStack best st.1 row (toSigned col), st.2 ++ [(row, toSigned col)])
        else st)
      st)
    state

/-- All band workers created by `main` of Version1, with the contrast computed in `double`
arithmetic, run to completion one after the other in creation order. -/
def Rounded.Version1.runThreads (rnd : ℚ → ℚ) (imageStack : List RasterImage)
    (imageOut : RasterImage) (numThreads : Int) : RasterImage :=
  (Version1.bands imageOut.height numThreads).foldl
    (fun out band => Rounded.Version1.focusStackingThread rnd imageStack out band.1 band.2)
    imageOut

/-- The band workers of `Rounded.Version1.runThreads` with the ghost log of `copyPixel`
calls. -/
def Rounded.Version1.runThreadsLogged (rnd : ℚ → ℚ) (imageStack : List RasterImage)
    (imageOut : RasterImage) (numThreads : Int) : RasterImage × List (Int × Int) :=
  (Version1.bands imageOut.height numThreads).foldl
    (fun st band =>
      Rounded.Version1.focusStackingThreadLogged rnd imageStack st band.1 band.2)
    (imageOut, [])

/-! ## Specification vocabulary -/

/-- A value of type `int` (32 bit). -/
def FitsInt (x : Int) : Prop := -2147483648 ≤ x ∧ x ≤ 2147483647

/-- Width and height of the image are representable as `int`. -/
def RasterImage.SizeOk (image : RasterImage) : Prop :=
  image.width ≤ 2147483647 ∧ image.height ≤ 2147483647

/-- Pixel `(r, c)` lies inside the image. -/
def inBounds (image : RasterImage) (r c : Int) : Prop :=
  0 ≤ r ∧ r < image.height ∧ 0 ≤ c ∧ c < image.width

instance (image : RasterImage) (r c : Int) : Decidable (inBounds image r c) := by
  unfold inBounds; infer_instance

/-- No signed overflow in `centerRow + i` and `centerCol + j` for the given offsets. -/
def OffsetsInRange (centerRow centerCol : Int) (offs : List Int) : Prop :=
  ∀ i ∈ offs, FitsInt (centerRow + i) ∧ FitsInt (centerCol + i)

/-- No signed overflow in the window loops of `calculateWindowContrast`. -/
def WindowInRange (centerRow centerCol windowSize : Int) : Prop :=
  OffsetsInRange centerRow centerCol (windowOffsets windowSize)

/-- Pixel `(r, c)` is an in-bounds pixel of the window given by its centre and offsets. -/
def inWindowOffs (image : RasterImage) (centerRow centerCol : Int) (offs : List Int)
    (r c : Int) : Prop :=
  r - centerRow ∈ offs ∧ c - centerCol ∈ offs ∧ inBounds image r c

/-- Pixel `(r, c)` is an in-bounds pixel of the window `(centerRow, centerCol, windowSize)`. -/
def inWindow (image : RasterImage) (centerRow centerCol windowSize : Int) (r c : Int) : Prop :=
  inWindowOffs image centerRow centerCol (windowOffsets windowSize) r c

/-- Number of bytes of one pixel. -/
def bytesPerPixel (t : ImageType) : Int :=
  match t with
  | ImageType.RGBA32_RASTER => 4
  | ImageType.GRAY_RASTER => 1

/-- The bytes of pixel `(r, c)`: four channels for RGBA, one for Gray. -/
def pixelBytes (image : RasterImage) (r c : Int) : List (Fin 256) :=
  (intRange 0 (bytesPerPixel image.type - 1)).map
    (fun i => image.raster2D r (c * bytesPerPixel image.type + i))

/-- Byte-identical images: same format and size, same contents of the raster buffer. -/
def SameImage (a b : RasterImage) : Prop :=
  a.type = b.type ∧ a.width = b.width ∧ a.height = b.height ∧
    ∀ r k : Int, 0 ≤ r → r < a.height → 0 ≤ k → k < a.width * bytesPerPixel a.type →
      a.raster2D r k = b.raster2D r k

/-- The image has the width, height and format of the output image. -/
def MatchesOutput (out image : RasterImage) : Prop :=
  image.width = out.width ∧ image.height = out.height ∧ image.type = out.type

/-! ## Auxiliary definitions used in the statements and proofs -/

/-- The two nested window loops over an arbitrary list of offsets (used for both the fixed
5x5 window of Version1 and the parameterised window of the other variants). -/
def contrastOver (image : RasterImage) (centerRow centerCol : Int) (offs : List Int) : ℚ :=
  let final := offs.foldl
    (fun acc i => offs.foldl (fun acc j => contrastBody image centerRow centerCol acc i j) acc)
    ((255 : ℚ), (0 : ℚ))
  final.2 - final.1

/-- Intensities of the in-bounds pixels among the given offset pairs, in visiting order. -/
def grayList (image : RasterImage) (centerRow centerCol : Int) (L : List (Int × Int)) : List ℚ :=
  (L.filter (fun p => decide (inBounds image (centerRow + p.1) (centerCol + p.2)))).map
    (fun p => convertToGrayscale image (centerRow + p.1) (centerCol + p.2))

/-- The value `v` is `max(intensity) - min(intensity)` over the in-bounds pixels of the window:
it is the difference of the intensities of two in-bounds window pixels, the first of which is
at least, and the second at most, as bright as every in-bounds window pixel. -/
def IsMaxMinusMin (image : RasterImage) (centerRow centerCol windowSize : Int) (v : ℚ) : Prop :=
  ∃ rmax cmax rmin cmin,
    inWindow image centerRow centerCol windowSize rmax cmax ∧
    inWindow image centerRow centerCol windowSize rmin cmin ∧
    v = convertToGrayscale image rmax cmax - convertToGrayscale image rmin cmin ∧
    ∀ r c, inWindow image centerRow centerCol windowSize r c →
      convertToGrayscale image rmin cmin ≤ convertToGrayscale image r c ∧
      convertToGrayscale image r c ≤ convertToGrayscale image rmax cmax

/-- Two RGBA images of the same size whose rasters agree on every colour byte (every byte
offset that is not `3` modulo `4`): they differ at most in the alpha channel. -/
def DiffersOnlyInAlpha (a b : RasterImage) : Prop :=
  a.type = ImageType.RGBA32_RASTER ∧ b.type = ImageType.RGBA32_RASTER ∧
    a.width = b.width ∧ a.height = b.height ∧
    ∀ r k : Int, k % 4 ≠ 3 → a.raster2D r k = b.raster2D r k

/-- Three times the intensity of a pixel, as an integer. -/
def grayScaled (image : RasterImage) (row col : Int) : Int :=
  if image.type = ImageType.RGBA32_RASTER then
    (((image.raster2D row (col * 4 + 0)).val + (image.raster2D row (col * 4 + 1)).val
      + (image.raster2D row (col * 4 + 2)).val : Nat) : Int)
  else if image.type = ImageType.GRAY_RASTER then
    3 * ((image.raster2D row col).val : Int)
  else 0

/-- The loop body `contrastBody` on intensities scaled by three. -/
def contrastBodyScaled (image : RasterImage) (centerRow centerCol : Int) (acc : Int × Int)
    (i j : Int) : Int × Int :=
  let currentRow := toUnsigned (centerRow + i)
  let currentCol := toUnsigned (centerCol + j)
  if 0 ≤ currentRow ∧ currentRow < image.height ∧ 0 ≤ currentCol ∧ currentCol < image.width then
    let gray := grayScaled image (toSigned currentRow) (toSigned currentCol)
    (min acc.1 gray, max acc.2 gray)
  else acc

/-- Three times `contrastOver`, computed in integers. -/
def contrastOverScaled (image : RasterImage) (centerRow centerCol : Int) (offs : List Int) :
    Int :=
  let final := offs.foldl
    (fun acc i => offs.foldl (fun acc j => contrastBodyScaled image centerRow centerCol acc i j)
      acc)
    ((765 : Int), (0 : Int))
  final.2 - final.1

/-- Map from the scaled integer state to the state `(minGray, maxGray)`. -/
def unscale (acc : Int × Int) : ℚ × ℚ := ((acc.1 : ℚ) / 3, (acc.2 : ℚ) / 3)

/-- One iteration of the column loop of Version1 `focusStackingThread` at pixel `p`. -/
def pixelStep (imageStack : List RasterImage) (out : RasterImage) (p : Int × Int) :
    RasterImage :=
  copyBest imageStack (Version1.selectBest imageStack p.1 p.2) out p.1 p.2

/-- Pixels visited by the two loops of `focusStackingThread` over the given rows, in order. -/
def bandPixels (width : Nat) (rows : List Int) : List (Int × Int) :=
  rows.flatMap (fun row => (List.range width).map (fun col => (row, toSigned col)))

/-- Byte `(r, k)` of the stack image with index `best`. -/
def srcByte (imageStack : List RasterImage) (best : Int) (r k : Int) : Fin 256 :=
  match imageStack[best.toNat]? with
  | some src => src.raster2D r k
  | none => 0

/-- One iteration of the column loop of `focusStackingThreadLogged` at pixel `p`. -/
def loggedStep (imageStack : List RasterImage) (st : RasterImage × List (Int × Int))
    (p : Int × Int) : RasterImage × List (Int × Int) :=
  if Version1.selectBest imageStack p.1 p.2 ≠ -1 then
    (copyBest imageStack (Version1.selectBest imageStack p.1 p.2) st.1 p.1 p.2, st.2 ++ [p])
  else st

/-- The pixel `(row, col)` that the window loops pass on at the offset pair `p`, if the bounds
test against `width` and `height` succeeds. -/
def targetOf (width height : Nat) (centerRow centerCol : Int) (p : Int × Int) :
    Option (Int × Int) :=
  if toUnsigned (centerRow + p.1) < height ∧ toUnsigned (centerCol + p.2) < width then
    some (toSigned (toUnsigned (centerRow + p.1)), toSigned (toUnsigned (centerCol + p.2)))
  else none

/-- The pixels that pass the bounds test of the window loops, in visiting order. -/
def windowTargets (width height : Nat) (centerRow centerCol : Int) (offs : List Int) :
    List (Int × Int) :=
  (offs.flatMap (fun i => offs.map (fun j => (i, j)))).filterMap
    (targetOf width height centerRow centerCol)

/-- One pixel step with the selection `sel row col` of the best image index. -/
def pixelStepWith (sel : Int → Int → Int) (imageStack : List RasterImage) (out : RasterImage)
    (p : Int × Int) : RasterImage :=
  copyBest imageStack (sel p.1 p.2) out p.1 p.2

/-- The property of the rounding of `double` arithmetic that the theorems use: the rounded
value of a non-negative number is not negative. -/
def RoundsNonneg (rnd : ℚ → ℚ) : Prop := ∀ x : ℚ, 0 ≤ x → 0 ≤ rnd x

/-- The window loops in `double` arithmetic over an arbitrary list of offsets. -/
def Rounded.contrastOver (rnd : ℚ → ℚ) (image : RasterImage) (centerRow centerCol : Int)
    (offs : List Int) : ℚ :=
  let final := offs.foldl
    (fun acc i => offs.foldl
      (fun acc j => Rounded.contrastBody rnd image centerRow centerCol acc i j) acc)
    ((255 : ℚ), (0 : ℚ))
  rnd (final.2 - final.1)

/-- The rounded intensities of the in-bounds pixels among the offset pairs `L`. -/
def Rounded.grayList (rnd : ℚ → ℚ) (image : RasterImage) (centerRow centerCol : Int)
    (L : List (Int × Int)) : List ℚ :=
  (L.filter (fun p => decide (inBounds image (centerRow + p.1) (centerCol + p.2)))).map
    (fun p => Rounded.convertToGrayscale rnd image (centerRow + p.1) (centerCol + p.2))

/-- One logged pixel step with the selection `sel row col` of the best image index. -/
def loggedStepWith (sel : Int → Int → Int) (imageStack : List RasterImage)
    (st : RasterImage × List (Int × Int)) (p : Int × Int) : RasterImage × List (Int × Int) :=
  if sel p.1 p.2 ≠ -1 then (copyBest imageStack (sel p.1 p.2) st.1 p.1 p.2, st.2 ++ [p])
  else st

/-! ## Sample images -/

/-- A 4x4 grayscale image with one bright pixel at `(1, 1)`. -/
def sampleGray : RasterImage :=
  ⟨ImageType.GRAY_RASTER, 4, 4, fun r c => if r = 1 ∧ c = 1 then 200 else 50⟩

/-- A 2x2 RGBA image with opaque alpha. -/
def sampleRGBA : RasterImage :=
  ⟨ImageType.RGBA32_RASTER, 2, 2, fun r k => if k % 4 = 3 then 255 else if r = 0 then 90 else 30⟩

/-- The image `sampleRGBA` with a different alpha channel. -/
def sampleRGBAalpha : RasterImage :=
  ⟨ImageType.RGBA32_RASTER, 2, 2, fun r k => if k % 4 = 3 then 7 else if r = 0 then 90 else 30⟩

/-- A 4x4 grayscale image that is uniformly 50. -/
def sampleFlat : RasterImage :=
  ⟨ImageType.GRAY_RASTER, 4, 4, fun _ _ => 50⟩

/-- An 8x8 grayscale image with a horizontal gradient. -/
def sample8 : RasterImage :=
  ⟨ImageType.GRAY_RASTER, 8, 8, fun _ k => if 0 ≤ k ∧ k < 8 then ⟨(30 * k.toNat) % 256, by omega⟩ else 0⟩

/-- An 8x8 grayscale output buffer filled with zeros. -/
def blank8 : RasterImage :=
  ⟨ImageType.GRAY_RASTER, 8, 8, fun _ _ => 0⟩

/-- A grayscale image of the given size whose pixels all have the value `fill`. -/
def uniformGray (width height : Nat) (fill : Fin 256) : RasterImage :=
  ⟨ImageType.GRAY_RASTER, width, height, fun _ _ => fill⟩

/-- Image A of the end-to-end scenario: 4x4 grayscale, uniformly 128. -/
def scenarioA : RasterImage := uniformGray 4 4 128

/-- Image B of the end-to-end scenario: 4x4 grayscale with a 2x2 checkerboard centred at the
grid point `(1, 1)`, that is on the pixels of rows 0..1 and columns 0..1 (`a` on the diagonal
`(0,0)`, `(1,1)` and `b` on `(0,1)`, `(1,0)`), on the uniform background `bg`. -/
def scenarioB (a b bg : Fin 256) : RasterImage :=
  ⟨ImageType.GRAY_RASTER, 4, 4, fun r k =>
    if (r = 0 ∧ k = 0) ∨ (r = 1 ∧ k = 1) then a
    else if (r = 0 ∧ k = 1) ∨ (r = 1 ∧ k = 0) then b
    else bg⟩

/-- Image C of the end-to-end scenario: 4x4 grayscale, uniformly 50. -/
def scenarioC : RasterImage := uniformGray 4 4 50

/-- A 2x1 RGBA image whose pixels have the channel sums 4 and 3. -/
def sampleX : RasterImage :=
  ⟨ImageType.RGBA32_RASTER, 2, 1, fun _ k =>
    if k = 0 then 2 else if k = 3 ∨ k = 7 then 255 else if 0 ≤ k ∧ k < 8 then 1 else 0⟩

/-- A 2x1 RGBA image whose pixels have the channel sums 1 and 0. -/
def sampleY : RasterImage :=
  ⟨ImageType.RGBA32_RASTER, 2, 1, fun _ k =>
    if k = 0 then 1 else if k = 3 ∨ k = 7 then 255 else 0⟩

/-! ## Machine integers and loop ranges -/

theorem mem_intRange (lo hi x : Int) : x ∈ intRange lo hi ↔ lo ≤ x ∧ x ≤ hi := by
  unfold intRange
  simp only [List.mem_map, List.mem_range]
  constructor
  · rintro ⟨k, hk, rfl⟩
    omega
  · rintro ⟨h1, h2⟩
    exact ⟨(x - lo).toNat, by omega, by omega⟩

theorem intRange_nodup (lo hi : Int) : (intRange lo hi).Nodup := by
  unfold intRange
  apply List.Nodup.map _ (List.nodup_range _)
  intro a b h
  simp only at h
  omega

theorem intRange_append (a b c : Int) (hab : a ≤ b) (hbc : b ≤ c) :
    intRange a (b - 1) ++ intRange b (c - 1) = intRange a (c - 1) := by
  unfold intRange
  have h1 : (c - 1 + 1 - a).toNat = (b - 1 + 1 - a).toNat + (c - 1 + 1 - b).toNat := by omega
  rw [h1, List.range_add, List.map_append, List.map_map]
  congr 1
  apply List.map_congr_left
  intro k _
  simp only [Function.comp]
  push_cast
  omega

theorem intRange_empty (lo hi : Int) (h : hi < lo) : intRange lo hi = [] := by
  unfold intRange
  have : (hi + 1 - lo).toNat = 0 := by omega
  rw [this]
  rfl

theorem toUnsigned_lt_iff (x : Int) (n : Nat) (hx : FitsInt x) (hn : n ≤ 2147483647) :
    toUnsigned x < n ↔ 0 ≤ x ∧ x < n := by
  unfold FitsInt at hx
  unfold toUnsigned
  omega

theorem toSigned_toUnsigned (x : Int) (n : Nat) (hn : n ≤ 2147483647) (h0 : 0 ≤ x)
    (h1 : x < n) : toSigned (toUnsigned x) = x := by
  unfold toSigned toUnsigned
  have e : (x % 4294967296).toNat = x.toNat := by omega
  rw [e]
  have e2 : x.toNat % 4294967296 = x.toNat := by omega
  rw [e2]
  split
  · omega
  · omega

theorem toSigned_of_lt (n : Nat) (hn : n ≤ 2147483647) : toSigned n = (n : Int) := by
  unfold toSigned
  have e2 : n % 4294967296 = n := by omega
  rw [e2]
  split
  · rfl
  · omega

theorem foldl_nested {α β γ : Type} (f : γ → α → β → γ) (xs : List α) (ys : List β) (init : γ) :
    xs.foldl (fun acc i => ys.foldl (fun acc j => f acc i j) acc) init
      = (xs.flatMap (fun i => ys.map (fun j => (i, j)))).foldl (fun acc p => f acc p.1 p.2) init := by
  induction xs generalizing init with
  | nil => rfl
  | cons x xs ih =>
    simp only [List.foldl_cons, List.flatMap_cons, List.foldl_append, List.foldl_map]
    exact ih _

/-! ## The contrast loops -/

theorem calculateWindowContrast_eq (image : RasterImage) (centerRow centerCol windowSize : Int) :
    calculateWindowContrast image centerRow centerCol windowSize
      = contrastOver image centerRow centerCol (windowOffsets windowSize) := rfl

theorem v1_calculateWindowContrast_eq (image : RasterImage) (row col : Int) :
    Version1.calculateWindowContrast image row col
      = contrastOver image row col (intRange (-2) 2) := rfl

theorem convertToGrayscale_nonneg (image : RasterImage) (row col : Int) :
    0 ≤ convertToGrayscale image row col := by
  unfold convertToGrayscale
  split
  · positivity
  · split
    · positivity
    · exact le_refl _

theorem convertToGrayscale_le (image : RasterImage) (row col : Int) :
    convertToGrayscale image row col ≤ 255 := by
  unfold convertToGrayscale
  split
  · have h0 := (image.raster2D row (col * 4 + 0)).isLt
    have h1 := (image.raster2D row (col * 4 + 1)).isLt
    have h2 := (image.raster2D row (col * 4 + 2)).isLt
    rw [div_le_iff₀ (by norm_num)]
    have : (image.raster2D row (col * 4 + 0)).val + (image.raster2D row (col * 4 + 1)).val
        + (image.raster2D row (col * 4 + 2)).val ≤ 765 := by omega
    have h : (((image.raster2D row (col * 4 + 0)).val + (image.raster2D row (col * 4 + 1)).val
        + (image.raster2D row (col * 4 + 2)).val : Nat) : ℚ) ≤ 765 := by exact_mod_cast this
    simpa using (by linarith : (((image.raster2D row (col * 4 + 0)).val
        + (image.raster2D row (col * 4 + 1)).val
        + (image.raster2D row (col * 4 + 2)).val : Nat) : ℚ) ≤ 255 * 3)
  · split
    · have h0 := (image.raster2D row col).isLt
      have : (image.raster2D row col).val ≤ 255 := by omega
      exact_mod_cast this
    · norm_num

theorem contrastBody_eq (image : RasterImage) (centerRow centerCol : Int) (acc : ℚ × ℚ)
    (i j : Int) (hs : image.SizeOk) (hi : FitsInt (centerRow + i)) (hj : FitsInt (centerCol + j)) :
    contrastBody image centerRow centerCol acc i j
      = if inBounds image (centerRow + i) (centerCol + j) then
          (min acc.1 (convertToGrayscale image (centerRow + i) (centerCol + j)),
           max acc.2 (convertToGrayscale image (centerRow + i) (centerCol + j)))
        else acc := by
  unfold contrastBody inBounds
  have hr := toUnsigned_lt_iff (centerRow + i) image.height hi hs.2
  have hc := toUnsigned_lt_iff (centerCol + j) image.width hj hs.1
  by_cases hb : (0 ≤ centerRow + i ∧ centerRow + i < image.height)
      ∧ (0 ≤ centerCol + j ∧ centerCol + j < image.width)
  · have e1 := toSigned_toUnsigned (centerRow + i) image.height hs.2 hb.1.1 hb.1.2
    have e2 := toSigned_toUnsigned (centerCol + j) image.width hs.1 hb.2.1 hb.2.2
    have c1 : 0 ≤ toUnsigned (centerRow + i) ∧ toUnsigned (centerRow + i) < image.height ∧
        0 ≤ toUnsigned (centerCol + j) ∧ toUnsigned (centerCol + j) < image.width :=
      ⟨Nat.zero_le _, hr.2 hb.1, Nat.zero_le _, hc.2 hb.2⟩
    have c2 : 0 ≤ centerRow + i ∧ centerRow + i < image.height ∧
        0 ≤ centerCol + j ∧ centerCol + j < image.width := ⟨hb.1.1, hb.1.2, hb.2.1, hb.2.2⟩
    simp only [c1, c2, and_self, if_true, e1, e2]
  · have c1 : ¬ (0 ≤ toUnsigned (centerRow + i) ∧ toUnsigned (centerRow + i) < image.height ∧
        0 ≤ toUnsigned (centerCol + j) ∧ toUnsigned (centerCol + j) < image.width) := by
      rintro ⟨_, h1, _, h2⟩
      exact hb ⟨hr.1 h1, hc.1 h2⟩
    have c2 : ¬ (0 ≤ centerRow + i ∧ centerRow + i < image.height ∧
        0 ≤ centerCol + j ∧ centerCol + j < image.width) := by
      rintro ⟨h1, h2, h3, h4⟩
      exact hb ⟨⟨h1, h2⟩, ⟨h3, h4⟩⟩
    rw [if_neg c1, if_neg c2]

theorem contrast_fold (image : RasterImage) (centerRow centerCol : Int) (hs : image.SizeOk)
    (L : List (Int × Int))
    (hL : ∀ p ∈ L, FitsInt (centerRow + p.1) ∧ FitsInt (centerCol + p.2)) (acc : ℚ × ℚ) :
    L.foldl (fun acc p => contrastBody image centerRow centerCol acc p.1 p.2) acc
      = ((grayList image centerRow centerCol L).foldl min acc.1,
         (grayList image centerRow centerCol L).foldl max acc.2) := by
  induction L generalizing acc with
  | nil => rfl
  | cons p L ih =>
    have hp := hL p (List.mem_cons_self _ _)
    have hL2 : ∀ q ∈ L, FitsInt (centerRow + q.1) ∧ FitsInt (centerCol + q.2) :=
      fun q hq => hL q (List.mem_cons_of_mem _ hq)
    rw [List.foldl_cons, ih hL2, contrastBody_eq image centerRow centerCol acc p.1 p.2 hs hp.1 hp.2]
    unfold grayList
    by_cases hb : inBounds image (centerRow + p.1) (centerCol + p.2)
    · simp [hb, List.filter_cons]
    · simp [hb, List.filter_cons]

theorem foldl_min_le_init (l : List ℚ) (a : ℚ) : l.foldl min a ≤ a := by
  induction l generalizing a with
  | nil => exact le_refl _
  | cons x l ih => exact le_trans (ih _) (min_le_left _ _)

theorem foldl_min_le_mem (l : List ℚ) (a x : ℚ) (hx : x ∈ l) : l.foldl min a ≤ x := by
  induction l generalizing a with
  | nil => cases hx
  | cons y l ih =>
    rcases List.mem_cons.1 hx with h | h
    · rw [List.foldl_cons, h]
      exact le_trans (foldl_min_le_init _ _) (min_le_right _ _)
    · exact ih _ h

theorem foldl_min_mem (l : List ℚ) (a : ℚ) : l.foldl min a = a ∨ l.foldl min a ∈ l := by
  induction l generalizing a with
  | nil => exact Or.inl rfl
  | cons y l ih =>
    rcases ih (min a y) with h | h
    · rw [List.foldl_cons, h]
      rcases min_choice a y with e | e
      · exact Or.inl e
      · exact Or.inr (by rw [e]; exact List.mem_cons_self _ _)
    · exact Or.inr (List.mem_cons_of_mem _ h)

theorem init_le_foldl_max (l : List ℚ) (a : ℚ) : a ≤ l.foldl max a := by
  induction l generalizing a with
  | nil => exact le_refl _
  | cons x l ih => exact le_trans (le_max_left _ _) (ih _)

theorem mem_le_foldl_max (l : List ℚ) (a x : ℚ) (hx : x ∈ l) : x ≤ l.foldl max a := by
  induction l generalizing a with
  | nil => cases hx
  | cons y l ih =>
    rcases List.mem_cons.1 hx with h | h
    · rw [List.foldl_cons, h]
      exact le_trans (le_max_right _ _) (init_le_foldl_max _ _)
    · exact ih _ h

theorem foldl_max_mem (l : List ℚ) (a : ℚ) : l.foldl max a = a ∨ l.foldl max a ∈ l := by
  induction l generalizing a with
  | nil => exact Or.inl rfl
  | cons y l ih =>
    rcases ih (max a y) with h | h
    · rw [List.foldl_cons, h]
      rcases max_choice a y with e | e
      · exact Or.inl e
      · exact Or.inr (by rw [e]; exact List.mem_cons_self _ _)
    · exact Or.inr (List.mem_cons_of_mem _ h)

theorem mem_offsetPairs (offs : List Int) (p : Int × Int) :
    p ∈ offs.flatMap (fun i => offs.map (fun j => (i, j))) ↔ p.1 ∈ offs ∧ p.2 ∈ offs := by
  simp only [List.mem_flatMap, List.mem_map]
  constructor
  · rintro ⟨i, hi, j, hj, rfl⟩
    exact ⟨hi, hj⟩
  · rintro ⟨h1, h2⟩
    exact ⟨p.1, h1, p.2, h2, rfl⟩

theorem mem_grayList (image : RasterImage) (centerRow centerCol : Int) (L : List (Int × Int))
    (g : ℚ) :
    g ∈ grayList image centerRow centerCol L ↔
      ∃ p ∈ L, inBounds image (centerRow + p.1) (centerCol + p.2) ∧
        convertToGrayscale image (centerRow + p.1) (centerCol + p.2) = g := by
  unfold grayList
  simp only [List.mem_map, List.mem_filter, decide_eq_true_eq]
  constructor
  · rintro ⟨p, ⟨hp, hb⟩, rfl⟩
    exact ⟨p, hp, hb, rfl⟩
  · rintro ⟨p, hp, hb, rfl⟩
    exact ⟨p, ⟨hp, hb⟩, rfl⟩

theorem contrastOver_eq (image : RasterImage) (centerRow centerCol : Int) (offs : List Int)
    (hs : image.SizeOk) (hr : OffsetsInRange centerRow centerCol offs) :
    contrastOver image centerRow centerCol offs
      = (grayList image centerRow centerCol
            (offs.flatMap (fun i => offs.map (fun j => (i, j))))).foldl max 0
        - (grayList image centerRow centerCol
            (offs.flatMap (fun i => offs.map (fun j => (i, j))))).foldl min 255 := by
  unfold contrastOver
  rw [foldl_nested (fun acc i j => contrastBody image centerRow centerCol acc i j) offs offs]
  rw [contrast_fold image centerRow centerCol hs]
  intro p hp
  rw [mem_offsetPairs] at hp
  exact ⟨(hr p.1 hp.1).1, (hr p.2 hp.2).2⟩

theorem mem_grayList_of_inWindowOffs (image : RasterImage) (centerRow centerCol : Int)
    (offs : List Int) (r c : Int) (h : inWindowOffs image centerRow centerCol offs r c) :
    convertToGrayscale image r c ∈ grayList image centerRow centerCol
      (offs.flatMap (fun i => offs.map (fun j => (i, j)))) := by
  rw [mem_grayList]
  refine ⟨(r - centerRow, c - centerCol), (mem_offsetPairs _ _).2 ⟨h.1, h.2.1⟩, ?_, ?_⟩
  · have e1 : centerRow + (r - centerRow) = r := by ring
    have e2 : centerCol + (c - centerCol) = c := by ring
    simp only [e1, e2]
    exact h.2.2
  · have e1 : centerRow + (r - centerRow) = r := by ring
    have e2 : centerCol + (c - centerCol) = c := by ring
    simp only [e1, e2]

theorem inWindowOffs_of_mem_grayList (image : RasterImage) (centerRow centerCol : Int)
    (offs : List Int) (g : ℚ)
    (h : g ∈ grayList image centerRow centerCol
      (offs.flatMap (fun i => offs.map (fun j => (i, j))))) :
    ∃ r c, inWindowOffs image centerRow centerCol offs r c ∧ convertToGrayscale image r c = g := by
  rw [mem_grayList] at h
  obtain ⟨p, hp, hb, hg⟩ := h
  rw [mem_offsetPairs] at hp
  refine ⟨centerRow + p.1, centerCol + p.2, ⟨?_, ?_, hb⟩, hg⟩
  · have e : centerRow + p.1 - centerRow = p.1 := by ring
    rw [e]; exact hp.1
  · have e : centerCol + p.2 - centerCol = p.2 := by ring
    rw [e]; exact hp.2

/-- The window loops return `max - min` of the intensities of the in-bounds window pixels
whenever there is one. -/
theorem contrastOver_spec (image : RasterImage) (centerRow centerCol : Int) (offs : List Int)
    (hs : image.SizeOk) (hr : OffsetsInRange centerRow centerCol offs)
    (hne : ∃ r c, inWindowOffs image centerRow centerCol offs r c) :
    ∃ rmax cmax rmin cmin,
      inWindowOffs image centerRow centerCol offs rmax cmax ∧
      inWindowOffs image centerRow centerCol offs rmin cmin ∧
      contrastOver image centerRow centerCol offs
        = convertToGrayscale image rmax cmax - convertToGrayscale image rmin cmin ∧
      ∀ r c, inWindowOffs image centerRow centerCol offs r c →
        convertToGrayscale image rmin cmin ≤ convertToGrayscale image r c ∧
        convertToGrayscale image r c ≤ convertToGrayscale image rmax cmax := by
  obtain ⟨r0, c0, h0⟩ := hne
  have hmem0 := mem_grayList_of_inWindowOffs image centerRow centerCol offs r0 c0 h0
  rw [contrastOver_eq image centerRow centerCol offs hs hr]
  generalize hG : grayList image centerRow centerCol
      (offs.flatMap (fun i => offs.map (fun j => (i, j)))) = G at hmem0
  have hminmem : G.foldl min 255 ∈ G := by
    rcases foldl_min_mem G 255 with h | h
    · have h1 := foldl_min_le_mem G 255 _ hmem0
      have h2 := convertToGrayscale_le image r0 c0
      have : convertToGrayscale image r0 c0 = 255 := le_antisymm h2 (by rw [h] at h1; exact h1)
      rw [h, ← this]
      exact hmem0
    · exact h
  have hmaxmem : G.foldl max 0 ∈ G := by
    rcases foldl_max_mem G 0 with h | h
    · have h1 := mem_le_foldl_max G 0 _ hmem0
      have h2 := convertToGrayscale_nonneg image r0 c0
      have : convertToGrayscale image r0 c0 = 0 := le_antisymm (by rw [h] at h1; exact h1) h2
      rw [h, ← this]
      exact hmem0
    · exact h
  rw [← hG] at hminmem hmaxmem
  obtain ⟨rmax, cmax, hwmax, hgmax⟩ := inWindowOffs_of_mem_grayList _ _ _ _ _ hmaxmem
  obtain ⟨rmin, cmin, hwmin, hgmin⟩ := inWindowOffs_of_mem_grayList _ _ _ _ _ hminmem
  rw [hG] at hgmax hgmin
  refine ⟨rmax, cmax, rmin, cmin, hwmax, hwmin, by rw [hgmax, hgmin], ?_⟩
  intro r c hrc
  have hm := mem_grayList_of_inWindowOffs image centerRow centerCol offs r c hrc
  rw [hG] at hm
  rw [hgmax, hgmin]
  exact ⟨foldl_min_le_mem G 255 _ hm, mem_le_foldl_max G 0 _ hm⟩

/-- The window loops return `0 - 255` when no offset of the window is in bounds. -/
theorem contrastOver_empty (image : RasterImage) (centerRow centerCol : Int) (offs : List Int)
    (hs : image.SizeOk) (hr : OffsetsInRange centerRow centerCol offs)
    (hnone : ∀ r c, ¬ inWindowOffs image centerRow centerCol offs r c) :
    contrastOver image centerRow centerCol offs = -255 := by
  rw [contrastOver_eq image centerRow centerCol offs hs hr]
  have hG : grayList image centerRow centerCol
      (offs.flatMap (fun i => offs.map (fun j => (i, j)))) = [] := by
    apply List.eq_nil_iff_forall_not_mem.2
    intro g hg
    obtain ⟨r, c, hw, _⟩ := inWindowOffs_of_mem_grayList _ _ _ _ _ hg
    exact hnone r c hw
  rw [hG]
  simp only [List.foldl_nil]
  norm_num

theorem contrastOver_nonneg (image : RasterImage) (centerRow centerCol : Int) (offs : List Int)
    (hs : image.SizeOk) (hr : OffsetsInRange centerRow centerCol offs)
    (hne : ∃ r c, inWindowOffs image centerRow centerCol offs r c) :
    0 ≤ contrastOver image centerRow centerCol offs := by
  obtain ⟨rmax, cmax, rmin, cmin, _, hwmin, he, hall⟩ :=
    contrastOver_spec image centerRow centerCol offs hs hr hne
  rw [he]
  have := (hall rmin cmin hwmin).2
  linarith

theorem windowOffsets_five : windowOffsets 5 = intRange (-2) 2 := by decide

theorem v1_contrast_eq_windowSize_five (image : RasterImage) (row col : Int) :
    Version1.calculateWindowContrast image row col = calculateWindowContrast image row col 5 := by
  rw [v1_calculateWindowContrast_eq, calculateWindowContrast_eq, windowOffsets_five]

theorem convertToGrayscale_alpha (a b : RasterImage) (h : DiffersOnlyInAlpha a b)
    (row col : Int) : convertToGrayscale a row col = convertToGrayscale b row col := by
  obtain ⟨ha, hb, _, _, hbytes⟩ := h
  unfold convertToGrayscale
  rw [if_pos ha, if_pos hb]
  simp only
  rw [hbytes row (col * 4 + 0) (by omega), hbytes row (col * 4 + 1) (by omega),
    hbytes row (col * 4 + 2) (by omega)]

theorem contrastBody_alpha (a b : RasterImage) (h : DiffersOnlyInAlpha a b)
    (centerRow centerCol : Int) (acc : ℚ × ℚ) (i j : Int) :
    contrastBody a centerRow centerCol acc i j = contrastBody b centerRow centerCol acc i j := by
  unfold contrastBody
  simp only [convertToGrayscale_alpha a b h, h.2.2.1, h.2.2.2.1]

theorem contrastOver_alpha (a b : RasterImage) (h : DiffersOnlyInAlpha a b)
    (centerRow centerCol : Int) (offs : List Int) :
    contrastOver a centerRow centerCol offs = contrastOver b centerRow centerCol offs := by
  unfold contrastOver
  have e : (fun (acc : ℚ × ℚ) (i : Int) =>
        offs.foldl (fun acc j => contrastBody a centerRow centerCol acc i j) acc)
      = (fun (acc : ℚ × ℚ) (i : Int) =>
        offs.foldl (fun acc j => contrastBody b centerRow centerCol acc i j) acc) := by
    funext acc i
    congr 1
    funext acc j
    exact contrastBody_alpha a b h centerRow centerCol acc i j
  rw [e]

/-! ## Claims C1 - C3: the sharpness metric -/

/-- C1: for every image and every window with at least one in-bounds pixel,
`calculateWindowContrast` returns `max(intensity) - min(intensity)` over the in-bounds pixels of
the window only (the maximum and the minimum are attained at in-bounds window pixels, so
out-of-bounds offsets are never counted as intensity 0); the same holds for the fixed 5x5
window of Version1. Sizes and `centre + offset` are assumed to be representable as `int`. -/
theorem C1_contrast_is_max_minus_min (image : RasterImage)
    (centerRow centerCol windowSize : Int)
    (hs : image.SizeOk) (hr : WindowInRange centerRow centerCol windowSize)
    (hne : ∃ r c, inWindow image centerRow centerCol windowSize r c) :
    IsMaxMinusMin image centerRow centerCol windowSize
        (calculateWindowContrast image centerRow centerCol windowSize) ∧
      (windowSize = 5 →
        IsMaxMinusMin image centerRow centerCol 5
          (Version1.calculateWindowContrast image centerRow centerCol)) := by
  have key : IsMaxMinusMin image centerRow centerCol windowSize
      (calculateWindowContrast image centerRow centerCol windowSize) := by
    rw [calculateWindowContrast_eq]
    exact contrastOver_spec image centerRow centerCol (windowOffsets windowSize) hs hr hne
  refine ⟨key, ?_⟩
  intro h5
  subst h5
  rw [v1_contrast_eq_windowSize_five]
  exact key

theorem C1_contrast_is_max_minus_min_witness :
    IsMaxMinusMin sampleGray 0 0 5 (calculateWindowContrast sampleGray 0 0 5) ∧
      IsMaxMinusMin sampleGray 0 0 5 (Version1.calculateWindowContrast sampleGray 0 0) :=
  ⟨(C1_contrast_is_max_minus_min sampleGray 0 0 5 (by unfold RasterImage.SizeOk; decide)
      (by unfold WindowInRange OffsetsInRange FitsInt; decide)
      ⟨0, 0, by unfold inWindow inWindowOffs inBounds; decide⟩).1,
   (C1_contrast_is_max_minus_min sampleGray 0 0 5 (by unfold RasterImage.SizeOk; decide)
      (by unfold WindowInRange OffsetsInRange FitsInt; decide)
      ⟨0, 0, by unfold inWindow inWindowOffs inBounds; decide⟩).2 rfl⟩

/-- C2: `convertToGrayscale` returns the mean `(R+G+B)/3` of the three colour channels of an
RGBA pixel and the raw channel value of a Gray pixel; it does not read the alpha channel, so
two RGBA images that differ only in alpha have the same intensity at every pixel and the same
contrast at every window. -/
theorem C2_grayscale_mean_ignores_alpha (image other : RasterImage) (row col : Int) :
    (image.type = ImageType.RGBA32_RASTER →
      convertToGrayscale image row col
        = (((image.raster2D row (col * 4)).val + (image.raster2D row (col * 4 + 1)).val
            + (image.raster2D row (col * 4 + 2)).val : Nat) : ℚ) / 3) ∧
    (image.type = ImageType.GRAY_RASTER →
      convertToGrayscale image row col = ((image.raster2D row col).val : ℚ)) ∧
    (DiffersOnlyInAlpha image other →
      convertToGrayscale image row col = convertToGrayscale other row col ∧
      (∀ windowSize : Int, calculateWindowContrast image row col windowSize
          = calculateWindowContrast other row col windowSize) ∧
      Version1.calculateWindowContrast image row col
          = Version1.calculateWindowContrast other row col) := by
  refine ⟨?_, ?_, ?_⟩
  · intro h
    unfold convertToGrayscale
    rw [if_pos h]
    simp only [add_zero]
  · intro h
    unfold convertToGrayscale
    rw [if_neg (by rw [h]; decide), if_pos h]
  · intro h
    refine ⟨convertToGrayscale_alpha image other h row col, ?_, ?_⟩
    · intro windowSize
      rw [calculateWindowContrast_eq, calculateWindowContrast_eq]
      exact contrastOver_alpha image other h row col _
    · rw [v1_calculateWindowContrast_eq, v1_calculateWindowContrast_eq]
      exact contrastOver_alpha image other h row col _

theorem sample_differsOnlyInAlpha : DiffersOnlyInAlpha sampleRGBA sampleRGBAalpha := by
  refine ⟨rfl, rfl, rfl, rfl, ?_⟩
  intro r k hk
  simp only [sampleRGBA, sampleRGBAalpha, if_neg hk]

theorem C2_grayscale_mean_ignores_alpha_witness :
    convertToGrayscale sampleRGBA 0 1
        = (((sampleRGBA.raster2D 0 (1 * 4)).val + (sampleRGBA.raster2D 0 (1 * 4 + 1)).val
            + (sampleRGBA.raster2D 0 (1 * 4 + 2)).val : Nat) : ℚ) / 3 ∧
      convertToGrayscale sampleGray 1 1 = ((sampleGray.raster2D 1 1).val : ℚ) ∧
      convertToGrayscale sampleRGBA 0 1 = convertToGrayscale sampleRGBAalpha 0 1 :=
  ⟨(C2_grayscale_mean_ignores_alpha sampleRGBA sampleRGBAalpha 0 1).1 rfl,
   (C2_grayscale_mean_ignores_alpha sampleGray sampleGray 1 1).2.1 rfl,
   ((C2_grayscale_mean_ignores_alpha sampleRGBA sampleRGBAalpha 0 1).2.2
      sample_differsOnlyInAlpha).1⟩

theorem mem_windowOffsets (windowSize x : Int) :
    x ∈ windowOffsets windowSize ↔
      Int.tdiv (-windowSize) 2 ≤ x ∧ x ≤ Int.tdiv windowSize 2 := by
  unfold windowOffsets
  exact mem_intRange _ _ _

theorem zero_mem_windowOffsets (windowSize : Int) (h : 0 ≤ windowSize) :
    (0 : Int) ∈ windowOffsets windowSize := by
  rw [mem_windowOffsets, Int.neg_tdiv, Int.tdiv_eq_ediv h (by decide)]
  omega

theorem mem_windowOffsets_abs (windowSize x : Int) (h : 0 ≤ windowSize)
    (hx : x ∈ windowOffsets windowSize) : -windowSize ≤ 2 * x ∧ 2 * x ≤ windowSize := by
  rw [mem_windowOffsets, Int.neg_tdiv, Int.tdiv_eq_ediv h (by decide)] at hx
  omega

theorem windowOffsets_zero : windowOffsets 0 = [0] := by decide

theorem inWindow_center (image : RasterImage) (centerRow centerCol windowSize : Int)
    (h : 0 ≤ windowSize) (hb : inBounds image centerRow centerCol) :
    inWindow image centerRow centerCol windowSize centerRow centerCol := by
  refine ⟨?_, ?_, hb⟩
  · rw [sub_self]; exact zero_mem_windowOffsets windowSize h
  · rw [sub_self]; exact zero_mem_windowOffsets windowSize h

/-- C3 (as the code behaves): under the `int` range assumptions, `calculateWindowContrast`
returns `0.0 - 255.0 = -255.0` (the difference of the initial values of `maxGray` and `minGray`)
for every window that has no in-bounds offset; a window of size 0 visits exactly the centre
pixel and returns `0.0` when the centre is in bounds and `-255.0` when it is not. -/
theorem C3_contrast_of_empty_window (image : RasterImage)
    (centerRow centerCol windowSize : Int)
    (hs : image.SizeOk) (hr : WindowInRange centerRow centerCol windowSize) :
    ((∀ r c, ¬ inWindow image centerRow centerCol windowSize r c) →
        calculateWindowContrast image centerRow centerCol windowSize = -255) ∧
    (windowSize = 0 → inBounds image centerRow centerCol →
        calculateWindowContrast image centerRow centerCol windowSize = 0) ∧
    (windowSize = 0 → ¬ inBounds image centerRow centerCol →
        calculateWindowContrast image centerRow centerCol windowSize = -255) := by
  have hempty : (∀ r c, ¬ inWindow image centerRow centerCol windowSize r c) →
      calculateWindowContrast image centerRow centerCol windowSize = -255 := by
    intro hnone
    rw [calculateWindowContrast_eq]
    exact contrastOver_empty image centerRow centerCol _ hs hr hnone
  refine ⟨hempty, ?_, ?_⟩
  · intro h0 hb
    subst h0
    have hcenter : ∀ r c, inWindow image centerRow centerCol 0 r c →
        r = centerRow ∧ c = centerCol := by
      intro r c hw
      have h1 := hw.1
      have h2 := hw.2.1
      rw [windowOffsets_zero, List.mem_singleton] at h1 h2
      exact ⟨by omega, by omega⟩
    obtain ⟨rmax, cmax, rmin, cmin, hwmax, hwmin, he, _⟩ :=
      contrastOver_spec image centerRow centerCol (windowOffsets 0) hs hr
        ⟨centerRow, centerCol, inWindow_center image centerRow centerCol 0 (le_refl _) hb⟩
    rw [calculateWindowContrast_eq, he]
    obtain ⟨e1, e2⟩ := hcenter rmax cmax hwmax
    obtain ⟨e3, e4⟩ := hcenter rmin cmin hwmin
    rw [e1, e2, e3, e4, sub_self]
  · intro h0 hb
    apply hempty
    intro r c hw
    subst h0
    have h1 := hw.1
    have h2 := hw.2.1
    rw [windowOffsets_zero, List.mem_singleton] at h1 h2
    have er : r = centerRow := by omega
    have ec : c = centerCol := by omega
    rw [er, ec] at hw
    exact hb hw.2.2

theorem sampleGray_sizeOk : sampleGray.SizeOk := by
  unfold RasterImage.SizeOk; decide

theorem sampleGray_no_window_far (centerRow centerCol windowSize : Int)
    (hw : 0 ≤ windowSize) (hfar : 8 + windowSize ≤ 2 * centerRow) :
    ∀ r c, ¬ inWindow sampleGray centerRow centerCol windowSize r c := by
  intro r c h
  have h1 := mem_windowOffsets_abs windowSize _ hw h.1
  have hb := h.2.2
  unfold inBounds at hb
  have hh : sampleGray.height = 4 := rfl
  rw [hh] at hb
  omega

theorem C3_contrast_of_empty_window_witness :
    calculateWindowContrast sampleGray 12 12 3 = -255 ∧
    calculateWindowContrast sampleGray 2 2 0 = 0 ∧
    calculateWindowContrast sampleGray 9 9 0 = -255 :=
  ⟨(C3_contrast_of_empty_window sampleGray 12 12 3 sampleGray_sizeOk
      (by unfold WindowInRange OffsetsInRange FitsInt; decide)).1
      (sampleGray_no_window_far 12 12 3 (by decide) (by decide)),
   (C3_contrast_of_empty_window sampleGray 2 2 0 sampleGray_sizeOk
      (by unfold WindowInRange OffsetsInRange FitsInt; decide)).2.1 rfl
      (by unfold inBounds; decide),
   (C3_contrast_of_empty_window sampleGray 9 9 0 sampleGray_sizeOk
      (by unfold WindowInRange OffsetsInRange FitsInt; decide)).2.2 rfl
      (by unfold inBounds; decide)⟩

/-- C3 fails as stated: the window of size 3 centred at `(10, 10)` lies fully outside the 4x4
image `sampleGray`, and so does the window of size 0 centred there, yet
`calculateWindowContrast` returns `-255`, not `0`, for both. -/
theorem C3_counterexample :
    (∀ r c, ¬ inWindow sampleGray 10 10 3 r c) ∧
    calculateWindowContrast sampleGray 10 10 3 = -255 ∧
    calculateWindowContrast sampleGray 10 10 3 ≠ 0 ∧
    calculateWindowContrast sampleGray 10 10 0 ≠ 0 := by
  have hnone3 := sampleGray_no_window_far 10 10 3 (by decide) (by decide)
  have hnone0 := sampleGray_no_window_far 10 10 0 (by decide) (by decide)
  have e3 : calculateWindowContrast sampleGray 10 10 3 = -255 := by
    rw [calculateWindowContrast_eq]
    exact contrastOver_empty sampleGray 10 10 _ sampleGray_sizeOk
      (by unfold OffsetsInRange FitsInt; decide) hnone3
  have e0 : calculateWindowContrast sampleGray 10 10 0 = -255 := by
    rw [calculateWindowContrast_eq]
    exact contrastOver_empty sampleGray 10 10 _ sampleGray_sizeOk
      (by unfold OffsetsInRange FitsInt; decide) hnone0
  refine ⟨hnone3, e3, ?_, ?_⟩
  · rw [e3]; norm_num
  · rw [e0]; norm_num

/-! ## The selection loop -/

/-- Invariant of the selection loop: either no image beat the incoming `highestContrast` and
the state is unchanged, or the final state is `(contrast, index)` of the first image whose
contrast is maximal, and that contrast is strictly above the incoming `highestContrast`. -/
theorem selectionLoop_spec (f : RasterImage → ℚ) (l : List RasterImage) (n : Nat)
    (acc : ℚ × Int) :
    (selectionLoop f l n acc = acc ∧ ∀ img ∈ l, f img ≤ acc.1) ∨
    (∃ (k : Nat) (img : RasterImage), l[k]? = some img ∧
      selectionLoop f l n acc = (f img, ((n + k : Nat) : Int)) ∧ acc.1 < f img ∧
      (∀ j img2, j < k → l[j]? = some img2 → f img2 < f img) ∧
      (∀ img2 ∈ l, f img2 ≤ f img)) := by
  induction l generalizing n acc with
  | nil =>
    left
    exact ⟨rfl, fun img h => by cases h⟩
  | cons x rest ih =>
    unfold selectionLoop
    by_cases hx : f x > acc.1
    · simp only [hx, if_true]
      right
      rcases ih (n + 1) (f x, (n : Int)) with ⟨he, hall⟩ | ⟨k, img, hk, he, hlt, hbefore, hall⟩
      · refine ⟨0, x, by simp, ?_, hx, ?_, ?_⟩
        · rw [he]; simp
        · intro j img2 hj _
          omega
        · intro img2 h2
          rcases List.mem_cons.1 h2 with h | h
          · rw [h]
          · exact hall img2 h
      · refine ⟨k + 1, img, by simpa using hk, ?_, ?_, ?_, ?_⟩
        · rw [he]
          have : n + 1 + k = n + (k + 1) := by omega
          rw [this]
        · exact lt_trans hx hlt
        · intro j img2 hj h2
          cases j with
          | zero =>
            simp only [List.getElem?_cons_zero, Option.some.injEq] at h2
            rw [← h2]
            exact hlt
          | succ j =>
            simp only [List.getElem?_cons_succ] at h2
            exact hbefore j img2 (by omega) h2
        · intro img2 h2
          rcases List.mem_cons.1 h2 with h | h
          · rw [h]; exact le_of_lt hlt
          · exact hall img2 h
    · simp only [hx, if_false]
      rcases ih (n + 1) acc with ⟨he, hall⟩ | ⟨k, img, hk, he, hlt, hbefore, hall⟩
      · left
        refine ⟨he, ?_⟩
        intro img2 h2
        rcases List.mem_cons.1 h2 with h | h
        · rw [h]; exact not_lt.1 hx
        · exact hall img2 h
      · right
        refine ⟨k + 1, img, by simpa using hk, ?_, hlt, ?_, ?_⟩
        · rw [he]
          have : n + 1 + k = n + (k + 1) := by omega
          rw [this]
        · intro j img2 hj h2
          cases j with
          | zero =>
            simp only [List.getElem?_cons_zero, Option.some.injEq] at h2
            rw [← h2]
            exact lt_of_le_of_lt (not_lt.1 hx) hlt
          | succ j =>
            simp only [List.getElem?_cons_succ] at h2
            exact hbefore j img2 (by omega) h2
        · intro img2 h2
          rcases List.mem_cons.1 h2 with h | h
          · rw [h]; exact le_trans (not_lt.1 hx) (le_of_lt hlt)
          · exact hall img2 h

/-- Outcome of the selection loop from the initial state `(-1.0, -1)`: either no image has
contrast above `-1` and `bestImageIndex` stays `-1`, or it is the lowest index of an image of
maximal contrast, and that contrast is above `-1`. -/
theorem bestImageIndex_spec (f : RasterImage → ℚ) (l : List RasterImage) :
    (bestImageIndex f l = -1 ∧ ∀ img ∈ l, f img ≤ -1) ∨
    (∃ (k : Nat) (img : RasterImage), l[k]? = some img ∧ bestImageIndex f l = (k : Int) ∧
      -1 < f img ∧
      (∀ j img2, j < k → l[j]? = some img2 → f img2 < f img) ∧
      (∀ img2 ∈ l, f img2 ≤ f img)) := by
  unfold bestImageIndex
  rcases selectionLoop_spec f l 0 ((-1 : ℚ), (-1 : Int)) with
    ⟨he, hall⟩ | ⟨k, img, hk, he, hlt, hbefore, hall⟩
  · left
    exact ⟨by rw [he], hall⟩
  · right
    refine ⟨k, img, hk, ?_, hlt, hbefore, hall⟩
    rw [he]
    simp

theorem bestImageIndex_eq_neg_one_iff (f : RasterImage → ℚ) (l : List RasterImage) :
    bestImageIndex f l = -1 ↔ ∀ img ∈ l, f img ≤ -1 := by
  rcases bestImageIndex_spec f l with ⟨he, hall⟩ | ⟨k, img, hk, he, hlt, _, hall⟩
  · exact ⟨fun _ => hall, fun _ => he⟩
  · constructor
    · intro h
      rw [he] at h
      omega
    · intro h
      have := h img (List.getElem?_mem hk)
      exact absurd hlt (not_lt.2 this)

theorem bestImageIndex_range (f : RasterImage → ℚ) (l : List RasterImage) :
    bestImageIndex f l = -1 ∨ (0 ≤ bestImageIndex f l ∧ bestImageIndex f l < l.length) := by
  rcases bestImageIndex_spec f l with ⟨he, _⟩ | ⟨k, img, hk, he, _, _, _⟩
  · exact Or.inl he
  · right
    rw [he]
    have := (List.getElem?_eq_some.1 hk).1
    omega

/-- An image of maximal contrast above `-1` makes the loop return the lowest index of an image
with that contrast. -/
theorem bestImageIndex_lowest_max (f : RasterImage → ℚ) (l : List RasterImage)
    (k : Nat) (img : RasterImage) (hk : l[k]? = some img) (hpos : -1 < f img)
    (hmax : ∀ img2 ∈ l, f img2 ≤ f img) :
    ∃ (m : Nat) (imgm : RasterImage), l[m]? = some imgm ∧ bestImageIndex f l = (m : Int) ∧
      f imgm = f img ∧ m ≤ k ∧
      ∀ j img2, j < m → l[j]? = some img2 → f img2 < f img := by
  rcases bestImageIndex_spec f l with ⟨_, hall⟩ | ⟨m, imgm, hm, he, _, hbefore, hall⟩
  · exact absurd hpos (not_lt.2 (hall img (List.getElem?_mem hk)))
  · have e : f imgm = f img :=
      le_antisymm (hmax imgm (List.getElem?_mem hm)) (hall img (List.getElem?_mem hk))
    refine ⟨m, imgm, hm, he, e, ?_, ?_⟩
    · by_contra hlt
      have := hbefore k img (by omega) hk
      rw [e] at this
      exact lt_irrefl _ this
    · intro j img2 hj h2
      rw [← e]
      exact hbefore j img2 hj h2

/-- A strict maximum above `-1` is returned. -/
theorem bestImageIndex_unique_max (f : RasterImage → ℚ) (l : List RasterImage)
    (k : Nat) (img : RasterImage) (hk : l[k]? = some img) (hpos : -1 < f img)
    (hstrict : ∀ j img2, j ≠ k → l[j]? = some img2 → f img2 < f img) :
    bestImageIndex f l = (k : Int) := by
  have hmax : ∀ img2 ∈ l, f img2 ≤ f img := by
    intro img2 h2
    obtain ⟨j, hj⟩ := List.mem_iff_getElem?.1 h2
    by_cases e : j = k
    · rw [e, hk] at hj
      rw [← Option.some.inj hj]
    · exact le_of_lt (hstrict j img2 e hj)
  obtain ⟨m, imgm, hm, he, hf, hmk, _⟩ := bestImageIndex_lowest_max f l k img hk hpos hmax
  by_cases e : m = k
  · rw [he, e]
  · have := hstrict m imgm e hm
    rw [hf] at this
    exact absurd this (lt_irrefl _)

/-! ## Integer refinement of the contrast (used to evaluate it on concrete images) -/

theorem convertToGrayscale_eq_scaled (image : RasterImage) (row col : Int) :
    convertToGrayscale image row col = (grayScaled image row col : ℚ) / 3 := by
  unfold convertToGrayscale grayScaled
  split
  · simp
  · split
    · push_cast
      field_simp
    · simp

theorem contrastBody_unscale (image : RasterImage) (centerRow centerCol : Int)
    (acc : Int × Int) (i j : Int) :
    contrastBody image centerRow centerCol (unscale acc) i j
      = unscale (contrastBodyScaled image centerRow centerCol acc i j) := by
  unfold contrastBody contrastBodyScaled
  simp only
  split
  · rw [convertToGrayscale_eq_scaled]
    unfold unscale
    simp only
    have h3 : (0 : ℚ) < 3 := by norm_num
    congr 1
    · rcases le_total acc.1 (grayScaled image (toSigned (toUnsigned (centerRow + i)))
          (toSigned (toUnsigned (centerCol + j)))) with h | h
      · rw [min_eq_left h, min_eq_left]
        exact div_le_div_of_nonneg_right (by exact_mod_cast h) (le_of_lt h3)
      · rw [min_eq_right h, min_eq_right]
        exact div_le_div_of_nonneg_right (by exact_mod_cast h) (le_of_lt h3)
    · rcases le_total acc.2 (grayScaled image (toSigned (toUnsigned (centerRow + i)))
          (toSigned (toUnsigned (centerCol + j)))) with h | h
      · rw [max_eq_right h, max_eq_right]
        exact div_le_div_of_nonneg_right (by exact_mod_cast h) (le_of_lt h3)
      · rw [max_eq_left h, max_eq_left]
        exact div_le_div_of_nonneg_right (by exact_mod_cast h) (le_of_lt h3)
  · rfl

theorem contrast_inner_unscale (image : RasterImage) (centerRow centerCol : Int)
    (ys : List Int) (i : Int) (acc : Int × Int) :
    ys.foldl (fun acc j => contrastBody image centerRow centerCol acc i j) (unscale acc)
      = unscale (ys.foldl (fun acc j => contrastBodyScaled image centerRow centerCol acc i j)
          acc) := by
  induction ys generalizing acc with
  | nil => rfl
  | cons y ys ih =>
    simp only [List.foldl_cons]
    rw [contrastBody_unscale, ih]

theorem contrast_outer_unscale (image : RasterImage) (centerRow centerCol : Int)
    (xs ys : List Int) (acc : Int × Int) :
    xs.foldl (fun acc i => ys.foldl
        (fun acc j => contrastBody image centerRow centerCol acc i j) acc) (unscale acc)
      = unscale (xs.foldl (fun acc i => ys.foldl
          (fun acc j => contrastBodyScaled image centerRow centerCol acc i j) acc) acc) := by
  induction xs generalizing acc with
  | nil => rfl
  | cons x xs ih =>
    simp only [List.foldl_cons]
    rw [contrast_inner_unscale, ih]

theorem contrastOver_eq_scaled (image : RasterImage) (centerRow centerCol : Int)
    (offs : List Int) :
    contrastOver image centerRow centerCol offs
      = (contrastOverScaled image centerRow centerCol offs : ℚ) / 3 := by
  unfold contrastOver contrastOverScaled
  have e : ((255 : ℚ), (0 : ℚ)) = unscale ((765 : Int), (0 : Int)) := by
    unfold unscale
    norm_num
  rw [e, contrast_outer_unscale]
  unfold unscale
  simp only
  push_cast
  ring

theorem calculateWindowContrast_eq_scaled (image : RasterImage)
    (centerRow centerCol windowSize : Int) :
    calculateWindowContrast image centerRow centerCol windowSize
      = (contrastOverScaled image centerRow centerCol (windowOffsets windowSize) : ℚ) / 3 := by
  rw [calculateWindowContrast_eq, contrastOver_eq_scaled]

theorem scaled_lt_iff (a b : Int) : (a : ℚ) / 3 < (b : ℚ) / 3 ↔ a < b := by
  rw [div_lt_div_iff_of_pos_right (by norm_num : (0 : ℚ) < 3)]
  exact_mod_cast Iff.rfl

theorem scaled_le_iff (a b : Int) : (a : ℚ) / 3 ≤ (b : ℚ) / 3 ↔ a ≤ b := by
  rw [div_le_div_iff_of_pos_right (by norm_num : (0 : ℚ) < 3)]
  exact_mod_cast Iff.rfl

theorem neg_one_lt_scaled_iff (a : Int) : (-1 : ℚ) < (a : ℚ) / 3 ↔ -3 < a := by
  have e : (-1 : ℚ) = ((-3 : Int) : ℚ) / 3 := by norm_num
  rw [e, scaled_lt_iff]

theorem calculateWindowContrast_nonneg (image : RasterImage)
    (centerRow centerCol windowSize : Int)
    (hs : image.SizeOk) (hr : WindowInRange centerRow centerCol windowSize)
    (hne : ∃ r c, inWindow image centerRow centerCol windowSize r c) :
    0 ≤ calculateWindowContrast image centerRow centerCol windowSize := by
  rw [calculateWindowContrast_eq]
  exact contrastOver_nonneg image centerRow centerCol _ hs hr hne

theorem calculateWindowContrast_le_neg_one_iff (image : RasterImage)
    (centerRow centerCol windowSize : Int)
    (hs : image.SizeOk) (hr : WindowInRange centerRow centerCol windowSize) :
    calculateWindowContrast image centerRow centerCol windowSize ≤ -1 ↔
      ∀ r c, ¬ inWindow image centerRow centerCol windowSize r c := by
  constructor
  · intro h r c hw
    have := calculateWindowContrast_nonneg image centerRow centerCol windowSize hs hr ⟨r, c, hw⟩
    linarith
  · intro h
    rw [calculateWindowContrast_eq,
      contrastOver_empty image centerRow centerCol _ hs hr h]
    norm_num

theorem v1_selectBest_eq (imageStack : List RasterImage) (row col : Int) :
    Version1.selectBest imageStack row col = Version2.selectBest imageStack row col 5 := by
  have e : (fun image => Version1.calculateWindowContrast image row col)
      = (fun image => calculateWindowContrast image row col 5) := by
    funext image
    exact v1_contrast_eq_windowSize_five image row col
  unfold Version1.selectBest Version2.selectBest
  rw [e]

/-! ## Claims C5, C7 and C8: best-image selection -/

/-- C5 (as the code behaves): if exactly one image of the stack has strictly higher contrast
than all the others at the window, and that contrast is above the initial
`highestContrast = -1.0` (as it is whenever its window has an in-bounds pixel), the selection
loop returns that image's index (Version2/Version3/pthread for every window size, Version1 for
its 5x5 window); and for every stack, whenever the loop returns an index, the contrast of that
image is greater than or equal to the contrast of every image of the stack. -/
theorem C5_selection_returns_strict_max (imageStack : List RasterImage)
    (centerRow centerCol windowSize : Int) (k : Nat) (image : RasterImage)
    (hk : imageStack[k]? = some image)
    (hpos : -1 < calculateWindowContrast image centerRow centerCol windowSize)
    (hstrict : ∀ (j : Nat) (img2 : RasterImage), j ≠ k → imageStack[j]? = some img2 →
      calculateWindowContrast img2 centerRow centerCol windowSize
        < calculateWindowContrast image centerRow centerCol windowSize) :
    Version2.selectBest imageStack centerRow centerCol windowSize = (k : Int) ∧
    (windowSize = 5 → Version1.selectBest imageStack centerRow centerCol = (k : Int)) ∧
    (∀ stack : List RasterImage,
      Version2.selectBest stack centerRow centerCol windowSize = -1 ∨
      ∃ (m : Nat) (imgm : RasterImage), stack[m]? = some imgm ∧
        Version2.selectBest stack centerRow centerCol windowSize = (m : Int) ∧
        ∀ img2 ∈ stack, calculateWindowContrast img2 centerRow centerCol windowSize
          ≤ calculateWindowContrast imgm centerRow centerCol windowSize) := by
  have h2 : Version2.selectBest imageStack centerRow centerCol windowSize = (k : Int) :=
    bestImageIndex_unique_max _ imageStack k image hk hpos hstrict
  refine ⟨h2, ?_, ?_⟩
  · intro h5
    subst h5
    rw [v1_selectBest_eq]
    exact h2
  · intro stack
    rcases bestImageIndex_spec
        (fun img => calculateWindowContrast img centerRow centerCol windowSize) stack with
      ⟨he, _⟩ | ⟨m, imgm, hm, he, _, _, hall⟩
    · exact Or.inl he
    · exact Or.inr ⟨m, imgm, hm, he, hall⟩

theorem sampleGray_contrast_center :
    calculateWindowContrast sampleGray 1 1 3 = 150 := by
  rw [calculateWindowContrast_eq_scaled]
  have e : contrastOverScaled sampleGray 1 1 (windowOffsets 3) = 450 := by decide
  rw [e]
  norm_num

theorem sampleFlat_contrast_center :
    calculateWindowContrast sampleFlat 1 1 3 = 0 := by
  rw [calculateWindowContrast_eq_scaled]
  have e : contrastOverScaled sampleFlat 1 1 (windowOffsets 3) = 0 := by decide
  rw [e]
  norm_num

theorem C5_selection_returns_strict_max_witness :
    Version2.selectBest [sampleFlat, sampleGray] 1 1 3 = ((1 : Nat) : Int) :=
  (C5_selection_returns_strict_max [sampleFlat, sampleGray] 1 1 3 1 sampleGray rfl
    (by rw [sampleGray_contrast_center]; norm_num)
    (by
      intro j img2 hj h
      match j, hj, h with
      | 0, _, h =>
        simp only [List.getElem?_cons_zero, Option.some.injEq] at h
        rw [← h, sampleGray_contrast_center, sampleFlat_contrast_center]
        norm_num
      | 1, hj, _ => exact absurd rfl hj
      | (n + 2), _, h => simp at h)).1

/-- C5 fails as stated: in the one-image stack `[sampleGray]` the image at index 0 has strictly
higher contrast than all the others (there are none) at the window of size 3 centred at
`(7, 1)`, which lies outside the image; its contrast is `-255` and the loop returns `-1`,
not 0. -/
theorem C5_counterexample :
    [sampleGray][0]? = some sampleGray ∧
    (∀ (j : Nat) (img2 : RasterImage), j ≠ 0 → [sampleGray][j]? = some img2 →
      calculateWindowContrast img2 7 1 3 < calculateWindowContrast sampleGray 7 1 3) ∧
    Version2.selectBest [sampleGray] 7 1 3 = -1 ∧
    Version2.selectBest [sampleGray] 7 1 3 ≠ 0 := by
  have e : Version2.selectBest [sampleGray] 7 1 3 = -1 := by
    unfold Version2.selectBest
    rw [bestImageIndex_eq_neg_one_iff]
    intro img h
    rw [List.mem_singleton] at h
    rw [h, calculateWindowContrast_eq_scaled]
    have e : contrastOverScaled sampleGray 7 1 (windowOffsets 3) = -765 := by decide
    rw [e]
    norm_num
  refine ⟨rfl, ?_, e, ?_⟩
  · intro j img2 hj h
    cases j with
    | zero => exact absurd rfl hj
    | succ n => simp at h
  · rw [e]; decide

/-- C7 (as the code behaves): for a stack consisting of a single image, under the `int` range
assumptions, the selection loop returns index 0 for every window that contains at least one
in-bounds pixel of the image, in particular for every window of non-negative size whose
centre is in bounds, and returns `-1` (no winner) for every window without in-bounds pixel. -/
theorem C7_single_image_index_zero (image : RasterImage)
    (centerRow centerCol windowSize : Int)
    (hs : image.SizeOk) (hr : WindowInRange centerRow centerCol windowSize) :
    ((∃ r c, inWindow image centerRow centerCol windowSize r c) →
      Version2.selectBest [image] centerRow centerCol windowSize = 0) ∧
    (0 ≤ windowSize → inBounds image centerRow centerCol →
      Version2.selectBest [image] centerRow centerCol windowSize = 0) ∧
    ((∀ r c, ¬ inWindow image centerRow centerCol windowSize r c) →
      Version2.selectBest [image] centerRow centerCol windowSize = -1) := by
  have h1 : (∃ r c, inWindow image centerRow centerCol windowSize r c) →
      Version2.selectBest [image] centerRow centerCol windowSize = 0 := by
    intro hne
    have hpos := calculateWindowContrast_nonneg image centerRow centerCol windowSize hs hr hne
    have := bestImageIndex_unique_max
      (fun img => calculateWindowContrast img centerRow centerCol windowSize) [image] 0 image rfl
      (by simp only; linarith)
      (by
        intro j img2 hj h
        cases j with
        | zero => exact absurd rfl hj
        | succ n => simp at h)
    simpa using this
  refine ⟨h1, ?_, ?_⟩
  · intro hw hb
    exact h1 ⟨centerRow, centerCol, inWindow_center image centerRow centerCol windowSize hw hb⟩
  · intro hnone
    unfold Version2.selectBest
    rw [bestImageIndex_eq_neg_one_iff]
    intro img h
    rw [List.mem_singleton] at h
    rw [h]
    exact (calculateWindowContrast_le_neg_one_iff image centerRow centerCol windowSize hs hr).2
      hnone

theorem C7_single_image_index_zero_witness :
    Version2.selectBest [sampleGray] 3 0 11 = 0 ∧
    Version2.selectBest [sampleGray] 14 14 5 = -1 :=
  ⟨(C7_single_image_index_zero sampleGray 3 0 11 sampleGray_sizeOk
      (by unfold WindowInRange OffsetsInRange FitsInt; decide)).2.1 (by decide)
      (by unfold inBounds; decide),
   (C7_single_image_index_zero sampleGray 14 14 5 sampleGray_sizeOk
      (by unfold WindowInRange OffsetsInRange FitsInt; decide)).2.2
      (sampleGray_no_window_far 14 14 5 (by decide) (by decide))⟩

/-- C7 fails as stated: for the single-image stack `[sampleRGBA]` and the window of size 3
centred at `(-7, -7)` the selection loop returns `-1`, not index 0. -/
theorem C7_counterexample :
    Version2.selectBest [sampleRGBA] (-7) (-7) 3 = -1 ∧
    Version2.selectBest [sampleRGBA] (-7) (-7) 3 ≠ 0 := by
  have e : Version2.selectBest [sampleRGBA] (-7) (-7) 3 = -1 := by
    unfold Version2.selectBest
    rw [bestImageIndex_eq_neg_one_iff]
    intro img h
    rw [List.mem_singleton] at h
    rw [h, calculateWindowContrast_eq_scaled]
    have e : contrastOverScaled sampleRGBA (-7) (-7) (windowOffsets 3) = -765 := by decide
    rw [e]
    norm_num
  exact ⟨e, by rw [e]; decide⟩

/-- C8 (as the code behaves): under the `int` range assumptions, the selection loop yields no
winner (`bestImageIndex` remains `-1`) if and only if no image of the stack has an in-bounds
pixel in the window; this is the case for the empty stack. Otherwise, in particular for every
non-empty stack whose first image contains the centre of a window of non-negative size, it
yields a valid index in `[0, stack size)`. The same holds for the 5x5 window of Version1. -/
theorem C8_no_winner_iff (imageStack : List RasterImage)
    (centerRow centerCol windowSize : Int)
    (hs : ∀ img ∈ imageStack, img.SizeOk)
    (hr : WindowInRange centerRow centerCol windowSize) :
    (Version2.selectBest imageStack centerRow centerCol windowSize = -1 ↔
      ∀ img ∈ imageStack, ∀ r c, ¬ inWindow img centerRow centerCol windowSize r c) ∧
    (Version2.selectBest imageStack centerRow centerCol windowSize ≠ -1 →
      0 ≤ Version2.selectBest imageStack centerRow centerCol windowSize ∧
      Version2.selectBest imageStack centerRow centerCol windowSize < imageStack.length) ∧
    Version2.selectBest [] centerRow centerCol windowSize = -1 ∧
    (∀ first rest, imageStack = first :: rest → 0 ≤ windowSize →
      inBounds first centerRow centerCol →
      0 ≤ Version2.selectBest imageStack centerRow centerCol windowSize ∧
      Version2.selectBest imageStack centerRow centerCol windowSize < imageStack.length) ∧
    (windowSize = 5 →
      Version1.selectBest imageStack centerRow centerCol
        = Version2.selectBest imageStack centerRow centerCol windowSize) := by
  have hiff : Version2.selectBest imageStack centerRow centerCol windowSize = -1 ↔
      ∀ img ∈ imageStack, ∀ r c, ¬ inWindow img centerRow centerCol windowSize r c := by
    unfold Version2.selectBest
    rw [bestImageIndex_eq_neg_one_iff]
    constructor
    · intro h img himg
      exact (calculateWindowContrast_le_neg_one_iff img centerRow centerCol windowSize
        (hs img himg) hr).1 (h img himg)
    · intro h img himg
      exact (calculateWindowContrast_le_neg_one_iff img centerRow centerCol windowSize
        (hs img himg) hr).2 (h img himg)
  have hrange : Version2.selectBest imageStack centerRow centerCol windowSize ≠ -1 →
      0 ≤ Version2.selectBest imageStack centerRow centerCol windowSize ∧
      Version2.selectBest imageStack centerRow centerCol windowSize < imageStack.length := by
    intro hne
    rcases bestImageIndex_range
      (fun img => calculateWindowContrast img centerRow centerCol windowSize) imageStack with
      h | h
    · exact absurd h hne
    · exact h
  refine ⟨hiff, hrange, rfl, ?_, ?_⟩
  · intro first rest he hw hb
    apply hrange
    intro hneg
    have := hiff.1 hneg first (by rw [he]; exact List.mem_cons_self _ _) centerRow centerCol
    exact this (inWindow_center first centerRow centerCol windowSize hw hb)
  · intro h5
    subst h5
    exact v1_selectBest_eq imageStack centerRow centerCol

theorem C8_no_winner_iff_witness :
    0 ≤ Version2.selectBest [sampleGray, sampleFlat] 2 3 11 ∧
    Version2.selectBest [sampleGray, sampleFlat] 2 3 11
      < ([sampleGray, sampleFlat] : List RasterImage).length :=
  (C8_no_winner_iff [sampleGray, sampleFlat] 2 3 11
    (by
      intro img h
      simp only [List.mem_cons, List.mem_singleton, List.not_mem_nil, or_false] at h
      rcases h with h | h
      · rw [h]; exact sampleGray_sizeOk
      · rw [h]; unfold RasterImage.SizeOk; decide)
    (by unfold WindowInRange OffsetsInRange FitsInt; decide)).2.2.2.1
    sampleGray [sampleFlat] rfl (by decide) (by unfold inBounds; decide)

/-- C8 fails as stated: the stack `[sampleGray, sampleRGBA]` is not empty, yet for the window
of size 5 centred at `(100, 100)` the selection loop yields no winner (`-1`), which is not an
index in `[0, 2)`. -/
theorem C8_counterexample :
    ([sampleGray, sampleRGBA] : List RasterImage) ≠ [] ∧
    Version2.selectBest [sampleGray, sampleRGBA] 100 100 5 = -1 ∧
    ¬ (0 ≤ Version2.selectBest [sampleGray, sampleRGBA] 100 100 5) := by
  have e : Version2.selectBest [sampleGray, sampleRGBA] 100 100 5 = -1 := by
    unfold Version2.selectBest
    rw [bestImageIndex_eq_neg_one_iff]
    intro img h
    simp only [List.mem_cons, List.mem_singleton, List.not_mem_nil, or_false] at h
    rcases h with h | h
    · rw [h, calculateWindowContrast_eq_scaled]
      have e : contrastOverScaled sampleGray 100 100 (windowOffsets 5) = -765 := by decide
      rw [e]
      norm_num
    · rw [h, calculateWindowContrast_eq_scaled]
      have e : contrastOverScaled sampleRGBA 100 100 (windowOffsets 5) = -765 := by decide
      rw [e]
      norm_num
  refine ⟨by simp, e, ?_⟩
  rw [e]
  decide

/-! ## The static band partition -/

theorem bands_eq (height : Nat) (m : Nat) :
    Version1.bands height ((m : Int) + 1)
      = (List.range m).map (fun (i : Nat) =>
          ((i : Int) * ((height : Int) / ((m : Int) + 1)),
           (i : Int) * ((height : Int) / ((m : Int) + 1)) + (height : Int) / ((m : Int) + 1)))
        ++ [((m : Int) * ((height : Int) / ((m : Int) + 1)), (height : Int))] := by
  unfold Version1.bands intRange
  have hq : Int.tdiv (height : Int) ((m : Int) + 1) = (height : Int) / ((m : Int) + 1) :=
    Int.tdiv_eq_ediv (by omega) (by omega)
  have hlen : ((m : Int) + 1 - 1 + 1 - 0).toNat = m + 1 := by omega
  simp only [hq, hlen, List.range_succ, List.map_append, List.map_map, List.map_cons,
    List.map_nil]
  congr 1
  · apply List.map_congr_left
    intro i hi
    rw [List.mem_range] at hi
    simp only [Function.comp]
    have hne : ¬ ((0 : Int) + (i : Int) = (m : Int) + 1 - 1) := by omega
    rw [if_neg hne]
    simp
  · simp

theorem bands_flatMap_range (q : Int) (hq : 0 ≤ q) (m : Nat) :
    ((List.range m).map (fun (i : Nat) => ((i : Int) * q, (i : Int) * q + q))).flatMap
        (fun b => intRange b.1 (b.2 - 1))
      = intRange 0 ((m : Int) * q - 1) := by
  induction m with
  | zero =>
    simp only [List.range_zero, List.map_nil, List.flatMap_nil]
    rw [intRange_empty]
    simp
  | succ m ih =>
    rw [List.range_succ, List.map_append, List.flatMap_append, ih]
    simp only [List.map_cons, List.map_nil, List.flatMap_cons, List.flatMap_nil,
      List.append_nil]
    have e : ((m + 1 : Nat) : Int) * q = (m : Int) * q + q := by push_cast; ring
    rw [e]
    have h0 : (0 : Int) ≤ (m : Int) * q := mul_nonneg (by omega) hq
    exact intRange_append 0 ((m : Int) * q) ((m : Int) * q + q) h0 (by omega)

theorem ediv_mul_le_height (height : Nat) (m : Nat) :
    (m : Int) * ((height : Int) / ((m : Int) + 1)) ≤ (height : Int) := by
  have hpos : (0 : Int) < (m : Int) + 1 := by omega
  have h1 : ((m : Int) + 1) * ((height : Int) / ((m : Int) + 1)) ≤ (height : Int) :=
    Int.mul_ediv_self_le (by omega)
  have hq : (0 : Int) ≤ (height : Int) / ((m : Int) + 1) :=
    Int.ediv_nonneg (by omega) (by omega)
  nlinarith

/-- The rows of the bands, concatenated in thread order, are exactly the rows
`0, 1, ..., height - 1`, each once. -/
theorem bands_rows (height : Nat) (m : Nat) :
    (Version1.bands height ((m : Int) + 1)).flatMap (fun b => intRange b.1 (b.2 - 1))
      = intRange 0 ((height : Int) - 1) := by
  have hq : (0 : Int) ≤ (height : Int) / ((m : Int) + 1) :=
    Int.ediv_nonneg (by omega) (by omega)
  rw [bands_eq, List.flatMap_append, bands_flatMap_range _ hq]
  simp only [List.flatMap_cons, List.flatMap_nil, List.append_nil]
  exact intRange_append 0 _ _ (mul_nonneg (by omega) hq) (ediv_mul_le_height height m)

theorem bands_getElem? (height : Nat) (m : Nat) (i : Nat) (b : Int × Int) :
    (Version1.bands height ((m : Int) + 1))[i]? = some b ↔
      i ≤ m ∧ b = ((i : Int) * ((height : Int) / ((m : Int) + 1)),
        if i = m then (height : Int)
        else (i : Int) * ((height : Int) / ((m : Int) + 1)) + (height : Int) / ((m : Int) + 1)) := by
  rw [bands_eq]
  rcases Nat.lt_trichotomy i m with h | h | h
  · rw [List.getElem?_append_left (by simpa using h), List.getElem?_map,
      List.getElem?_range h]
    simp only [Option.map_some', Option.some.injEq]
    rw [if_neg (by omega)]
    constructor
    · intro e
      exact ⟨by omega, e.symm⟩
    · intro e
      exact e.2.symm
  · subst h
    rw [List.getElem?_append_right (by simp)]
    simp only [List.length_map, List.length_range, Nat.sub_self, List.getElem?_cons_zero,
      Option.some.injEq, if_true, le_refl, true_and]
    exact eq_comm
  · rw [List.getElem?_append_right (by simp; omega)]
    simp only [List.length_map, List.length_range]
    have e : i - m = (i - m - 1) + 1 := by omega
    rw [e, List.getElem?_cons_succ]
    simp only [List.getElem?_nil]
    constructor
    · intro e2
      cases e2
    · intro e2
      omega

theorem bands_length (height : Nat) (m : Nat) :
    (Version1.bands height ((m : Int) + 1)).length = m + 1 := by
  rw [bands_eq]
  simp

/-! ## Claim C9 -/

/-- C9: for every image height `h` and every worker count `n ≥ 1`, `main` computes `n` bands
`(startRow, endRow)`; band `i` starts at `i * floor(h/n)`, bands `0..n-2` have `floor(h/n)`
rows and the last band has `floor(h/n) + (h mod n)` rows; consecutive bands are contiguous,
the first starts at 0 and the last ends at `h`; every band lies in `[0, h)`, no row lies in
two bands, and every row of `[0, h)` lies in exactly one band (so the bands are pairwise
disjoint and their union is exactly `[0, h)`). -/
theorem C9_static_band_partition (height : Nat) (numThreads : Int) (hn : 1 ≤ numThreads) :
    (Version1.bands height numThreads).length = numThreads.toNat ∧
    (∀ (i : Nat) (b : Int × Int), (Version1.bands height numThreads)[i]? = some b →
      b.1 = (i : Int) * ((height : Int) / numThreads) ∧
      b.2 - b.1 = (if (i : Int) = numThreads - 1
        then (height : Int) / numThreads + (height : Int) % numThreads
        else (height : Int) / numThreads) ∧
      0 ≤ b.1 ∧ b.1 ≤ b.2 ∧ b.2 ≤ (height : Int)) ∧
    (∀ (i : Nat) (a b : Int × Int), (Version1.bands height numThreads)[i]? = some a →
      (Version1.bands height numThreads)[i + 1]? = some b → a.2 = b.1) ∧
    (∃ b, (Version1.bands height numThreads)[0]? = some b ∧ b.1 = 0) ∧
    (∃ b, (Version1.bands height numThreads)[numThreads.toNat - 1]? = some b ∧
      b.2 = (height : Int)) ∧
    (∀ (i j : Nat) (a b : Int × Int) (r : Int),
      (Version1.bands height numThreads)[i]? = some a →
      (Version1.bands height numThreads)[j]? = some b →
      a.1 ≤ r → r < a.2 → b.1 ≤ r → r < b.2 → i = j) ∧
    (∀ r : Int, 0 ≤ r → r < (height : Int) →
      ∃! i : Nat, ∃ b, (Version1.bands height numThreads)[i]? = some b ∧ b.1 ≤ r ∧ r < b.2) := by
  obtain ⟨m, rfl⟩ : ∃ m : Nat, numThreads = (m : Int) + 1 :=
    ⟨(numThreads - 1).toNat, by omega⟩
  have hpos : (0 : Int) < (m : Int) + 1 := by omega
  have hq : (0 : Int) ≤ (height : Int) / ((m : Int) + 1) := Int.ediv_nonneg (by omega) (by omega)
  have hdm := Int.ediv_add_emod (height : Int) ((m : Int) + 1)
  have hmod0 := Int.emod_nonneg (height : Int) (ne_of_gt hpos)
  have hmodlt := Int.emod_lt_of_pos (height : Int) hpos
  have hmq := ediv_mul_le_height height m
  generalize hQ : (height : Int) / ((m : Int) + 1) = q at *
  have hmono : ∀ (i j : Nat), i ≤ j → (i : Int) * q ≤ (j : Int) * q := by
    intro i j hij
    exact Int.mul_le_mul_of_nonneg_right (by exact_mod_cast hij) hq
  have hget : ∀ (i : Nat) (b : Int × Int),
      (Version1.bands height ((m : Int) + 1))[i]? = some b ↔
        i ≤ m ∧ b = ((i : Int) * q, if i = m then (height : Int) else (i : Int) * q + q) := by
    intro i b
    rw [bands_getElem?, hQ]
  have huniq : ∀ (r : Int) (i j : Nat), i < j →
      (∃ b, (Version1.bands height ((m : Int) + 1))[i]? = some b ∧ b.1 ≤ r ∧ r < b.2) →
      (∃ b, (Version1.bands height ((m : Int) + 1))[j]? = some b ∧ b.1 ≤ r ∧ r < b.2) →
      False := by
    rintro r i j hij ⟨a, ha, _, ha2⟩ ⟨b, hb, hb1, _⟩
    obtain ⟨_, rfl⟩ := (hget i a).1 ha
    obtain ⟨hjm, rfl⟩ := (hget j b).1 hb
    simp only at ha2 hb1
    rw [if_neg (by omega)] at ha2
    have := hmono (i + 1) j (by omega)
    push_cast at this
    linarith
  refine ⟨?_, ?_, ?_, ?_, ?_, ?_, ?_⟩
  · rw [bands_length]; omega
  · intro i b hb
    obtain ⟨him, rfl⟩ := (hget i b).1 hb
    have h0 : (0 : Int) ≤ (i : Int) * q := mul_nonneg (by omega) hq
    have him2 := hmono i m him
    by_cases e : i = m
    · subst e
      simp only [if_true]
      rw [if_pos (by omega)]
      refine ⟨trivial, ?_, h0, hmq, le_refl _⟩
      linarith
    · simp only [if_neg e]
      rw [if_neg (by omega)]
      have him3 := hmono (i + 1) m (by omega)
      push_cast at him3
      refine ⟨trivial, by ring, h0, by linarith, ?_⟩
      linarith
  · intro i a b ha hb
    obtain ⟨hia, rfl⟩ := (hget i a).1 ha
    obtain ⟨hib, rfl⟩ := (hget (i + 1) b).1 hb
    simp only
    rw [if_neg (by omega)]
    push_cast
    ring
  · exact ⟨_, (hget 0 _).2 ⟨by omega, rfl⟩, by simp⟩
  · have e : ((m : Int) + 1).toNat - 1 = m := by omega
    rw [e]
    exact ⟨_, (hget m _).2 ⟨le_refl _, rfl⟩, by simp⟩
  · intro i j a b r ha hb ha1 ha2 hb1 hb2
    rcases Nat.lt_trichotomy i j with h | h | h
    · exact absurd (huniq r i j h ⟨a, ha, ha1, ha2⟩ ⟨b, hb, hb1, hb2⟩) not_false
    · exact h
    · exact absurd (huniq r j i h ⟨b, hb, hb1, hb2⟩ ⟨a, ha, ha1, ha2⟩) not_false
  · intro r hr0 hrh
    have hex : ∃ i : Nat, ∃ b, (Version1.bands height ((m : Int) + 1))[i]? = some b ∧
        b.1 ≤ r ∧ r < b.2 := by
      by_cases hlast : (m : Int) * q ≤ r
      · exact ⟨m, _, (hget m _).2 ⟨le_refl _, rfl⟩, hlast, by simpa using hrh⟩
      · have hlast2 : r < (m : Int) * q := not_le.1 hlast
        have hqpos : 0 < q := by
          rcases lt_or_eq_of_le hq with h | h
          · exact h
          · rw [← h] at hlast2
            simp at hlast2
            omega
        have h1 : r / q * q ≤ r := Int.ediv_mul_le r (ne_of_gt hqpos)
        have h2 : r < (r / q + 1) * q := Int.lt_ediv_add_one_mul_self r hqpos
        have h3 : 0 ≤ r / q := Int.ediv_nonneg hr0 hq
        have h4 : r / q < (m : Int) := by
          by_contra hge
          have hge2 : (m : Int) ≤ r / q := not_lt.1 hge
          have := Int.mul_le_mul_of_nonneg_right hge2 hq
          linarith
        refine ⟨(r / q).toNat, _, (hget (r / q).toNat _).2 ⟨by omega, rfl⟩, ?_, ?_⟩
        · simp only
          rw [Int.toNat_of_nonneg h3]
          exact h1
        · simp only
          rw [if_neg (by omega), Int.toNat_of_nonneg h3]
          linarith
    obtain ⟨i, hi⟩ := hex
    refine ⟨i, hi, ?_⟩
    intro j hj
    rcases Nat.lt_trichotomy j i with h | h | h
    · exact absurd (huniq r j i h hj hi) not_false
    · exact h
    · exact absurd (huniq r i j h hi hj) not_false

theorem C9_static_band_partition_witness :
    (Version1.bands 10 3).length = (3 : Int).toNat ∧
    (Version1.bands 10 3) = [(0, 3), (3, 6), (6, 10)] :=
  ⟨(C9_static_band_partition 10 3 (by decide)).1, by decide⟩

/-! ## Pixel copies and the band workers -/

theorem intRange_zero_three : intRange 0 3 = [0, 1, 2, 3] := by decide

theorem writeByte_type (image : RasterImage) (row k : Int) (v : Fin 256) :
    (writeByte image row k v).type = image.type := rfl

theorem copyPixel_type (src dst : RasterImage) (row col : Int) :
    (copyPixel src dst row col).type = dst.type := by
  unfold copyPixel
  split
  · rw [intRange_zero_three]; rfl
  · split
    · rfl
    · rfl

theorem copyPixel_width (src dst : RasterImage) (row col : Int) :
    (copyPixel src dst row col).width = dst.width := by
  unfold copyPixel
  split
  · rw [intRange_zero_three]; rfl
  · split
    · rfl
    · rfl

theorem copyPixel_height (src dst : RasterImage) (row col : Int) :
    (copyPixel src dst row col).height = dst.height := by
  unfold copyPixel
  split
  · rw [intRange_zero_three]; rfl
  · split
    · rfl
    · rfl

/-- Effect of `copyPixel` between images of the same format, byte by byte: exactly the bytes
of pixel `(row, col)` are replaced by those of the source. -/
theorem copyPixel_raster (src dst : RasterImage) (row col r k : Int)
    (hs : src.type = dst.type) :
    (copyPixel src dst row col).raster2D r k
      = if r = row ∧ k / bytesPerPixel dst.type = col then src.raster2D r k
        else dst.raster2D r k := by
  unfold copyPixel
  cases hd : dst.type with
  | RGBA32_RASTER =>
    rw [hd] at hs
    rw [if_pos ⟨hs, rfl⟩, intRange_zero_three]
    simp only [List.foldl, writeByte, bytesPerPixel]
    by_cases hr : r = row
    · subst hr
      by_cases h3 : k = col * 4 + 3
      · subst h3
        rw [if_pos ⟨rfl, rfl⟩, if_pos ⟨rfl, by omega⟩]
      · by_cases h2 : k = col * 4 + 2
        · subst h2
          rw [if_neg (by omega), if_pos ⟨rfl, rfl⟩, if_pos ⟨rfl, by omega⟩]
        · by_cases h1 : k = col * 4 + 1
          · subst h1
            rw [if_neg (by omega), if_neg (by omega), if_pos ⟨rfl, rfl⟩, if_pos ⟨rfl, by omega⟩]
          · by_cases h0 : k = col * 4 + 0
            · subst h0
              rw [if_neg (by omega), if_neg (by omega), if_neg (by omega), if_pos ⟨rfl, rfl⟩,
                if_pos ⟨rfl, by omega⟩]
            · rw [if_neg (by omega), if_neg (by omega), if_neg (by omega), if_neg (by omega),
                if_neg (by omega)]
    · rw [if_neg (fun h => hr h.1), if_neg (fun h => hr h.1), if_neg (fun h => hr h.1),
        if_neg (fun h => hr h.1), if_neg (fun h => hr h.1)]
  | GRAY_RASTER =>
    rw [hd] at hs
    rw [if_neg (by rw [hs]; simp), if_pos ⟨hs, rfl⟩]
    simp only [writeByte, bytesPerPixel, Int.ediv_one]
    by_cases h : r = row ∧ k = col
    · rw [if_pos h, if_pos h, h.1, h.2]
    · rw [if_neg h, if_neg h]

theorem copyBest_type (imageStack : List RasterImage) (best : Int) (out : RasterImage)
    (row col : Int) : (copyBest imageStack best out row col).type = out.type := by
  unfold copyBest
  split
  · split
    · exact copyPixel_type _ _ _ _
    · rfl
  · rfl

theorem copyBest_width (imageStack : List RasterImage) (best : Int) (out : RasterImage)
    (row col : Int) : (copyBest imageStack best out row col).width = out.width := by
  unfold copyBest
  split
  · split
    · exact copyPixel_width _ _ _ _
    · rfl
  · rfl

theorem copyBest_height (imageStack : List RasterImage) (best : Int) (out : RasterImage)
    (row col : Int) : (copyBest imageStack best out row col).height = out.height := by
  unfold copyBest
  split
  · split
    · exact copyPixel_height _ _ _ _
    · rfl
  · rfl

theorem copyBest_raster (imageStack : List RasterImage) (best : Int) (out : RasterImage)
    (row col r k : Int) (hty : ∀ img ∈ imageStack, img.type = out.type)
    (hvalid : best = -1 ∨ (0 ≤ best ∧ best < imageStack.length)) :
    (copyBest imageStack best out row col).raster2D r k
      = if best ≠ -1 ∧ r = row ∧ k / bytesPerPixel out.type = col
        then srcByte imageStack best r k else out.raster2D r k := by
  unfold copyBest srcByte
  by_cases hb : best = -1
  · rw [if_neg (by simp [hb]), if_neg (by simp [hb])]
  · rcases hvalid with h | h
    · exact absurd h hb
    · have hlt : best.toNat < imageStack.length := by omega
      rw [if_pos hb, List.getElem?_eq_getElem hlt]
      simp only
      rw [copyPixel_raster _ _ _ _ _ _ (hty _ (List.getElem_mem _))]
      by_cases hc : r = row ∧ k / bytesPerPixel out.type = col
      · rw [if_pos hc, if_pos ⟨hb, hc⟩]
      · rw [if_neg hc, if_neg (fun h => hc h.2)]

theorem v1_selectBest_valid (imageStack : List RasterImage) (row col : Int) :
    Version1.selectBest imageStack row col = -1 ∨
      (0 ≤ Version1.selectBest imageStack row col ∧
        Version1.selectBest imageStack row col < imageStack.length) :=
  bestImageIndex_range _ imageStack

theorem pixelStep_type (imageStack : List RasterImage) (out : RasterImage) (p : Int × Int) :
    (pixelStep imageStack out p).type = out.type := copyBest_type _ _ _ _ _

theorem pixelStep_width (imageStack : List RasterImage) (out : RasterImage) (p : Int × Int) :
    (pixelStep imageStack out p).width = out.width := copyBest_width _ _ _ _ _

theorem pixelStep_height (imageStack : List RasterImage) (out : RasterImage) (p : Int × Int) :
    (pixelStep imageStack out p).height = out.height := copyBest_height _ _ _ _ _

theorem foldl_pixelStep_type (imageStack : List RasterImage) (L : List (Int × Int))
    (out : RasterImage) : (L.foldl (pixelStep imageStack) out).type = out.type := by
  induction L generalizing out with
  | nil => rfl
  | cons p L ih => rw [List.foldl_cons, ih, pixelStep_type]

theorem foldl_pixelStep_width (imageStack : List RasterImage) (L : List (Int × Int))
    (out : RasterImage) : (L.foldl (pixelStep imageStack) out).width = out.width := by
  induction L generalizing out with
  | nil => rfl
  | cons p L ih => rw [List.foldl_cons, ih, pixelStep_width]

theorem foldl_pixelStep_height (imageStack : List RasterImage) (L : List (Int × Int))
    (out : RasterImage) : (L.foldl (pixelStep imageStack) out).height = out.height := by
  induction L generalizing out with
  | nil => rfl
  | cons p L ih => rw [List.foldl_cons, ih, pixelStep_height]

/-- After a sequence of pixel steps, a byte of the output holds the byte of the image selected
for its pixel if that pixel was visited and had a winner, and its previous value otherwise. -/
theorem foldl_pixelStep_raster (imageStack : List RasterImage) (L : List (Int × Int))
    (out : RasterImage) (r k : Int) (hty : ∀ img ∈ imageStack, img.type = out.type) :
    (L.foldl (pixelStep imageStack) out).raster2D r k
      = if (r, k / bytesPerPixel out.type) ∈ L ∧
            Version1.selectBest imageStack r (k / bytesPerPixel out.type) ≠ -1
        then srcByte imageStack
          (Version1.selectBest imageStack r (k / bytesPerPixel out.type)) r k
        else out.raster2D r k := by
  induction L generalizing out with
  | nil => simp
  | cons p L ih =>
    have hty2 : ∀ img ∈ imageStack, img.type = (pixelStep imageStack out p).type := by
      intro img h
      rw [pixelStep_type]
      exact hty img h
    rw [List.foldl_cons, ih _ hty2, pixelStep_type]
    unfold pixelStep
    rw [copyBest_raster _ _ _ _ _ _ _ hty (v1_selectBest_valid _ _ _)]
    by_cases hmem : (r, k / bytesPerPixel out.type) ∈ L ∧
        Version1.selectBest imageStack r (k / bytesPerPixel out.type) ≠ -1
    · rw [if_pos hmem, if_pos ⟨List.mem_cons_of_mem _ hmem.1, hmem.2⟩]
    · rw [if_neg hmem]
      by_cases hp : (r, k / bytesPerPixel out.type) = p
      · subst hp
        simp only
        by_cases hb : Version1.selectBest imageStack r (k / bytesPerPixel out.type) = -1
        · rw [if_neg (fun h => h.1 hb), if_neg (fun h => h.2 hb)]
        · rw [if_pos ⟨hb, trivial, trivial⟩, if_pos ⟨List.mem_cons_self _ _, hb⟩]
      · have h1 : ¬ (Version1.selectBest imageStack p.1 p.2 ≠ -1 ∧ r = p.1 ∧
            k / bytesPerPixel out.type = p.2) := by
          rintro ⟨_, h2, h3⟩
          exact hp (Prod.ext h2 h3)
        have h2 : ¬ ((r, k / bytesPerPixel out.type) ∈ p :: L ∧
            Version1.selectBest imageStack r (k / bytesPerPixel out.type) ≠ -1) := by
          rintro ⟨h3, h4⟩
          rcases List.mem_cons.1 h3 with h5 | h5
          · exact hp h5
          · exact hmem ⟨h5, h4⟩
        rw [if_neg h1, if_neg h2]

theorem rows_fold_eq (imageStack : List RasterImage) (width : Nat) (rows : List Int)
    (out : RasterImage) :
    rows.foldl
        (fun out row => (List.range width).foldl
          (fun out col =>
            copyBest imageStack (Version1.selectBest imageStack row (toSigned col)) out row
              (toSigned col))
          out)
        out
      = (bandPixels width rows).foldl (pixelStep imageStack) out := by
  induction rows generalizing out with
  | nil => rfl
  | cons row rows ih =>
    unfold bandPixels
    rw [List.foldl_cons, List.flatMap_cons, List.foldl_append, List.foldl_map]
    exact ih _

theorem focusStackingThread_eq (imageStack : List RasterImage) (out : RasterImage)
    (startRow endRow : Int) :
    Version1.focusStackingThread imageStack out startRow endRow
      = (bandPixels out.width (intRange startRow (endRow - 1))).foldl (pixelStep imageStack)
          out := by
  unfold Version1.focusStackingThread
  exact rows_fold_eq imageStack out.width _ out

theorem bandPixels_append (width : Nat) (rows1 rows2 : List Int) :
    bandPixels width (rows1 ++ rows2) = bandPixels width rows1 ++ bandPixels width rows2 := by
  unfold bandPixels
  exact List.flatMap_append _ _ _

theorem bands_fold_eq (imageStack : List RasterImage) (B : List (Int × Int))
    (out : RasterImage) :
    B.foldl (fun out band => Version1.focusStackingThread imageStack out band.1 band.2) out
      = (bandPixels out.width (B.flatMap (fun b => intRange b.1 (b.2 - 1)))).foldl
          (pixelStep imageStack) out := by
  induction B generalizing out with
  | nil => rfl
  | cons b B ih =>
    rw [List.foldl_cons, ih, focusStackingThread_eq, foldl_pixelStep_width, List.flatMap_cons,
      bandPixels_append, List.foldl_append]

/-- With at least one worker, the band workers of `main` together perform the pixel steps of
the rows `0 .. height - 1` in order. -/
theorem runThreads_eq (imageStack : List RasterImage) (out : RasterImage) (numThreads : Int)
    (hn : 1 ≤ numThreads) :
    Version1.runThreads imageStack out numThreads
      = (bandPixels out.width (intRange 0 ((out.height : Int) - 1))).foldl
          (pixelStep imageStack) out := by
  obtain ⟨m, rfl⟩ : ∃ m : Nat, numThreads = (m : Int) + 1 :=
    ⟨(numThreads - 1).toNat, by omega⟩
  unfold Version1.runThreads
  rw [bands_fold_eq, bands_rows]

theorem foldl_loggedStep (imageStack : List RasterImage) (L : List (Int × Int))
    (st : RasterImage × List (Int × Int)) :
    L.foldl (loggedStep imageStack) st
      = (L.foldl (pixelStep imageStack) st.1,
         st.2 ++ L.filter (fun p => decide (Version1.selectBest imageStack p.1 p.2 ≠ -1))) := by
  induction L generalizing st with
  | nil => simp
  | cons p L ih =>
    rw [List.foldl_cons, ih, List.foldl_cons]
    unfold loggedStep pixelStep
    by_cases hb : Version1.selectBest imageStack p.1 p.2 = -1
    · have e : copyBest imageStack (-1) st.1 p.1 p.2 = st.1 := by
        unfold copyBest
        simp
      simp [hb, List.filter_cons, e]
    · simp [hb, List.filter_cons]

theorem rows_fold_logged_eq (imageStack : List RasterImage) (width : Nat) (rows : List Int)
    (st : RasterImage × List (Int × Int)) :
    rows.foldl
        (fun st row => (List.range width).foldl
          (fun (st : RasterImage × List (Int × Int)) col =>
            let best := Version1.selectBest imageStack row (toSigned col)
            if best ≠ -1 then
              (copyBest imageStack best st.1 row (toSigned col), st.2 ++ [(row, toSigned col)])
            else st)
          st)
        st
      = (bandPixels width rows).foldl (loggedStep imageStack) st := by
  induction rows generalizing st with
  | nil => rfl
  | cons row rows ih =>
    unfold bandPixels
    rw [List.foldl_cons, List.flatMap_cons, List.foldl_append, List.foldl_map]
    exact ih _

theorem focusStackingThreadLogged_eq (imageStack : List RasterImage)
    (st : RasterImage × List (Int × Int)) (startRow endRow : Int) :
    Version1.focusStackingThreadLogged imageStack st startRow endRow
      = (bandPixels st.1.width (intRange startRow (endRow - 1))).foldl
          (loggedStep imageStack) st := by
  unfold Version1.focusStackingThreadLogged
  exact rows_fold_logged_eq imageStack st.1.width _ st

theorem bands_fold_logged_eq (imageStack : List RasterImage) (B : List (Int × Int))
    (st : RasterImage × List (Int × Int)) :
    B.foldl (fun st band => Version1.focusStackingThreadLogged imageStack st band.1 band.2) st
      = (bandPixels st.1.width (B.flatMap (fun b => intRange b.1 (b.2 - 1)))).foldl
          (loggedStep imageStack) st := by
  induction B generalizing st with
  | nil => rfl
  | cons b B ih =>
    rw [List.foldl_cons, ih, focusStackingThreadLogged_eq, List.flatMap_cons,
      bandPixels_append, List.foldl_append]
    congr 2
    rw [foldl_loggedStep]
    exact foldl_pixelStep_width _ _ _

/-- The logged run performs the same writes as the plain run, and its log is the list of the
visited pixels that had a winner. -/
theorem runThreadsLogged_eq (imageStack : List RasterImage) (out : RasterImage)
    (numThreads : Int) (hn : 1 ≤ numThreads) :
    Version1.runThreadsLogged imageStack out numThreads
      = (Version1.runThreads imageStack out numThreads,
         (bandPixels out.width (intRange 0 ((out.height : Int) - 1))).filter
           (fun p => decide (Version1.selectBest imageStack p.1 p.2 ≠ -1))) := by
  rw [runThreads_eq imageStack out numThreads hn]
  obtain ⟨m, rfl⟩ : ∃ m : Nat, numThreads = (m : Int) + 1 :=
    ⟨(numThreads - 1).toNat, by omega⟩
  unfold Version1.runThreadsLogged
  rw [bands_fold_logged_eq, bands_rows, foldl_loggedStep]
  simp

theorem mem_bandPixels (width : Nat) (rows : List Int) (hw : width ≤ 2147483647)
    (p : Int × Int) :
    p ∈ bandPixels width rows ↔ p.1 ∈ rows ∧ 0 ≤ p.2 ∧ p.2 < (width : Int) := by
  unfold bandPixels
  simp only [List.mem_flatMap, List.mem_map, List.mem_range]
  constructor
  · rintro ⟨row, hrow, col, hcol, rfl⟩
    rw [toSigned_of_lt col (by omega)]
    exact ⟨hrow, by simp, by simpa using hcol⟩
  · rintro ⟨h1, h2, h3⟩
    refine ⟨p.1, h1, p.2.toNat, by omega, ?_⟩
    rw [toSigned_of_lt _ (by omega), Int.toNat_of_nonneg h2]

theorem bandPixels_nodup (width : Nat) (rows : List Int) (hw : width ≤ 2147483647)
    (hrows : rows.Nodup) : (bandPixels width rows).Nodup := by
  unfold bandPixels
  rw [List.nodup_flatMap]
  constructor
  · intro row _
    apply List.Nodup.map_on _ (List.nodup_range _)
    intro a ha b hb hab
    rw [List.mem_range] at ha hb
    have h2 := congrArg Prod.snd hab
    simp only at h2
    rw [toSigned_of_lt a (by omega), toSigned_of_lt b (by omega)] at h2
    exact_mod_cast h2
  · apply List.Pairwise.imp _ hrows
    intro a b hab
    simp only [Function.onFun]
    intro p hpa hpb
    simp only [List.mem_map] at hpa hpb
    obtain ⟨_, _, rfl⟩ := hpa
    obtain ⟨_, _, h⟩ := hpb
    exact hab (congrArg Prod.fst h).symm

theorem windowInRange_five (out : RasterImage) (r c : Int)
    (hsize : out.width ≤ 2147483645 ∧ out.height ≤ 2147483645) (hb : inBounds out r c) :
    WindowInRange r c 5 := by
  intro i hi
  have h := mem_windowOffsets_abs 5 i (by decide) hi
  unfold inBounds at hb
  unfold FitsInt
  omega

theorem v1_selectBest_ne_neg_one (imageStack : List RasterImage) (out : RasterImage)
    (r c : Int) (hne : imageStack ≠ [])
    (hmatch : ∀ img ∈ imageStack, MatchesOutput out img)
    (hsize : out.width ≤ 2147483645 ∧ out.height ≤ 2147483645) (hb : inBounds out r c) :
    Version1.selectBest imageStack r c ≠ -1 := by
  cases imageStack with
  | nil => exact absurd rfl hne
  | cons first rest =>
    intro h
    rw [v1_selectBest_eq] at h
    unfold Version2.selectBest at h
    rw [bestImageIndex_eq_neg_one_iff] at h
    have h1 := h first (List.mem_cons_self _ _)
    obtain ⟨hw, hh, _⟩ := hmatch first (List.mem_cons_self _ _)
    have hbf : inBounds first r c := by
      unfold inBounds at hb ⊢
      rw [hw, hh]
      exact hb
    have hsf : first.SizeOk := by
      unfold RasterImage.SizeOk
      rw [hw, hh]
      omega
    have h2 := calculateWindowContrast_nonneg first r c 5 hsf
      (windowInRange_five out r c hsize hb)
      ⟨r, c, inWindow_center first r c 5 (by decide) hbf⟩
    simp only at h1
    linarith

theorem srcByte_of_getElem? (imageStack : List RasterImage) (k : Nat) (best : RasterImage)
    (hk : imageStack[k]? = some best) (r b : Int) :
    srcByte imageStack (k : Int) r b = best.raster2D r b := by
  unfold srcByte
  rw [Int.toNat_ofNat, hk]

theorem mem_allPixels (out : RasterImage) (r c : Int)
    (hsize : out.width ≤ 2147483645 ∧ out.height ≤ 2147483645) :
    (r, c) ∈ bandPixels out.width (intRange 0 ((out.height : Int) - 1)) ↔ inBounds out r c := by
  rw [mem_bandPixels _ _ (by omega), mem_intRange]
  unfold inBounds
  constructor
  · rintro ⟨⟨h1, h2⟩, h3, h4⟩
    exact ⟨h1, by omega, h3, h4⟩
  · rintro ⟨h1, h2, h3, h4⟩
    exact ⟨⟨h1, by omega⟩, h3, h4⟩

/-- After the band workers have run, every byte of every in-bounds pixel holds the byte of
the image selected for that pixel. -/
theorem runThreads_byte (imageStack : List RasterImage) (out : RasterImage) (numThreads : Int)
    (hn : 1 ≤ numThreads) (hne : imageStack ≠ [])
    (hmatch : ∀ img ∈ imageStack, MatchesOutput out img)
    (hsize : out.width ≤ 2147483645 ∧ out.height ≤ 2147483645)
    (r k : Int) (hb : inBounds out r (k / bytesPerPixel out.type)) :
    (Version1.runThreads imageStack out numThreads).raster2D r k
      = srcByte imageStack
          (Version1.selectBest imageStack r (k / bytesPerPixel out.type)) r k := by
  rw [runThreads_eq imageStack out numThreads hn,
    foldl_pixelStep_raster imageStack _ out r k (fun img h => (hmatch img h).2.2)]
  rw [if_pos ⟨(mem_allPixels out r _ hsize).2 hb,
    v1_selectBest_ne_neg_one imageStack out r _ hne hmatch hsize hb⟩]

theorem runThreads_type (imageStack : List RasterImage) (out : RasterImage) (numThreads : Int)
    (hn : 1 ≤ numThreads) : (Version1.runThreads imageStack out numThreads).type = out.type := by
  rw [runThreads_eq imageStack out numThreads hn, foldl_pixelStep_type]

theorem runThreads_width (imageStack : List RasterImage) (out : RasterImage) (numThreads : Int)
    (hn : 1 ≤ numThreads) :
    (Version1.runThreads imageStack out numThreads).width = out.width := by
  rw [runThreads_eq imageStack out numThreads hn, foldl_pixelStep_width]

theorem runThreads_height (imageStack : List RasterImage) (out : RasterImage)
    (numThreads : Int) (hn : 1 ≤ numThreads) :
    (Version1.runThreads imageStack out numThreads).height = out.height := by
  rw [runThreads_eq imageStack out numThreads hn, foldl_pixelStep_height]

theorem pixel_ediv (t : ImageType) (c i : Int) (h0 : 0 ≤ i) (h1 : i ≤ bytesPerPixel t - 1) :
    (c * bytesPerPixel t + i) / bytesPerPixel t = c := by
  cases t with
  | RGBA32_RASTER =>
    simp only [bytesPerPixel] at h1 ⊢
    omega
  | GRAY_RASTER =>
    simp only [bytesPerPixel] at h1 ⊢
    omega

theorem nodup_count_one (l : List (Int × Int)) (a : Int × Int) (hn : l.Nodup) (ha : a ∈ l) :
    l.count a = 1 := by
  induction l with
  | nil => cases ha
  | cons x l ih =>
    rw [List.nodup_cons] at hn
    rw [List.count_cons]
    by_cases hx : x = a
    · subst hx
      simp [List.count_eq_zero_of_not_mem hn.1]
    · have hmem : a ∈ l := by
        rcases List.mem_cons.1 ha with h | h
        · exact absurd h.symm hx
        · exact h
      simp [hx, ih hn.2 hmem]

theorem sampleGray_matches :
    ∀ img ∈ [sampleFlat, sampleGray], MatchesOutput sampleGray img := by
  intro img h
  simp only [List.mem_cons, List.mem_singleton, List.not_mem_nil, or_false] at h
  rcases h with h | h
  · rw [h]; exact ⟨rfl, rfl, rfl⟩
  · rw [h]; exact ⟨rfl, rfl, rfl⟩

/-! ## Claim C10 -/

theorem runThreads_raster (imageStack : List RasterImage) (out : RasterImage)
    (numThreads : Int) (hn : 1 ≤ numThreads)
    (hty : ∀ img ∈ imageStack, img.type = out.type) (r k : Int) :
    (Version1.runThreads imageStack out numThreads).raster2D r k
      = if (r, k / bytesPerPixel out.type)
              ∈ bandPixels out.width (intRange 0 ((out.height : Int) - 1)) ∧
            Version1.selectBest imageStack r (k / bytesPerPixel out.type) ≠ -1
        then srcByte imageStack
          (Version1.selectBest imageStack r (k / bytesPerPixel out.type)) r k
        else out.raster2D r k := by
  rw [runThreads_eq imageStack out numThreads hn,
    foldl_pixelStep_raster imageStack _ out r k hty]

theorem rasterImage_ext (a b : RasterImage) (ht : a.type = b.type) (hw : a.width = b.width)
    (hh : a.height = b.height) (hr : ∀ r k, a.raster2D r k = b.raster2D r k) : a = b := by
  cases a
  cases b
  simp only at ht hw hh hr
  subst ht hw hh
  have : ∀ f g : Int → Int → Fin 256, (∀ r k, f r k = g r k) → f = g :=
    fun f g h => funext fun r => funext fun k => h r k
  rw [this _ _ hr]

/-- C10 (as the code behaves): Version1, for at least one worker and every stack whose images
have the width, height and format of the output image: running the full traversal again on
its own output changes nothing (the two output images are equal); and for every such stack
that is not empty, the raster buffer of the result does not depend on the prior contents of
the output buffer, so that compositing the same stack twice, on any two output buffers of the
same size and format, yields byte-identical output images. -/
theorem C10_static_compositing_idempotent (imageStack : List RasterImage)
    (imageOut : RasterImage) (numThreads : Int)
    (hn : 1 ≤ numThreads)
    (hmatch : ∀ img ∈ imageStack, MatchesOutput imageOut img)
    (hsize : imageOut.width ≤ 2147483645 ∧ imageOut.height ≤ 2147483645) :
    Version1.runThreads imageStack (Version1.runThreads imageStack imageOut numThreads)
        numThreads
      = Version1.runThreads imageStack imageOut numThreads ∧
    (imageStack ≠ [] → ∀ other : RasterImage, MatchesOutput imageOut other →
      SameImage (Version1.runThreads imageStack imageOut numThreads)
        (Version1.runThreads imageStack other numThreads)) := by
  have hty : ∀ img ∈ imageStack, img.type = imageOut.type := fun img h => (hmatch img h).2.2
  constructor
  · have ht := runThreads_type imageStack imageOut numThreads hn
    have hw := runThreads_width imageStack imageOut numThreads hn
    have hh := runThreads_height imageStack imageOut numThreads hn
    apply rasterImage_ext
    · rw [runThreads_type imageStack _ numThreads hn]
    · rw [runThreads_width imageStack _ numThreads hn]
    · rw [runThreads_height imageStack _ numThreads hn]
    · intro r k
      rw [runThreads_raster imageStack _ numThreads hn (by rw [ht]; exact hty) r k, ht, hw, hh]
      rw [runThreads_raster imageStack imageOut numThreads hn hty r k]
      split
      · rfl
      · rfl
  · intro hne other hother
    obtain ⟨how, hoh, hot⟩ := hother
    have hmatch2 : ∀ img ∈ imageStack, MatchesOutput other img := by
      intro img h
      obtain ⟨h1, h2, h3⟩ := hmatch img h
      exact ⟨by rw [h1, how], by rw [h2, hoh], by rw [h3, hot]⟩
    have hsize2 : other.width ≤ 2147483645 ∧ other.height ≤ 2147483645 := by
      rw [how, hoh]; exact hsize
    refine ⟨?_, ?_, ?_, ?_⟩
    · rw [runThreads_type imageStack imageOut numThreads hn,
        runThreads_type imageStack other numThreads hn, hot]
    · rw [runThreads_width imageStack imageOut numThreads hn,
        runThreads_width imageStack other numThreads hn, how]
    · rw [runThreads_height imageStack imageOut numThreads hn,
        runThreads_height imageStack other numThreads hn, hoh]
    · intro r k hr0 hr1 hk0 hk1
      rw [runThreads_type imageStack imageOut numThreads hn,
        runThreads_width imageStack imageOut numThreads hn] at hk1
      rw [runThreads_height imageStack imageOut numThreads hn] at hr1
      have hb : inBounds imageOut r (k / bytesPerPixel imageOut.type) := by
        unfold inBounds
        refine ⟨hr0, hr1, ?_, ?_⟩
        · cases ht : imageOut.type with
          | RGBA32_RASTER => simp only [bytesPerPixel]; omega
          | GRAY_RASTER => simp only [bytesPerPixel]; omega
        · cases ht : imageOut.type with
          | RGBA32_RASTER =>
            rw [ht] at hk1
            simp only [bytesPerPixel] at hk1 ⊢
            omega
          | GRAY_RASTER =>
            rw [ht] at hk1
            simp only [bytesPerPixel] at hk1 ⊢
            omega
      have hb2 : inBounds other r (k / bytesPerPixel other.type) := by
        unfold inBounds at hb ⊢
        rw [hot, how, hoh]
        exact hb
      rw [runThreads_byte imageStack imageOut numThreads hn hne hmatch hsize r k hb,
        runThreads_byte imageStack other numThreads hn hne hmatch2 hsize2 r k hb2, hot]

theorem C10_static_compositing_idempotent_witness :
    Version1.runThreads [sampleFlat, sampleGray]
        (Version1.runThreads [sampleFlat, sampleGray] sampleGray 2) 2
      = Version1.runThreads [sampleFlat, sampleGray] sampleGray 2 ∧
    SameImage (Version1.runThreads [sampleFlat, sampleGray] sampleGray 2)
      (Version1.runThreads [sampleFlat, sampleGray] sampleFlat 2) :=
  ⟨(C10_static_compositing_idempotent [sampleFlat, sampleGray] sampleGray 2 (by decide)
      sampleGray_matches (by decide)).1,
   (C10_static_compositing_idempotent [sampleFlat, sampleGray] sampleGray 2 (by decide)
      sampleGray_matches (by decide)).2 (by simp) sampleFlat ⟨rfl, rfl, rfl⟩⟩

theorem pixelStep_nil (out : RasterImage) (p : Int × Int) : pixelStep [] out p = out := by
  unfold pixelStep copyBest
  have e : Version1.selectBest [] p.1 p.2 = -1 := rfl
  rw [e]
  simp

theorem foldl_pixelStep_nil (L : List (Int × Int)) (out : RasterImage) :
    L.foldl (pixelStep []) out = out := by
  induction L generalizing out with
  | nil => rfl
  | cons p L ih => rw [List.foldl_cons, pixelStep_nil, ih]

theorem runThreads_nil (out : RasterImage) (numThreads : Int) (hn : 1 ≤ numThreads) :
    Version1.runThreads [] out numThreads = out := by
  rw [runThreads_eq [] out numThreads hn, foldl_pixelStep_nil]

/-- C10 fails as stated for the empty stack: its images (there are none) share the output's
dimensions and format, the workers copy nothing, and the result is the prior contents of the
output buffer; run on the two 4x4 Gray buffers `sampleGray` and `sampleFlat` the results
differ at byte `(1, 1)`. -/
theorem C10_counterexample :
    (∀ img ∈ ([] : List RasterImage), MatchesOutput sampleGray img) ∧
    MatchesOutput sampleGray sampleFlat ∧
    Version1.runThreads [] sampleGray 2 = sampleGray ∧
    Version1.runThreads [] sampleFlat 2 = sampleFlat ∧
    ¬ SameImage (Version1.runThreads [] sampleGray 2) (Version1.runThreads [] sampleFlat 2) := by
  have e1 := runThreads_nil sampleGray 2 (by decide)
  have e2 := runThreads_nil sampleFlat 2 (by decide)
  refine ⟨fun img h => absurd h (List.not_mem_nil img), ⟨rfl, rfl, rfl⟩, e1, e2, ?_⟩
  rw [e1, e2]
  intro h
  have hbyte := h.2.2.2 1 1 (by decide) (by decide) (by decide) (by decide)
  revert hbyte
  decide

/-! ## The window copy -/

theorem windowCopy_pairs (src : RasterImage) (centerRow centerCol : Int)
    (L : List (Int × Int)) (out : RasterImage) :
    L.foldl (fun o p => windowCopyBody src o centerRow centerCol p.1 p.2) out
      = (L.filterMap (targetOf out.width out.height centerRow centerCol)).foldl
          (fun o p => copyPixel src o p.1 p.2) out := by
  induction L generalizing out with
  | nil => rfl
  | cons p L ih =>
    rw [List.foldl_cons, ih]
    unfold windowCopyBody targetOf
    simp only
    by_cases h : toUnsigned (centerRow + p.1) < out.height ∧
        toUnsigned (centerCol + p.2) < out.width
    · have h2 : 0 ≤ toUnsigned (centerRow + p.1) ∧ toUnsigned (centerRow + p.1) < out.height ∧
          0 ≤ toUnsigned (centerCol + p.2) ∧ toUnsigned (centerCol + p.2) < out.width :=
        ⟨Nat.zero_le _, h.1, Nat.zero_le _, h.2⟩
      rw [if_pos h2, List.filterMap_cons]
      simp only [copyPixel_width, copyPixel_height, if_pos h, List.foldl_cons]
    · have h2 : ¬ (0 ≤ toUnsigned (centerRow + p.1) ∧
          toUnsigned (centerRow + p.1) < out.height ∧
          0 ≤ toUnsigned (centerCol + p.2) ∧ toUnsigned (centerCol + p.2) < out.width) :=
        fun h3 => h ⟨h3.2.1, h3.2.2.2⟩
      rw [if_neg h2, List.filterMap_cons]
      simp only [if_neg h]

/-- The window copy is the sequence of `copyPixel` calls at the pixels that pass the bounds
test. -/
theorem windowCopy_eq (src out : RasterImage) (centerRow centerCol windowSize : Int) :
    windowCopy src out centerRow centerCol windowSize
      = (windowTargets out.width out.height centerRow centerCol
            (windowOffsets windowSize)).foldl (fun o p => copyPixel src o p.1 p.2) out := by
  unfold windowCopy windowTargets
  rw [foldl_nested (fun o i j => windowCopyBody src o centerRow centerCol i j)]
  exact windowCopy_pairs src centerRow centerCol _ out

theorem foldl_copyPixel_width (src : RasterImage) (L : List (Int × Int)) (out : RasterImage) :
    (L.foldl (fun o p => copyPixel src o p.1 p.2) out).width = out.width := by
  induction L generalizing out with
  | nil => rfl
  | cons p L ih => rw [List.foldl_cons, ih, copyPixel_width]

theorem foldl_copyPixel_height (src : RasterImage) (L : List (Int × Int)) (out : RasterImage) :
    (L.foldl (fun o p => copyPixel src o p.1 p.2) out).height = out.height := by
  induction L generalizing out with
  | nil => rfl
  | cons p L ih => rw [List.foldl_cons, ih, copyPixel_height]

theorem foldl_copyPixel_type (src : RasterImage) (L : List (Int × Int)) (out : RasterImage) :
    (L.foldl (fun o p => copyPixel src o p.1 p.2) out).type = out.type := by
  induction L generalizing out with
  | nil => rfl
  | cons p L ih => rw [List.foldl_cons, ih, copyPixel_type]

theorem windowCopyLogged_pairs (src : RasterImage) (centerRow centerCol : Int)
    (L : List (Int × Int)) (st : RasterImage × List (Int × Int)) :
    L.foldl
        (fun (st : RasterImage × List (Int × Int)) p =>
          let targetRow := toUnsigned (centerRow + p.1)
          let targetCol := toUnsigned (centerCol + p.2)
          if 0 ≤ targetRow ∧ targetRow < st.1.height ∧ 0 ≤ targetCol ∧ targetCol < st.1.width
          then (copyPixel src st.1 (toSigned targetRow) (toSigned targetCol),
            st.2 ++ [(toSigned targetRow, toSigned targetCol)])
          else st)
        st
      = (L.foldl (fun o p => windowCopyBody src o centerRow centerCol p.1 p.2) st.1,
         st.2 ++ L.filterMap (targetOf st.1.width st.1.height centerRow centerCol)) := by
  induction L generalizing st with
  | nil => simp
  | cons p L ih =>
    rw [List.foldl_cons, ih, List.foldl_cons]
    unfold windowCopyBody targetOf
    simp only
    by_cases h : toUnsigned (centerRow + p.1) < st.1.height ∧
        toUnsigned (centerCol + p.2) < st.1.width
    · have h2 : 0 ≤ toUnsigned (centerRow + p.1) ∧
          toUnsigned (centerRow + p.1) < st.1.height ∧
          0 ≤ toUnsigned (centerCol + p.2) ∧ toUnsigned (centerCol + p.2) < st.1.width :=
        ⟨Nat.zero_le _, h.1, Nat.zero_le _, h.2⟩
      simp only [if_pos h2, List.filterMap_cons, if_pos h, copyPixel_width, copyPixel_height,
        List.append_assoc, List.singleton_append]
    · have h2 : ¬ (0 ≤ toUnsigned (centerRow + p.1) ∧
          toUnsigned (centerRow + p.1) < st.1.height ∧
          0 ≤ toUnsigned (centerCol + p.2) ∧ toUnsigned (centerCol + p.2) < st.1.width) :=
        fun h3 => h ⟨h3.2.1, h3.2.2.2⟩
      simp only [if_neg h2, List.filterMap_cons, if_neg h]

/-- The logged window copy performs the window copy, and its log is the list of the pixels
that pass the bounds test. -/
theorem windowCopyLogged_eq (src : RasterImage) (st : RasterImage × List (Int × Int))
    (centerRow centerCol windowSize : Int) :
    windowCopyLogged src st centerRow centerCol windowSize
      = (windowCopy src st.1 centerRow centerCol windowSize,
         st.2 ++ windowTargets st.1.width st.1.height centerRow centerCol
           (windowOffsets windowSize)) := by
  unfold windowCopyLogged windowCopy windowTargets
  rw [foldl_nested (fun (st : RasterImage × List (Int × Int)) i j =>
      let targetRow := toUnsigned (centerRow + i)
      let targetCol := toUnsigned (centerCol + j)
      if 0 ≤ targetRow ∧ targetRow < st.1.height ∧ 0 ≤ targetCol ∧ targetCol < st.1.width
      then (copyPixel src st.1 (toSigned targetRow) (toSigned targetCol),
        st.2 ++ [(toSigned targetRow, toSigned targetCol)])
      else st),
    foldl_nested (fun o i j => windowCopyBody src o centerRow centerCol i j)]
  exact windowCopyLogged_pairs src centerRow centerCol _ st

theorem contrastLogged_pairs (image : RasterImage) (centerRow centerCol : Int)
    (L : List (Int × Int)) (acc : (ℚ × ℚ) × List (Int × Int)) :
    L.foldl (fun acc p => contrastBodyLogged image centerRow centerCol acc p.1 p.2) acc
      = (L.foldl (fun acc p => contrastBody image centerRow centerCol acc p.1 p.2) acc.1,
         acc.2 ++ L.filterMap (targetOf image.width image.height centerRow centerCol)) := by
  induction L generalizing acc with
  | nil => simp
  | cons p L ih =>
    rw [List.foldl_cons, ih, List.foldl_cons]
    unfold contrastBodyLogged contrastBody targetOf
    simp only
    by_cases h : toUnsigned (centerRow + p.1) < image.height ∧
        toUnsigned (centerCol + p.2) < image.width
    · have h2 : 0 ≤ toUnsigned (centerRow + p.1) ∧
          toUnsigned (centerRow + p.1) < image.height ∧
          0 ≤ toUnsigned (centerCol + p.2) ∧ toUnsigned (centerCol + p.2) < image.width :=
        ⟨Nat.zero_le _, h.1, Nat.zero_le _, h.2⟩
      simp only [if_pos h2, List.filterMap_cons, if_pos h, List.append_assoc,
        List.singleton_append]
    · have h2 : ¬ (0 ≤ toUnsigned (centerRow + p.1) ∧
          toUnsigned (centerRow + p.1) < image.height ∧
          0 ≤ toUnsigned (centerCol + p.2) ∧ toUnsigned (centerCol + p.2) < image.width) :=
        fun h3 => h ⟨h3.2.1, h3.2.2.2⟩
      simp only [if_neg h2, List.filterMap_cons, if_neg h]

/-- The logged contrast returns the contrast, and its log is the list of the pixels that pass
the bounds test. -/
theorem calculateWindowContrastLogged_eq (image : RasterImage)
    (centerRow centerCol windowSize : Int) :
    calculateWindowContrastLogged image centerRow centerCol windowSize
      = (calculateWindowContrast image centerRow centerCol windowSize,
         windowTargets image.width image.height centerRow centerCol
           (windowOffsets windowSize)) := by
  unfold calculateWindowContrastLogged calculateWindowContrast windowTargets
  rw [foldl_nested (fun acc i j => contrastBodyLogged image centerRow centerCol acc i j),
    foldl_nested (fun acc i j => contrastBody image centerRow centerCol acc i j),
    contrastLogged_pairs]
  simp

theorem mem_windowTargets (width height : Nat) (centerRow centerCol : Int) (offs : List Int)
    (q : Int × Int) :
    q ∈ windowTargets width height centerRow centerCol offs ↔
      ∃ i ∈ offs, ∃ j ∈ offs, toUnsigned (centerRow + i) < height ∧
        toUnsigned (centerCol + j) < width ∧
        q = (toSigned (toUnsigned (centerRow + i)), toSigned (toUnsigned (centerCol + j))) := by
  unfold windowTargets
  rw [List.mem_filterMap]
  constructor
  · rintro ⟨p, hp, hq⟩
    rw [mem_offsetPairs] at hp
    unfold targetOf at hq
    split at hq
    · rename_i h
      exact ⟨p.1, hp.1, p.2, hp.2, h.1, h.2, (Option.some.inj hq).symm⟩
    · cases hq
  · rintro ⟨i, hi, j, hj, h1, h2, rfl⟩
    refine ⟨(i, j), (mem_offsetPairs _ _).2 ⟨hi, hj⟩, ?_⟩
    unfold targetOf
    rw [if_pos ⟨h1, h2⟩]

/-- Every pixel that passes the bounds test lies inside the image. -/
theorem windowTargets_inBounds (image : RasterImage) (centerRow centerCol : Int)
    (offs : List Int) (hs : image.SizeOk) (q : Int × Int)
    (hq : q ∈ windowTargets image.width image.height centerRow centerCol offs) :
    inBounds image q.1 q.2 := by
  rw [mem_windowTargets] at hq
  obtain ⟨i, _, j, _, h1, h2, rfl⟩ := hq
  unfold inBounds
  simp only
  rw [toSigned_of_lt _ (by have := hs.2; omega), toSigned_of_lt _ (by have := hs.1; omega)]
  omega

/-- Under the `int` range assumptions the pixels that pass the bounds test are exactly the
in-bounds pixels of the window. -/
theorem mem_windowTargets_iff (image : RasterImage) (centerRow centerCol : Int)
    (offs : List Int) (hs : image.SizeOk) (hr : OffsetsInRange centerRow centerCol offs)
    (r c : Int) :
    (r, c) ∈ windowTargets image.width image.height centerRow centerCol offs ↔
      inWindowOffs image centerRow centerCol offs r c := by
  rw [mem_windowTargets]
  constructor
  · rintro ⟨i, hi, j, hj, h1, h2, hq⟩
    have hi2 := (toUnsigned_lt_iff _ _ (hr i hi).1 hs.2).1 h1
    have hj2 := (toUnsigned_lt_iff _ _ (hr j hj).2 hs.1).1 h2
    have e1 := toSigned_toUnsigned _ _ hs.2 hi2.1 hi2.2
    have e2 := toSigned_toUnsigned _ _ hs.1 hj2.1 hj2.2
    rw [e1, e2] at hq
    have hr1 : r = centerRow + i := congrArg Prod.fst hq
    have hc1 : c = centerCol + j := congrArg Prod.snd hq
    refine ⟨?_, ?_, ?_⟩
    · have : r - centerRow = i := by omega
      rw [this]; exact hi
    · have : c - centerCol = j := by omega
      rw [this]; exact hj
    · unfold inBounds
      omega
  · rintro ⟨hi, hj, hb⟩
    unfold inBounds at hb
    have e1 : centerRow + (r - centerRow) = r := by ring
    have e2 : centerCol + (c - centerCol) = c := by ring
    refine ⟨r - centerRow, hi, c - centerCol, hj, ?_, ?_, ?_⟩
    · rw [e1]
      exact (toUnsigned_lt_iff r _ (by have := (hr _ hi).1; rw [e1] at this; exact this)
        hs.2).2 ⟨hb.1, hb.2.1⟩
    · rw [e2]
      exact (toUnsigned_lt_iff c _ (by have := (hr _ hj).2; rw [e2] at this; exact this)
        hs.1).2 ⟨hb.2.2.1, hb.2.2.2⟩
    · rw [e1, e2, toSigned_toUnsigned r _ hs.2 hb.1 hb.2.1,
        toSigned_toUnsigned c _ hs.1 hb.2.2.1 hb.2.2.2]

/-! ## Claim C11 -/

theorem windowOffsets_eleven : windowOffsets 11 = intRange (-5) 5 := by decide

theorem toUnsigned_negative_rejected (x : Int) (n : Nat) (hx : FitsInt x) (hneg : x < 0)
    (hn : n ≤ 2147483647) : ¬ (toUnsigned x < n) := by
  intro h
  have := (toUnsigned_lt_iff x n hx hn).1 h
  omega

theorem corner_window_targets (image : RasterImage) (hw : image.width = 8)
    (hh : image.height = 8) (r c : Int) :
    (r, c) ∈ windowTargets image.width image.height 0 0 (windowOffsets 11) ↔
      (0 ≤ r ∧ r ≤ 5 ∧ 0 ≤ c ∧ c ≤ 5) := by
  have hs : image.SizeOk := by
    unfold RasterImage.SizeOk
    rw [hw, hh]
    decide
  have hr : OffsetsInRange 0 0 (windowOffsets 11) := by
    unfold OffsetsInRange FitsInt
    decide
  rw [mem_windowTargets_iff image 0 0 _ hs hr]
  unfold inWindowOffs inBounds
  rw [windowOffsets_eleven, mem_intRange, mem_intRange, hw, hh]
  constructor
  · rintro ⟨h1, h2, h3⟩
    omega
  · intro h
    refine ⟨by omega, by omega, by omega, ?_, by omega, ?_⟩
    · have : r < 8 := by omega
      exact_mod_cast this
    · have : c < 8 := by omega
      exact_mod_cast this

/-- C11: for every stack of images of the size of the output image (sizes representable as
`int`), every centre and every window size (in particular window size 11 and an in-bounds
centre): every pixel read by `calculateWindowContrast` lies inside the image it is read from,
and every pixel passed to `copyPixel` by the window copy lies inside the output image and
inside the source image; an `int` sum `centre + offset` that is negative wraps to an
unsigned value that fails the bounds test; and for the corner centre `(0, 0)` of an 8x8
image with window size 11 the pixels read and the pixels copied are exactly those of rows
0..5 and columns 0..5. -/
theorem C11_window_accesses_in_bounds (imageStack : List RasterImage)
    (outputImage : RasterImage) (centerRow centerCol windowSize : Int)
    (hs : outputImage.SizeOk)
    (hsame : ∀ img ∈ imageStack,
      img.width = outputImage.width ∧ img.height = outputImage.height) :
    (∀ img ∈ imageStack,
      ∀ p ∈ (calculateWindowContrastLogged img centerRow centerCol windowSize).2,
        inBounds img p.1 p.2) ∧
    (∀ src ∈ imageStack,
      ∀ p ∈ (windowCopyLogged src (outputImage, []) centerRow centerCol windowSize).2,
        inBounds outputImage p.1 p.2 ∧ inBounds src p.1 p.2) ∧
    (∀ x : Int, FitsInt x → x < 0 →
      ¬ (toUnsigned x < outputImage.height) ∧ ¬ (toUnsigned x < outputImage.width)) ∧
    (outputImage.width = 8 → outputImage.height = 8 → ∀ src ∈ imageStack, ∀ r c : Int,
      ((r, c) ∈ (calculateWindowContrastLogged src 0 0 11).2 ↔
        (0 ≤ r ∧ r ≤ 5 ∧ 0 ≤ c ∧ c ≤ 5)) ∧
      ((r, c) ∈ (windowCopyLogged src (outputImage, []) 0 0 11).2 ↔
        (0 ≤ r ∧ r ≤ 5 ∧ 0 ≤ c ∧ c ≤ 5))) := by
  refine ⟨?_, ?_, ?_, ?_⟩
  · intro img himg p hp
    rw [calculateWindowContrastLogged_eq] at hp
    have hsi : img.SizeOk := by
      unfold RasterImage.SizeOk
      rw [(hsame img himg).1, (hsame img himg).2]
      exact hs
    exact windowTargets_inBounds img centerRow centerCol _ hsi p hp
  · intro src hsrc p hp
    rw [windowCopyLogged_eq] at hp
    simp only [List.nil_append] at hp
    have hb := windowTargets_inBounds outputImage centerRow centerCol _ hs p hp
    refine ⟨hb, ?_⟩
    unfold inBounds at hb ⊢
    rw [(hsame src hsrc).1, (hsame src hsrc).2]
    exact hb
  · intro x hx hneg
    exact ⟨toUnsigned_negative_rejected x _ hx hneg hs.2,
      toUnsigned_negative_rejected x _ hx hneg hs.1⟩
  · intro hw hh src hsrc r c
    constructor
    · rw [calculateWindowContrastLogged_eq]
      exact corner_window_targets src (by rw [(hsame src hsrc).1, hw])
        (by rw [(hsame src hsrc).2, hh]) r c
    · rw [windowCopyLogged_eq]
      simp only [List.nil_append]
      exact corner_window_targets outputImage hw hh r c

theorem sample8_same : ∀ img ∈ [sample8],
    img.width = blank8.width ∧ img.height = blank8.height := by
  intro img h
  rw [List.mem_singleton] at h
  rw [h]
  exact ⟨rfl, rfl⟩

theorem C11_window_accesses_in_bounds_witness :
    (∀ p ∈ (calculateWindowContrastLogged sample8 0 0 11).2, inBounds sample8 p.1 p.2) ∧
    (((5 : Int), (5 : Int)) ∈ (windowCopyLogged sample8 (blank8, []) 0 0 11).2 ↔
      ((0 : Int) ≤ 5 ∧ (5 : Int) ≤ 5 ∧ (0 : Int) ≤ 5 ∧ (5 : Int) ≤ 5)) :=
  ⟨(C11_window_accesses_in_bounds [sample8] blank8 0 0 11
      (by unfold RasterImage.SizeOk; decide) sample8_same).1 sample8
      (List.mem_singleton.2 rfl),
   ((C11_window_accesses_in_bounds [sample8] blank8 0 0 11
      (by unfold RasterImage.SizeOk; decide) sample8_same).2.2.2 rfl rfl sample8
      (List.mem_singleton.2 rfl) 5 5).2⟩

/-! ## Claim C15: provenance of the output pixels -/

theorem copyPixel_of_type_ne (src dst : RasterImage) (row col : Int)
    (h : src.type ≠ dst.type) : copyPixel src dst row col = dst := by
  unfold copyPixel
  rw [if_neg (fun hc => h (hc.1.trans hc.2.symm)), if_neg (fun hc => h (hc.1.trans hc.2.symm))]

/-- The function `copyPixel` changes no byte outside pixel `(row, col)`. -/
theorem copyPixel_raster_frame (src dst : RasterImage) (row col r k : Int)
    (h : ¬ (r = row ∧ k / bytesPerPixel dst.type = col)) :
    (copyPixel src dst row col).raster2D r k = dst.raster2D r k := by
  by_cases hs : src.type = dst.type
  · rw [copyPixel_raster src dst row col r k hs, if_neg h]
  · rw [copyPixel_of_type_ne src dst row col hs]

/-- Effect of `copyPixel` on whole pixels, for images of the same format: pixel `(row, col)`
becomes the source pixel, every other pixel is unchanged. -/
theorem copyPixel_pixelBytes (src dst : RasterImage) (row col r c : Int)
    (hs : src.type = dst.type) :
    pixelBytes (copyPixel src dst row col) r c
      = if r = row ∧ c = col then pixelBytes src r c else pixelBytes dst r c := by
  unfold pixelBytes
  rw [copyPixel_type, hs]
  by_cases h : r = row ∧ c = col
  · rw [if_pos h]
    apply List.map_congr_left
    intro i hi
    rw [mem_intRange] at hi
    rw [copyPixel_raster src dst row col r _ hs,
      if_pos ⟨h.1, by rw [pixel_ediv dst.type c i hi.1 hi.2]; exact h.2⟩]
  · rw [if_neg h]
    apply List.map_congr_left
    intro i hi
    rw [mem_intRange] at hi
    rw [copyPixel_raster src dst row col r _ hs,
      if_neg (by rw [pixel_ediv dst.type c i hi.1 hi.2]; exact h)]

theorem foldl_copyPixel_pixelBytes (src : RasterImage) (L : List (Int × Int))
    (out : RasterImage) (r c : Int) :
    pixelBytes (L.foldl (fun o p => copyPixel src o p.1 p.2) out) r c = pixelBytes out r c ∨
    (src.type = out.type ∧
      pixelBytes (L.foldl (fun o p => copyPixel src o p.1 p.2) out) r c
        = pixelBytes src r c) := by
  induction L generalizing out with
  | nil => exact Or.inl rfl
  | cons p L ih =>
    rw [List.foldl_cons]
    by_cases hs : src.type = out.type
    · rcases ih (copyPixel src out p.1 p.2) with h | h
      · rw [h, copyPixel_pixelBytes src out p.1 p.2 r c hs]
        by_cases hp : r = p.1 ∧ c = p.2
        · rw [if_pos hp]
          exact Or.inr ⟨hs, rfl⟩
        · rw [if_neg hp]
          exact Or.inl rfl
      · exact Or.inr ⟨hs, h.2⟩
    · rw [copyPixel_of_type_ne src out p.1 p.2 hs]
      exact ih out

theorem foldl_copyPixel_raster_frame (src : RasterImage) (L : List (Int × Int))
    (out : RasterImage) (r k : Int) (h : (r, k / bytesPerPixel out.type) ∉ L) :
    (L.foldl (fun o p => copyPixel src o p.1 p.2) out).raster2D r k = out.raster2D r k := by
  induction L generalizing out with
  | nil => rfl
  | cons p L ih =>
    rw [List.foldl_cons, ih]
    · apply copyPixel_raster_frame
      intro hc
      apply h
      have e : (r, k / bytesPerPixel out.type) = p := Prod.ext hc.1 hc.2
      rw [e]
      exact List.mem_cons_self _ _
    · rw [copyPixel_type]
      exact fun hm => h (List.mem_cons_of_mem _ hm)

theorem iteration_type (imageStack : List RasterImage) (out : RasterImage)
    (centerRow centerCol : Int) :
    (Version2.iteration imageStack out centerRow centerCol).type = out.type := by
  unfold Version2.iteration
  simp only
  split
  · split
    · rw [windowCopy_eq, foldl_copyPixel_type]
    · rfl
  · rfl

theorem iteration_width (imageStack : List RasterImage) (out : RasterImage)
    (centerRow centerCol : Int) :
    (Version2.iteration imageStack out centerRow centerCol).width = out.width := by
  unfold Version2.iteration
  simp only
  split
  · split
    · rw [windowCopy_eq, foldl_copyPixel_width]
    · rfl
  · rfl

theorem iteration_height (imageStack : List RasterImage) (out : RasterImage)
    (centerRow centerCol : Int) :
    (Version2.iteration imageStack out centerRow centerCol).height = out.height := by
  unfold Version2.iteration
  simp only
  split
  · split
    · rw [windowCopy_eq, foldl_copyPixel_height]
    · rfl
  · rfl

/-- One iteration leaves every pixel as it was or replaces it, in all of its channels, by
the corresponding pixel of one image of the stack. -/
theorem iteration_pixelBytes (imageStack : List RasterImage) (out : RasterImage)
    (centerRow centerCol r c : Int) :
    pixelBytes (Version2.iteration imageStack out centerRow centerCol) r c
        = pixelBytes out r c ∨
    ∃ img ∈ imageStack,
      pixelBytes (Version2.iteration imageStack out centerRow centerCol) r c
        = pixelBytes img r c := by
  unfold Version2.iteration
  simp only
  split
  · split
    · rename_i src hsrc
      rw [windowCopy_eq]
      rcases foldl_copyPixel_pixelBytes src _ out r c with h | h
      · exact Or.inl h
      · exact Or.inr ⟨src, List.getElem?_mem hsrc, h.2⟩
    · exact Or.inl rfl
  · exact Or.inl rfl

/-- One iteration changes no byte of a pixel that does not pass the bounds test of the
window copy. -/
theorem iteration_raster_frame (imageStack : List RasterImage) (out : RasterImage)
    (centerRow centerCol r k : Int)
    (h : (r, k / bytesPerPixel out.type)
      ∉ windowTargets out.width out.height centerRow centerCol (windowOffsets 11)) :
    (Version2.iteration imageStack out centerRow centerCol).raster2D r k
      = out.raster2D r k := by
  unfold Version2.iteration
  simp only
  split
  · split
    · rw [windowCopy_eq]
      exact foldl_copyPixel_raster_frame _ _ out r k h
    · rfl
  · rfl

theorem iteration_of_winner (imageStack : List RasterImage) (out : RasterImage)
    (centerRow centerCol : Int) (best : Nat) (winner : RasterImage)
    (hw : imageStack[best]? = some winner)
    (hb : Version2.selectBest imageStack centerRow centerCol 11 = (best : Int)) :
    Version2.iteration imageStack out centerRow centerCol
      = windowCopy winner out centerRow centerCol 11 := by
  unfold Version2.iteration
  simp only
  rw [hb, if_pos (by omega), Int.toNat_ofNat, hw]

/-- After any finite number of iterations a pixel holds its initial bytes or the bytes that a
stack image has at the same coordinates. -/
theorem run_pixelBytes (imageStack : List RasterImage) (outputImage : RasterImage)
    (centers : List (Int × Int)) (r c : Int) :
    pixelBytes (Version2.run imageStack outputImage centers) r c
        = pixelBytes outputImage r c ∨
    ∃ img ∈ imageStack,
      pixelBytes (Version2.run imageStack outputImage centers) r c = pixelBytes img r c := by
  unfold Version2.run
  induction centers generalizing outputImage with
  | nil => exact Or.inl rfl
  | cons ctr centers ih =>
    rw [List.foldl_cons]
    rcases ih (Version2.iteration imageStack outputImage ctr.1 ctr.2) with h | h
    · rcases iteration_pixelBytes imageStack outputImage ctr.1 ctr.2 r c with h2 | h2
      · exact Or.inl (h.trans h2)
      · obtain ⟨img, himg, h3⟩ := h2
        exact Or.inr ⟨img, himg, h.trans h3⟩
    · exact Or.inr h

theorem run_size (imageStack : List RasterImage) (outputImage : RasterImage)
    (centers : List (Int × Int)) :
    (Version2.run imageStack outputImage centers).type = outputImage.type ∧
    (Version2.run imageStack outputImage centers).width = outputImage.width ∧
    (Version2.run imageStack outputImage centers).height = outputImage.height := by
  unfold Version2.run
  induction centers generalizing outputImage with
  | nil => exact ⟨rfl, rfl, rfl⟩
  | cons ctr centers ih =>
    rw [List.foldl_cons]
    obtain ⟨h1, h2, h3⟩ := ih (Version2.iteration imageStack outputImage ctr.1 ctr.2)
    exact ⟨h1.trans (iteration_type _ _ _ _), h2.trans (iteration_width _ _ _ _),
      h3.trans (iteration_height _ _ _ _)⟩

/-- C15 (as the code behaves): for a stack whose images have the width, height and format of
the output image, after any finite number of window-copy iterations of the random-sampling
engine, in any sequential order, the output keeps its format and size and every pixel of the
output image either holds the value it had before the first iteration or equals, in all of
its channels together, the pixel at the same coordinates, inside the raster, of some image
in the stack; no pixel mixes channels of different images. -/
theorem C15_pixel_provenance (imageStack : List RasterImage) (outputImage : RasterImage)
    (centers : List (Int × Int)) (r c : Int)
    (hmatch : ∀ img ∈ imageStack, MatchesOutput outputImage img)
    (hb : inBounds outputImage r c) :
    ((Version2.run imageStack outputImage centers).type = outputImage.type ∧
      (Version2.run imageStack outputImage centers).width = outputImage.width ∧
      (Version2.run imageStack outputImage centers).height = outputImage.height) ∧
    (pixelBytes (Version2.run imageStack outputImage centers) r c
        = pixelBytes outputImage r c ∨
      ∃ img ∈ imageStack, inBounds img r c ∧ img.type = outputImage.type ∧
        pixelBytes (Version2.run imageStack outputImage centers) r c = pixelBytes img r c) := by
  refine ⟨run_size imageStack outputImage centers, ?_⟩
  rcases run_pixelBytes imageStack outputImage centers r c with h | ⟨img, himg, h⟩
  · exact Or.inl h
  · obtain ⟨hw, hh, ht⟩ := hmatch img himg
    refine Or.inr ⟨img, himg, ?_, ht, h⟩
    unfold inBounds at hb ⊢
    rw [hw, hh]
    exact hb

theorem C15_pixel_provenance_witness :
    pixelBytes (Version2.run [sample8] blank8 [(0, 0), (7, 7)]) 3 3
        = pixelBytes blank8 3 3 ∨
      ∃ img ∈ [sample8], inBounds img 3 3 ∧ img.type = blank8.type ∧
        pixelBytes (Version2.run [sample8] blank8 [(0, 0), (7, 7)]) 3 3
          = pixelBytes img 3 3 :=
  (C15_pixel_provenance [sample8] blank8 [(0, 0), (7, 7)] 3 3
    (fun img h => by
      rw [List.mem_singleton.1 h]
      exact ⟨rfl, rfl, rfl⟩)
    (by unfold inBounds; decide)).2

theorem pixelBytes_gray (image : RasterImage) (r c : Int)
    (h : image.type = ImageType.GRAY_RASTER) : pixelBytes image r c = [image.raster2D r c] := by
  unfold pixelBytes
  rw [h]
  have e : intRange 0 (bytesPerPixel ImageType.GRAY_RASTER - 1) = [0] := by decide
  rw [e]
  simp [bytesPerPixel]

/-- C15 fails as stated: after one iteration with the sampled centre `(0, 0)` on the stack
`[sample8]` and the zero-filled 8x8 output buffer `blank8`, the output pixel `(7, 7)`, which
the window of size 11 does not reach, still holds `0`, whereas the only stack image holds
`210` there. -/
theorem C15_counterexample :
    pixelBytes (Version2.run [sample8] blank8 [(0, 0)]) 7 7 = [0] ∧
    pixelBytes sample8 7 7 = [210] ∧
    ¬ ∃ img ∈ [sample8],
      pixelBytes (Version2.run [sample8] blank8 [(0, 0)]) 7 7 = pixelBytes img 7 7 := by
  have e1 : pixelBytes (Version2.run [sample8] blank8 [(0, 0)]) 7 7 = [0] := by
    have ht : (Version2.run [sample8] blank8 [(0, 0)]).type = ImageType.GRAY_RASTER := by
      unfold Version2.run
      simp only [List.foldl_cons, List.foldl_nil]
      rw [iteration_type]
      rfl
    rw [pixelBytes_gray _ 7 7 ht]
    unfold Version2.run
    simp only [List.foldl_cons, List.foldl_nil]
    rw [iteration_raster_frame [sample8] blank8 0 0 7 7 (by decide)]
    rfl
  have e2 : pixelBytes sample8 7 7 = [210] := by
    rw [pixelBytes_gray _ 7 7 rfl]
    decide
  refine ⟨e1, e2, ?_⟩
  rintro ⟨img, himg, h⟩
  rw [List.mem_singleton] at himg
  rw [himg, e1, e2] at h
  revert h
  decide

/-! ## The region locks of Version3: claims C12 - C14 -/

theorem mem_setInsert (x z : Int) (s : List Int) : z ∈ setInsert x s ↔ z = x ∨ z ∈ s := by
  induction s with
  | nil => simp [setInsert]
  | cons y ys ih =>
    unfold setInsert
    split
    · simp
    · split
      · rename_i h
        simp only [List.mem_cons]
        constructor
        · intro hz
          exact Or.inr hz
        · rintro (hz | hz)
          · exact Or.inl (hz.trans h)
          · exact hz
      · simp only [List.mem_cons, ih]
        constructor
        · rintro (hz | hz | hz)
          · exact Or.inr (Or.inl hz)
          · exact Or.inl hz
          · exact Or.inr (Or.inr hz)
        · rintro (hz | hz | hz)
          · exact Or.inr (Or.inl hz)
          · exact Or.inl hz
          · exact Or.inr (Or.inr hz)

/-- Inserting into an ascending list without duplicates gives an ascending list without
duplicates. -/
theorem setInsert_pairwise (x : Int) (s : List Int) (hs : s.Pairwise (· < ·)) :
    (setInsert x s).Pairwise (· < ·) := by
  induction s with
  | nil => simp [setInsert]
  | cons y ys ih =>
    rw [List.pairwise_cons] at hs
    unfold setInsert
    split
    · rename_i hxy
      rw [List.pairwise_cons]
      refine ⟨?_, List.pairwise_cons.2 hs⟩
      intro z hz
      rcases List.mem_cons.1 hz with h | h
      · rw [h]; exact hxy
      · exact lt_trans hxy (hs.1 z h)
    · split
      · exact List.pairwise_cons.2 hs
      · rename_i h1 h2
        rw [List.pairwise_cons]
        refine ⟨?_, ih hs.2⟩
        intro z hz
        rcases (mem_setInsert x z ys).1 hz with h | h
        · rw [h]; omega
        · exact hs.1 z h

theorem lockSetBody_pairwise (out : RasterImage) (startRow endRow centerRow centerCol : Int)
    (regions : List Int) (i j : Int) (h : regions.Pairwise (· < ·)) :
    (Version3.lockSetBody out startRow endRow centerRow centerCol regions i j).Pairwise
      (· < ·) := by
  unfold Version3.lockSetBody
  simp only
  split
  · exact setInsert_pairwise _ _ h
  · exact h

theorem uniqueRegionIndices_pairwise (out : RasterImage)
    (startRow endRow centerRow centerCol : Int) :
    (Version3.uniqueRegionIndices out startRow endRow centerRow centerCol).Pairwise
      (· < ·) := by
  unfold Version3.uniqueRegionIndices
  rw [foldl_nested (fun regions i j =>
    Version3.lockSetBody out startRow endRow centerRow centerCol regions i j)]
  generalize (windowOffsets 11).flatMap (fun i => (windowOffsets 11).map (fun j => (i, j))) = L
  have key : ∀ (L : List (Int × Int)) (regions : List Int), regions.Pairwise (· < ·) →
      (L.foldl (fun regions p =>
        Version3.lockSetBody out startRow endRow centerRow centerCol regions p.1 p.2)
        regions).Pairwise (· < ·) := by
    intro L
    induction L with
    | nil => exact fun regions h => h
    | cons p L ih =>
      intro regions h
      rw [List.foldl_cons]
      exact ih _ (lockSetBody_pairwise out startRow endRow centerRow centerCol regions _ _ h)
  exact key L [] List.Pairwise.nil

/-- In an ascending list without duplicates the order of the positions is the order of the
values. -/
theorem ascending_index_order (L : List Int) (hL : L.Pairwise (· < ·)) (a b : Int)
    (i j : Nat) (hi : L[i]? = some a) (hj : L[j]? = some b) : i < j ↔ a < b := by
  obtain ⟨hil, rfl⟩ := List.getElem?_eq_some.1 hi
  obtain ⟨hjl, rfl⟩ := List.getElem?_eq_some.1 hj
  have h := List.pairwise_iff_getElem.1 hL
  constructor
  · intro hij
    exact h i j hil hjl hij
  · intro hab
    by_contra hij
    rcases Nat.lt_or_eq_of_le (Nat.le_of_not_lt hij) with h2 | h2
    · have := h j i hjl hil h2
      omega
    · subst h2
      omega

theorem iterationLogged_locked (imageStack : List RasterImage) (out : RasterImage)
    (startRow endRow centerRow centerCol : Int) :
    (Version3.iterationLogged imageStack out startRow endRow centerRow centerCol).2.locked
      = Version3.uniqueRegionIndices out startRow endRow centerRow centerCol := rfl

/-- C14: in every iteration of every Version3 worker the sequence of region locks acquired
(the iteration order of the `std::set<int>` `uniqueRegionIndices`) is strictly ascending in
cell id, so no cell is locked twice; hence for any two iterations, of the same or of
different workers, two cells that both lock are locked in the same relative order. -/
theorem C14_canonical_lock_order (stack1 stack2 : List RasterImage) (out1 out2 : RasterImage)
    (startRow1 endRow1 centerRow1 centerCol1 startRow2 endRow2 centerRow2 centerCol2 : Int) :
    (Version3.iterationLogged stack1 out1 startRow1 endRow1 centerRow1
        centerCol1).2.locked.Pairwise (· < ·) ∧
    (Version3.iterationLogged stack1 out1 startRow1 endRow1 centerRow1
        centerCol1).2.locked.Nodup ∧
    (∀ (a b : Int) (i j i2 j2 : Nat),
      (Version3.iterationLogged stack1 out1 startRow1 endRow1 centerRow1
        centerCol1).2.locked[i]? = some a →
      (Version3.iterationLogged stack1 out1 startRow1 endRow1 centerRow1
        centerCol1).2.locked[j]? = some b →
      (Version3.iterationLogged stack2 out2 startRow2 endRow2 centerRow2
        centerCol2).2.locked[i2]? = some a →
      (Version3.iterationLogged stack2 out2 startRow2 endRow2 centerRow2
        centerCol2).2.locked[j2]? = some b →
      (i < j ↔ i2 < j2)) := by
  rw [iterationLogged_locked, iterationLogged_locked]
  have h1 := uniqueRegionIndices_pairwise out1 startRow1 endRow1 centerRow1 centerCol1
  have h2 := uniqueRegionIndices_pairwise out2 startRow2 endRow2 centerRow2 centerCol2
  refine ⟨h1, h1.nodup, ?_⟩
  intro a b i j i2 j2 hi hj hi2 hj2
  rw [ascending_index_order _ h1 a b i j hi hj, ascending_index_order _ h2 a b i2 j2 hi2 hj2]

/-- C13 (the code at a failing input): on a 5x5 output image the in-bounds pixel `(4, 0)` gets
`regionIndex = (4 / (5 / 4)) * 4 + 0 / (5 / 4) = 16`, which is not below
`GRID_ROWS * GRID_COLS = 16`: the cell row is not clamped. The index 16 is in the lock set of
the single worker (band `[0, 5)`) at the centre `(2, 2)`. The pixels `(0, 4)` and `(1, 0)`,
of different cells, both get index 4. -/
theorem C13_region_index_out_of_range :
    inBounds (uniformGray 5 5 0) 4 0 ∧
    Version3.regionIndex (uniformGray 5 5 0) 4 0 = 16 ∧
    ¬ (Version3.regionIndex (uniformGray 5 5 0) 4 0 < (Version3.numRegions : Int)) ∧
    (16 : Int) ∈ Version3.uniqueRegionIndices (uniformGray 5 5 0) 0 5 2 2 ∧
    Version3.regionIndex (uniformGray 5 5 0) 0 4 = 4 ∧
    Version3.regionIndex (uniformGray 5 5 0) 1 0 = 4 := by
  refine ⟨by unfold inBounds; decide, by decide, by decide, by decide, by decide, by decide⟩

theorem selectBest_single_of_window (image : RasterImage)
    (centerRow centerCol windowSize : Int)
    (hs : image.SizeOk) (hr : WindowInRange centerRow centerCol windowSize)
    (hne : ∃ r c, inWindow image centerRow centerCol windowSize r c) :
    Version2.selectBest [image] centerRow centerCol windowSize = 0 := by
  have hpos := calculateWindowContrast_nonneg image centerRow centerCol windowSize hs hr hne
  have := bestImageIndex_unique_max
    (fun img => calculateWindowContrast img centerRow centerCol windowSize) [image] 0 image rfl
    (by simp only; linarith)
    (by
      intro j img2 hj h
      cases j with
      | zero => exact absurd rfl hj
      | succ n => simp at h)
  simpa using this

theorem iterationLogged_written_single (image out : RasterImage)
    (startRow endRow centerRow centerCol : Int)
    (hs : image.SizeOk) (hr : WindowInRange centerRow centerCol 11)
    (hne : ∃ r c, inWindow image centerRow centerCol 11 r c) :
    (Version3.iterationLogged [image] out startRow endRow centerRow centerCol).2.written
      = windowTargets out.width out.height centerRow centerCol (windowOffsets 11) := by
  unfold Version3.iterationLogged
  simp only
  rw [selectBest_single_of_window image centerRow centerCol 11 hs hr hne]
  simp [windowCopyLogged_eq]

/-- C12 (the code at a failing input): Version3 on a 16x16 output image with four workers;
the worker of the band `[4, 8)` samples the centre `(4, 8)`. It locks the regions
`4, 5, 6, 7` (the cells of the rows 4..7 of its band), but its window copy writes the pixel
`(0, 3)`, which lies in the cell with id 0, a region that it has not locked. -/
theorem C12_written_pixel_outside_lock_set :
    (Version3.iterationLogged [uniformGray 16 16 128] (uniformGray 16 16 0) 4 8 4 8).2.locked
      = [4, 5, 6, 7] ∧
    ((0 : Int), (3 : Int)) ∈
      (Version3.iterationLogged [uniformGray 16 16 128] (uniformGray 16 16 0)
        4 8 4 8).2.written ∧
    inBounds (uniformGray 16 16 0) 0 3 ∧
    Version3.regionIndex (uniformGray 16 16 0) 0 3 = 0 ∧
    (0 : Int) ∉
      (Version3.iterationLogged [uniformGray 16 16 128] (uniformGray 16 16 0)
        4 8 4 8).2.locked := by
  have hl : (Version3.iterationLogged [uniformGray 16 16 128] (uniformGray 16 16 0)
      4 8 4 8).2.locked = [4, 5, 6, 7] := by
    rw [iterationLogged_locked]
    decide
  have hw := iterationLogged_written_single (uniformGray 16 16 128) (uniformGray 16 16 0)
    4 8 4 8 (by unfold RasterImage.SizeOk; decide)
    (by unfold WindowInRange OffsetsInRange FitsInt; decide)
    ⟨4, 8, inWindow_center _ 4 8 11 (by decide) (by unfold inBounds; decide)⟩
  refine ⟨hl, ?_, by unfold inBounds; decide, by decide, ?_⟩
  · rw [hw]
    decide
  · rw [hl]
    decide

/-! ## The end-to-end scenario: selection among the three images -/

theorem foldl_pixelStepWith_type (sel : Int → Int → Int) (imageStack : List RasterImage)
    (L : List (Int × Int)) (out : RasterImage) :
    (L.foldl (pixelStepWith sel imageStack) out).type = out.type := by
  induction L generalizing out with
  | nil => rfl
  | cons p L ih =>
    rw [List.foldl_cons, ih]
    exact copyBest_type _ _ _ _ _

theorem foldl_pixelStepWith_raster (sel : Int → Int → Int) (imageStack : List RasterImage)
    (hvalid : ∀ r c, sel r c = -1 ∨ (0 ≤ sel r c ∧ sel r c < imageStack.length))
    (L : List (Int × Int)) (out : RasterImage) (r k : Int)
    (hty : ∀ img ∈ imageStack, img.type = out.type) :
    (L.foldl (pixelStepWith sel imageStack) out).raster2D r k
      = if (r, k / bytesPerPixel out.type) ∈ L ∧ sel r (k / bytesPerPixel out.type) ≠ -1
        then srcByte imageStack (sel r (k / bytesPerPixel out.type)) r k
        else out.raster2D r k := by
  induction L generalizing out with
  | nil => simp
  | cons p L ih =>
    have ht : (pixelStepWith sel imageStack out p).type = out.type := copyBest_type _ _ _ _ _
    have hty2 : ∀ img ∈ imageStack, img.type = (pixelStepWith sel imageStack out p).type := by
      intro img h
      rw [ht]
      exact hty img h
    rw [List.foldl_cons, ih _ hty2, ht]
    unfold pixelStepWith
    rw [copyBest_raster _ _ _ _ _ _ _ hty (hvalid _ _)]
    by_cases hmem : (r, k / bytesPerPixel out.type) ∈ L ∧
        sel r (k / bytesPerPixel out.type) ≠ -1
    · rw [if_pos hmem, if_pos ⟨List.mem_cons_of_mem _ hmem.1, hmem.2⟩]
    · rw [if_neg hmem]
      by_cases hp : (r, k / bytesPerPixel out.type) = p
      · subst hp
        simp only
        by_cases hb : sel r (k / bytesPerPixel out.type) = -1
        · rw [if_neg (fun h => h.1 hb), if_neg (fun h => h.2 hb)]
        · rw [if_pos ⟨hb, trivial, trivial⟩, if_pos ⟨List.mem_cons_self _ _, hb⟩]
      · have h1 : ¬ (sel p.1 p.2 ≠ -1 ∧ r = p.1 ∧ k / bytesPerPixel out.type = p.2) := by
          rintro ⟨_, h2, h3⟩
          exact hp (Prod.ext h2 h3)
        have h2 : ¬ ((r, k / bytesPerPixel out.type) ∈ p :: L ∧
            sel r (k / bytesPerPixel out.type) ≠ -1) := by
          rintro ⟨h3, h4⟩
          rcases List.mem_cons.1 h3 with h5 | h5
          · exact hp h5
          · exact hmem ⟨h5, h4⟩
        rw [if_neg h1, if_neg h2]

theorem rows_fold_with_eq (sel : Int → Int → Int) (imageStack : List RasterImage)
    (width : Nat) (rows : List Int) (out : RasterImage) :
    rows.foldl
        (fun out row => (List.range width).foldl
          (fun out col => copyBest imageStack (sel row (toSigned col)) out row (toSigned col))
          out)
        out
      = (bandPixels width rows).foldl (pixelStepWith sel imageStack) out := by
  induction rows generalizing out with
  | nil => rfl
  | cons row rows ih =>
    unfold bandPixels
    rw [List.foldl_cons, List.flatMap_cons, List.foldl_append, List.foldl_map]
    exact ih _

theorem contrast_zero_of_uniform (image : RasterImage) (centerRow centerCol windowSize : Int)
    (hs : image.SizeOk) (hr : WindowInRange centerRow centerCol windowSize)
    (hne : ∃ r c, inWindow image centerRow centerCol windowSize r c) (g : ℚ)
    (hg : ∀ r c, inWindow image centerRow centerCol windowSize r c →
      convertToGrayscale image r c = g) :
    calculateWindowContrast image centerRow centerCol windowSize = 0 := by
  obtain ⟨rmax, cmax, rmin, cmin, hwmax, hwmin, he, _⟩ :=
    contrastOver_spec image centerRow centerCol (windowOffsets windowSize) hs hr hne
  rw [calculateWindowContrast_eq, he, hg rmax cmax hwmax, hg rmin cmin hwmin, sub_self]

theorem contrast_pos_of_ne (image : RasterImage) (centerRow centerCol windowSize : Int)
    (hs : image.SizeOk) (hr : WindowInRange centerRow centerCol windowSize)
    (r1 c1 r2 c2 : Int) (h1 : inWindow image centerRow centerCol windowSize r1 c1)
    (h2 : inWindow image centerRow centerCol windowSize r2 c2)
    (hne : convertToGrayscale image r1 c1 ≠ convertToGrayscale image r2 c2) :
    0 < calculateWindowContrast image centerRow centerCol windowSize := by
  obtain ⟨rmax, cmax, rmin, cmin, _, _, he, hall⟩ :=
    contrastOver_spec image centerRow centerCol (windowOffsets windowSize) hs hr ⟨r1, c1, h1⟩
  rw [calculateWindowContrast_eq, he]
  have a1 := hall r1 c1 h1
  have a2 := hall r2 c2 h2
  rcases lt_or_gt_of_ne hne with h | h
  · linarith
  · linarith

/-- Selection among three images of which the first and the last have contrast 0: the second
wins exactly when its contrast is positive, otherwise the first (lowest index) wins. -/
theorem selectBest_three (A B C : RasterImage) (centerRow centerCol windowSize : Int)
    (hA : calculateWindowContrast A centerRow centerCol windowSize = 0)
    (hC : calculateWindowContrast C centerRow centerCol windowSize = 0) :
    (0 < calculateWindowContrast B centerRow centerCol windowSize →
      Version2.selectBest [A, B, C] centerRow centerCol windowSize = 1) ∧
    (calculateWindowContrast B centerRow centerCol windowSize = 0 →
      Version2.selectBest [A, B, C] centerRow centerCol windowSize = 0) := by
  constructor
  · intro hB
    unfold Version2.selectBest bestImageIndex
    simp only [selectionLoop, hA, hC]
    norm_num [hB]
    have : ¬ (0 > calculateWindowContrast B centerRow centerCol windowSize) := by
      intro h; linarith
    simp [hB, this]
  · intro hB
    unfold Version2.selectBest bestImageIndex
    simp only [selectionLoop, hA, hC, hB]
    norm_num

theorem windowOffsets_three : windowOffsets 3 = intRange (-1) 1 := by decide

theorem inWindow_three (image : RasterImage) (hw : image.width = 4) (hh : image.height = 4)
    (r c r2 c2 : Int) :
    inWindow image r c 3 r2 c2 ↔
      (-1 ≤ r2 - r ∧ r2 - r ≤ 1) ∧ (-1 ≤ c2 - c ∧ c2 - c ≤ 1) ∧
        (0 ≤ r2 ∧ r2 < 4 ∧ 0 ≤ c2 ∧ c2 < 4) := by
  unfold inWindow inWindowOffs inBounds
  rw [windowOffsets_three, mem_intRange, mem_intRange, hw, hh]
  simp

theorem scenario_windowInRange (r c : Int) (hb : 0 ≤ r ∧ r < 4 ∧ 0 ≤ c ∧ c < 4) :
    WindowInRange r c 3 := by
  intro i hi
  rw [windowOffsets_three, mem_intRange] at hi
  unfold FitsInt
  omega

theorem gray_uniformGray (width height : Nat) (fill : Fin 256) (r c : Int) :
    convertToGrayscale (uniformGray width height fill) r c = ((fill.val : Nat) : ℚ) := by
  unfold convertToGrayscale uniformGray
  simp

theorem gray_scenarioB (a b bg : Fin 256) (r c : Int) :
    convertToGrayscale (scenarioB a b bg) r c
      = (((scenarioB a b bg).raster2D r c).val : ℚ) := by
  unfold convertToGrayscale scenarioB
  simp

theorem contrast_uniformGray_scenario (fill : Fin 256) (r c : Int)
    (hb : 0 ≤ r ∧ r < 4 ∧ 0 ≤ c ∧ c < 4) :
    calculateWindowContrast (uniformGray 4 4 fill) r c 3 = 0 := by
  apply contrast_zero_of_uniform _ r c 3 (by unfold RasterImage.SizeOk uniformGray; simp)
    (scenario_windowInRange r c hb)
    ⟨r, c, inWindow_center _ r c 3 (by decide) (by
      unfold inBounds uniformGray
      simp only
      omega)⟩ ((fill.val : Nat) : ℚ)
  intro r2 c2 _
  exact gray_uniformGray 4 4 fill r2 c2

theorem fin_val_cast_ne (x y : Fin 256) (h : x ≠ y) : ((x.val : Nat) : ℚ) ≠ ((y.val : Nat) : ℚ) := by
  intro e
  apply h
  apply Fin.ext
  exact_mod_cast e

/-- Contrast of image B of the scenario at window size 3: positive at the centres of rows and
columns 0..2, zero at the centres of row 3 or column 3. -/
theorem contrast_scenarioB (a b bg : Fin 256) (hab : a ≠ b) (hbg : a ≠ bg) (r c : Int)
    (hb : 0 ≤ r ∧ r < 4 ∧ 0 ≤ c ∧ c < 4) :
    ((r ≤ 2 ∧ c ≤ 2) → 0 < calculateWindowContrast (scenarioB a b bg) r c 3) ∧
    (¬ (r ≤ 2 ∧ c ≤ 2) → calculateWindowContrast (scenarioB a b bg) r c 3 = 0) := by
  have hs : (scenarioB a b bg).SizeOk := by unfold RasterImage.SizeOk scenarioB; simp
  have hr := scenario_windowInRange r c hb
  have hin : ∀ r2 c2 : Int, inWindow (scenarioB a b bg) r c 3 r2 c2 ↔
      (-1 ≤ r2 - r ∧ r2 - r ≤ 1) ∧ (-1 ≤ c2 - c ∧ c2 - c ≤ 1) ∧
        (0 ≤ r2 ∧ r2 < 4 ∧ 0 ≤ c2 ∧ c2 < 4) :=
    fun r2 c2 => inWindow_three _ rfl rfl r c r2 c2
  have v11 : (scenarioB a b bg).raster2D 1 1 = a := by unfold scenarioB; simp
  have v01 : (scenarioB a b bg).raster2D 0 1 = b := by unfold scenarioB; simp
  have v10 : (scenarioB a b bg).raster2D 1 0 = b := by unfold scenarioB; simp
  have v22 : (scenarioB a b bg).raster2D 2 2 = bg := by unfold scenarioB; simp
  constructor
  · intro hrc
    have h11 : inWindow (scenarioB a b bg) r c 3 1 1 := (hin 1 1).2 (by omega)
    by_cases hr1 : r ≤ 1
    · have h01 : inWindow (scenarioB a b bg) r c 3 0 1 := (hin 0 1).2 (by omega)
      apply contrast_pos_of_ne _ r c 3 hs hr 1 1 0 1 h11 h01
      rw [gray_scenarioB, gray_scenarioB, v11, v01]
      exact fin_val_cast_ne a b hab
    · by_cases hc1 : c ≤ 1
      · have h10 : inWindow (scenarioB a b bg) r c 3 1 0 := (hin 1 0).2 (by omega)
        apply contrast_pos_of_ne _ r c 3 hs hr 1 1 1 0 h11 h10
        rw [gray_scenarioB, gray_scenarioB, v11, v10]
        exact fin_val_cast_ne a b hab
      · have h22 : inWindow (scenarioB a b bg) r c 3 2 2 := (hin 2 2).2 (by omega)
        apply contrast_pos_of_ne _ r c 3 hs hr 1 1 2 2 h11 h22
        rw [gray_scenarioB, gray_scenarioB, v11, v22]
        exact fin_val_cast_ne a bg hbg
  · intro hrc
    apply contrast_zero_of_uniform _ r c 3 hs hr
      ⟨r, c, (hin r c).2 (by omega)⟩ ((bg.val : Nat) : ℚ)
    intro r2 c2 hw
    have hw2 := (hin r2 c2).1 hw
    rw [gray_scenarioB]
    have hv : (scenarioB a b bg).raster2D r2 c2 = bg := by
      unfold scenarioB
      simp only
      rw [if_neg (by omega), if_neg (by omega)]
    rw [hv]

theorem scenario_windowInRange_any (r c windowSize : Int)
    (hb : 0 ≤ r ∧ r < 4 ∧ 0 ≤ c ∧ c < 4) (hws : 0 ≤ windowSize ∧ windowSize ≤ 11) :
    WindowInRange r c windowSize := by
  intro i hi
  have h := mem_windowOffsets_abs windowSize i hws.1 hi
  unfold FitsInt
  omega

theorem contrast_uniformGray_any (fill : Fin 256) (r c windowSize : Int)
    (hb : 0 ≤ r ∧ r < 4 ∧ 0 ≤ c ∧ c < 4) (hws : 0 ≤ windowSize ∧ windowSize ≤ 11) :
    calculateWindowContrast (uniformGray 4 4 fill) r c windowSize = 0 := by
  apply contrast_zero_of_uniform _ r c windowSize
    (by unfold RasterImage.SizeOk uniformGray; simp)
    (scenario_windowInRange_any r c windowSize hb hws)
    ⟨r, c, inWindow_center _ r c windowSize hws.1 (by
      unfold inBounds uniformGray
      simp only
      omega)⟩ ((fill.val : Nat) : ℚ)
  intro r2 c2 _
  exact gray_uniformGray 4 4 fill r2 c2

/-- Contrast of image B of the scenario at the window sizes of the programs, 5 (Version1) and
11 (Version2, Version3, pthread): positive at every centre inside the image. -/
theorem contrast_scenarioB_wide (a b bg : Fin 256) (hab : a ≠ b) (hbg : a ≠ bg)
    (r c windowSize : Int) (hb : 0 ≤ r ∧ r < 4 ∧ 0 ≤ c ∧ c < 4)
    (hws : windowSize = 5 ∨ windowSize = 11) :
    0 < calculateWindowContrast (scenarioB a b bg) r c windowSize := by
  have hs : (scenarioB a b bg).SizeOk := by unfold RasterImage.SizeOk scenarioB; simp
  have hr : WindowInRange r c windowSize :=
    scenario_windowInRange_any r c windowSize hb (by omega)
  have hoff : ∀ x : Int, -2 ≤ x → x ≤ 2 → x ∈ windowOffsets windowSize := by
    intro x h1 h2
    rcases hws with h | h
    · rw [h, windowOffsets_five, mem_intRange]
      exact ⟨h1, h2⟩
    · rw [h, windowOffsets_eleven, mem_intRange]
      omega
  have hin : ∀ r2 c2 : Int, (-2 ≤ r2 - r ∧ r2 - r ≤ 2) → (-2 ≤ c2 - c ∧ c2 - c ≤ 2) →
      (0 ≤ r2 ∧ r2 < 4 ∧ 0 ≤ c2 ∧ c2 < 4) →
      inWindow (scenarioB a b bg) r c windowSize r2 c2 := by
    intro r2 c2 h1 h2 h3
    exact ⟨hoff _ h1.1 h1.2, hoff _ h2.1 h2.2, h3⟩
  have v11 : (scenarioB a b bg).raster2D 1 1 = a := by unfold scenarioB; simp
  have v01 : (scenarioB a b bg).raster2D 0 1 = b := by unfold scenarioB; simp
  have v10 : (scenarioB a b bg).raster2D 1 0 = b := by unfold scenarioB; simp
  have v22 : (scenarioB a b bg).raster2D 2 2 = bg := by unfold scenarioB; simp
  have h11 : inWindow (scenarioB a b bg) r c windowSize 1 1 :=
    hin 1 1 (by omega) (by omega) (by omega)
  by_cases hr2 : r ≤ 2
  · have h01 : inWindow (scenarioB a b bg) r c windowSize 0 1 :=
      hin 0 1 (by omega) (by omega) (by omega)
    apply contrast_pos_of_ne _ r c windowSize hs hr 1 1 0 1 h11 h01
    rw [gray_scenarioB, gray_scenarioB, v11, v01]
    exact fin_val_cast_ne a b hab
  · by_cases hc2 : c ≤ 2
    · have h10 : inWindow (scenarioB a b bg) r c windowSize 1 0 :=
        hin 1 0 (by omega) (by omega) (by omega)
      apply contrast_pos_of_ne _ r c windowSize hs hr 1 1 1 0 h11 h10
      rw [gray_scenarioB, gray_scenarioB, v11, v10]
      exact fin_val_cast_ne a b hab
    · have h22 : inWindow (scenarioB a b bg) r c windowSize 2 2 :=
        hin 2 2 (by omega) (by omega) (by omega)
      apply contrast_pos_of_ne _ r c windowSize hs hr 1 1 2 2 h11 h22
      rw [gray_scenarioB, gray_scenarioB, v11, v22]
      exact fin_val_cast_ne a bg hbg

/-! ## Claims C17 - C19: start-up and error handling -/

/-- C17: in every variant `main` returns 1 after the usage message, without loading an image
or creating a worker, if and only if fewer than three arguments follow the program name
(`argc < 4`); with at least three arguments (worker count, output path and at least one
input path) it does not return but loads the images of all input paths. -/
theorem C17_usage_exit_iff_too_few_arguments (argv : List String) (height : Nat) :
    (argv.length - 1 < 3 ↔ Version1.main argv height = MainOutcome.usageExit 1) ∧
    (argv.length - 1 < 3 ↔ Version2.main argv = MainOutcome.usageExit 1) ∧
    (argv.length - 1 < 3 ↔ Version3.main argv height = MainOutcome.usageExit 1) ∧
    (argv.length - 1 < 3 ↔ PthreadVersion2.main argv = MainOutcome.usageExit 1) ∧
    (argv.length - 1 < 3 →
      (Version1.main argv height).loaded = [] ∧ (Version1.main argv height).workers = [] ∧
      (Version2.main argv).loaded = [] ∧ (Version2.main argv).workers = [] ∧
      (Version3.main argv height).loaded = [] ∧ (Version3.main argv height).workers = [] ∧
      (PthreadVersion2.main argv).loaded = [] ∧ (PthreadVersion2.main argv).workers = []) ∧
    (3 ≤ argv.length - 1 →
      argv.drop 3 ≠ [] ∧
      (Version1.main argv height).exitCode = none ∧
      (Version1.main argv height).loaded = argv.drop 3 ∧
      (Version2.main argv).exitCode = none ∧
      (Version2.main argv).loaded = argv.drop 3 ∧
      (Version3.main argv height).exitCode = none ∧
      (Version3.main argv height).loaded = argv.drop 3 ∧
      (PthreadVersion2.main argv).exitCode = none ∧
      (PthreadVersion2.main argv).loaded = argv.drop 3) := by
  by_cases h : argv.length < 4
  · have h3 : argv.length - 1 < 3 := by omega
    have e1 : Version1.main argv height = MainOutcome.usageExit 1 := by
      unfold Version1.main; rw [if_pos h]
    have e2 : Version2.main argv = MainOutcome.usageExit 1 := by
      unfold Version2.main; rw [if_pos h]
    have e3 : Version3.main argv height = MainOutcome.usageExit 1 := by
      unfold Version3.main; rw [if_pos h]
    have e4 : PthreadVersion2.main argv = MainOutcome.usageExit 1 := by
      unfold PthreadVersion2.main; rw [if_pos h]
    refine ⟨⟨fun _ => e1, fun _ => h3⟩, ⟨fun _ => e2, fun _ => h3⟩, ⟨fun _ => e3, fun _ => h3⟩,
      ⟨fun _ => e4, fun _ => h3⟩, ?_, ?_⟩
    · intro _
      rw [e1, e2, e3, e4]
      exact ⟨rfl, rfl, rfl, rfl, rfl, rfl, rfl, rfl⟩
    · intro h5
      omega
  · have h3 : ¬ argv.length - 1 < 3 := by omega
    have hd : argv.drop 3 ≠ [] := by
      intro e
      have := congrArg List.length e
      simp only [List.length_drop, List.length_nil] at this
      omega
    have n1 : Version1.main argv height ≠ MainOutcome.usageExit 1 ∧
        (Version1.main argv height).exitCode = none ∧
        (Version1.main argv height).loaded = argv.drop 3 := by
      unfold Version1.main
      rw [if_neg h]
      simp only
      split
      · exact ⟨(fun e => nomatch e), rfl, rfl⟩
      · exact ⟨(fun e => nomatch e), rfl, rfl⟩
    have n2 : Version2.main argv ≠ MainOutcome.usageExit 1 ∧
        (Version2.main argv).exitCode = none ∧
        (Version2.main argv).loaded = argv.drop 3 := by
      unfold Version2.main
      rw [if_neg h]
      exact ⟨(fun e => nomatch e), rfl, rfl⟩
    have n3 : Version3.main argv height ≠ MainOutcome.usageExit 1 ∧
        (Version3.main argv height).exitCode = none ∧
        (Version3.main argv height).loaded = argv.drop 3 := by
      unfold Version3.main
      rw [if_neg h]
      simp only
      split
      · exact ⟨(fun e => nomatch e), rfl, rfl⟩
      · exact ⟨(fun e => nomatch e), rfl, rfl⟩
    have n4 : PthreadVersion2.main argv ≠ MainOutcome.usageExit 1 ∧
        (PthreadVersion2.main argv).exitCode = none ∧
        (PthreadVersion2.main argv).loaded = argv.drop 3 := by
      unfold PthreadVersion2.main
      rw [if_neg h]
      simp only
      split
      · exact ⟨(fun e => nomatch e), rfl, rfl⟩
      · exact ⟨(fun e => nomatch e), rfl, rfl⟩
    refine ⟨⟨fun h5 => absurd h5 h3, fun e => absurd e n1.1⟩,
      ⟨fun h5 => absurd h5 h3, fun e => absurd e n2.1⟩,
      ⟨fun h5 => absurd h5 h3, fun e => absurd e n3.1⟩,
      ⟨fun h5 => absurd h5 h3, fun e => absurd e n4.1⟩, fun h5 => absurd h5 h3, ?_⟩
    intro _
    exact ⟨hd, n1.2.1, n1.2.2, n2.2.1, n2.2.2, n3.2.1, n3.2.2, n4.2.1, n4.2.2⟩

theorem toSigned_fitsInt (n : Nat) : FitsInt (toSigned n) := by
  unfold FitsInt toSigned
  split
  · omega
  · omega

/-- The worker count that `main` reads is a 32-bit `int`. -/
theorem atoi_fitsInt (s : String) : FitsInt (atoi s) := toSigned_fitsInt _

/-- The conversion of `atoi`: `0` for a string without digits, the number itself in the range
of `int`, and the value reduced modulo `2^32` outside it. -/
theorem atoi_values :
    atoi "abc" = 0 ∧ atoi "0" = 0 ∧ atoi "-3" = -3 ∧ atoi " +12x" = 12 ∧
    atoi "2147483647" = 2147483647 ∧ atoi "4294967297" = 1 ∧ atoi "-4294967295" = 1 := by
  refine ⟨by decide, by decide, by decide, by decide, by decide, by decide, by decide⟩

/-- C18 (as the code behaves): `main` does not validate the worker-count argument. With at
least three arguments it converts the worker count with `atoi` (a 32-bit `int`, 0 for a
non-numeric string), loads the images and goes on, and never returns an error code for it. For a count that is
zero or negative Version2 creates no worker and enters the main loop; for a count that is not
zero Version1 and Version3 perform the band computation, and for a negative count they
create no worker; for a count that is not negative pthread/Version2 enters the main loop. -/
theorem C18_worker_count_not_validated (argv : List String) (height : Nat)
    (h4 : 4 ≤ argv.length) :
    FitsInt (atoi (argv.getD 1 default)) ∧
    Version2.main argv
      = MainOutcome.running (argv.drop 3) (atoi (argv.getD 1 default))
          (List.replicate (atoi (argv.getD 1 default)).toNat ()) ∧
    (Version2.main argv).exitCode = none ∧
    (atoi (argv.getD 1 default) ≤ 0 → (Version2.main argv).workers = []) ∧
    (atoi (argv.getD 1 default) ≠ 0 →
      Version1.main argv height
        = MainOutcome.running (argv.drop 3) (atoi (argv.getD 1 default))
            (Version1.bands height (atoi (argv.getD 1 default))) ∧
      Version3.main argv height
        = MainOutcome.running (argv.drop 3) (atoi (argv.getD 1 default))
            (Version1.bands height (atoi (argv.getD 1 default)))) ∧
    (atoi (argv.getD 1 default) < 0 →
      (Version1.main argv height).workers = [] ∧ (Version3.main argv height).workers = []) ∧
    (0 ≤ atoi (argv.getD 1 default) →
      PthreadVersion2.main argv
        = MainOutcome.running (argv.drop 3) (atoi (argv.getD 1 default))
            (List.replicate (atoi (argv.getD 1 default)).toNat ())) := by
  have h : ¬ argv.length < 4 := by omega
  have e2 : Version2.main argv
      = MainOutcome.running (argv.drop 3) (atoi (argv.getD 1 default))
          (List.replicate (atoi (argv.getD 1 default)).toNat ()) := by
    unfold Version2.main
    rw [if_neg h]
  have e1 : atoi (argv.getD 1 default) ≠ 0 →
      Version1.main argv height
        = MainOutcome.running (argv.drop 3) (atoi (argv.getD 1 default))
            (Version1.bands height (atoi (argv.getD 1 default))) := by
    intro hn
    unfold Version1.main
    rw [if_neg h]
    simp only
    rw [if_neg hn]
  have e3 : atoi (argv.getD 1 default) ≠ 0 →
      Version3.main argv height
        = MainOutcome.running (argv.drop 3) (atoi (argv.getD 1 default))
            (Version1.bands height (atoi (argv.getD 1 default))) := by
    intro hn
    unfold Version3.main
    rw [if_neg h]
    simp only
    rw [if_neg hn]
  refine ⟨atoi_fitsInt _, e2, by rw [e2]; rfl, ?_, fun hn => ⟨e1 hn, e3 hn⟩, ?_, ?_⟩
  · intro hle
    rw [e2]
    have : (atoi (argv.getD 1 default)).toNat = 0 := by omega
    simp only [MainOutcome.workers, this, List.replicate_zero]
  · intro hneg
    have hb : Version1.bands height (atoi (argv.getD 1 default)) = [] := by
      unfold Version1.bands
      simp only
      rw [intRange_empty 0 _ (by omega)]
      rfl
    rw [e1 (by omega), e3 (by omega)]
    simp only [MainOutcome.workers, hb, and_self]
  · intro hnn
    unfold PthreadVersion2.main
    rw [if_neg h]
    simp only
    rw [if_neg (by omega)]

theorem C18_worker_count_not_validated_witness :
    Version2.main ["prog", "abc", "out.tga", "a.tga", "b.tga"]
      = MainOutcome.running (["prog", "abc", "out.tga", "a.tga", "b.tga"].drop 3)
          (atoi (["prog", "abc", "out.tga", "a.tga", "b.tga"].getD 1 default))
          (List.replicate
            (atoi (["prog", "abc", "out.tga", "a.tga", "b.tga"].getD 1 default)).toNat ()) ∧
    (Version2.main ["prog", "abc", "out.tga", "a.tga", "b.tga"]).exitCode = none :=
  ⟨(C18_worker_count_not_validated ["prog", "abc", "out.tga", "a.tga", "b.tga"] 8
      (by decide)).2.1,
   (C18_worker_count_not_validated ["prog", "abc", "out.tga", "a.tga", "b.tga"] 8
      (by decide)).2.2.1⟩

/-- C18 fails as stated: for the argument list `prog 0 out.tga a.tga`, whose worker count is
not a positive integer, Version2 `main` loads the image, creates no worker and enters the
main loop; it does not return an error code. -/
theorem C18_counterexample :
    atoi "0" = 0 ∧
    Version2.main ["prog", "0", "out.tga", "a.tga"] = MainOutcome.running ["a.tga"] 0 [] ∧
    (Version2.main ["prog", "0", "out.tga", "a.tga"]).exitCode = none ∧
    (Version2.main ["prog", "0", "out.tga", "a.tga"]).loaded = ["a.tga"] := by
  refine ⟨by decide, by decide, by decide, by decide⟩

/-- C19 (as the code behaves): `initializeApplication` performs no validation. The stack it
returns holds the image that `readTGA` returned for every input path, in order, whatever its
width, height and format, and the output image is allocated with the width, height and
format of the first of them. -/
theorem C19_every_loaded_image_accepted (readTGA : String → RasterImage)
    (newRasterImage : Nat → Nat → ImageType → RasterImage) (paths : List String) :
    (initializeApplication readTGA newRasterImage paths).1 = paths.map readTGA ∧
    (∀ path ∈ paths, readTGA path ∈ (initializeApplication readTGA newRasterImage paths).1) ∧
    (∀ first rest, paths = first :: rest →
      (initializeApplication readTGA newRasterImage paths).2
        = some (newRasterImage (readTGA first).width (readTGA first).height
            (readTGA first).type)) := by
  have key : ∀ (l : List String) (init : List RasterImage),
      l.foldl (fun stack filePath => stack ++ [readTGA filePath]) init
        = init ++ l.map readTGA := by
    intro l
    induction l with
    | nil => intro init; simp
    | cons x l ih =>
      intro init
      rw [List.foldl_cons, ih]
      simp
  have e : (initializeApplication readTGA newRasterImage paths).1 = paths.map readTGA := by
    unfold initializeApplication
    simp only
    rw [key]
    simp
  refine ⟨e, ?_, ?_⟩
  · intro path hp
    rw [e]
    exact List.mem_map_of_mem _ hp
  · intro first rest hp
    unfold initializeApplication
    simp only
    rw [key, hp]
    simp

/-- C19 fails as stated: when `readTGA` returns the 4x4 Gray image `sampleGray` for the first
path and the 2x2 RGBA image `sampleRGBA` for the second, `initializeApplication` returns the
stack of both; the second image differs from the first in width, height and format. -/
theorem C19_counterexample :
    (initializeApplication (fun path => if path = "a.tga" then sampleGray else sampleRGBA)
        (fun w h t => ⟨t, w, h, fun _ _ => 0⟩) ["a.tga", "b.tga"]).1.length = 2 ∧
    (initializeApplication (fun path => if path = "a.tga" then sampleGray else sampleRGBA)
        (fun w h t => ⟨t, w, h, fun _ _ => 0⟩) ["a.tga", "b.tga"]).1[1]?.map
          (fun img => (img.width, img.height, img.type))
      = some (2, 2, ImageType.RGBA32_RASTER) ∧
    (initializeApplication (fun path => if path = "a.tga" then sampleGray else sampleRGBA)
        (fun w h t => ⟨t, w, h, fun _ _ => 0⟩) ["a.tga", "b.tga"]).1[0]?.map
          (fun img => (img.width, img.height, img.type))
      = some (4, 4, ImageType.GRAY_RASTER) := by
  refine ⟨by decide, by decide, by decide⟩

/-! ## Claims C27 and C28: the range of the contrast and the two contrast functions -/

theorem contrastOver_le (image : RasterImage) (centerRow centerCol : Int) (offs : List Int)
    (hs : image.SizeOk) (hr : OffsetsInRange centerRow centerCol offs)
    (hne : ∃ r c, inWindowOffs image centerRow centerCol offs r c) :
    contrastOver image centerRow centerCol offs ≤ 255 := by
  obtain ⟨rmax, cmax, rmin, cmin, _, _, heq, _⟩ :=
    contrastOver_spec image centerRow centerCol offs hs hr hne
  rw [heq]
  have h1 := convertToGrayscale_le image rmax cmax
  have h2 := convertToGrayscale_nonneg image rmin cmin
  linarith

theorem selectionLoop_first (f : RasterImage → ℚ) (image : RasterImage)
    (rest : List RasterImage) (h : -1 < f image) :
    selectionLoop f (image :: rest) 0 ((-1 : ℚ), (-1 : Int))
      = selectionLoop f rest 1 (f image, (0 : Int)) := by
  conv_lhs => rw [selectionLoop]
  simp only []
  rw [if_pos (show f image > -1 from h)]
  rfl

/-- C27: for every image and every window that contains at least one in-bounds pixel (in
particular every window of non-negative size whose centre is in bounds), the value of
`calculateWindowContrast` lies in `[0, 255]`, for the parameterised window of Version2,
Version3 and pthread as well as for the fixed 5x5 window of Version1; consequently the first
image of a non-empty stack beats the initial `highestContrast = -1.0`: after the first
iteration of the selection loop the state is `(contrast of image 0, 0)`. -/
theorem C27_contrast_range (image : RasterImage) (centerRow centerCol windowSize : Int)
    (hs : image.SizeOk) (hr : WindowInRange centerRow centerCol windowSize) :
    ((∃ r c, inWindow image centerRow centerCol windowSize r c) →
      0 ≤ calculateWindowContrast image centerRow centerCol windowSize ∧
      calculateWindowContrast image centerRow centerCol windowSize ≤ 255) ∧
    (0 ≤ windowSize → inBounds image centerRow centerCol →
      0 ≤ calculateWindowContrast image centerRow centerCol windowSize ∧
      calculateWindowContrast image centerRow centerCol windowSize ≤ 255) ∧
    (WindowInRange centerRow centerCol 5 →
      (∃ r c, inWindow image centerRow centerCol 5 r c) →
      0 ≤ Version1.calculateWindowContrast image centerRow centerCol ∧
      Version1.calculateWindowContrast image centerRow centerCol ≤ 255) ∧
    ((∃ r c, inWindow image centerRow centerCol windowSize r c) →
      ∀ rest : List RasterImage,
        selectionLoop (fun img => calculateWindowContrast img centerRow centerCol windowSize)
            (image :: rest) 0 ((-1 : ℚ), (-1 : Int))
          = selectionLoop
              (fun img => calculateWindowContrast img centerRow centerCol windowSize)
              rest 1 (calculateWindowContrast image centerRow centerCol windowSize, (0 : Int))) := by
  have key : (∃ r c, inWindow image centerRow centerCol windowSize r c) →
      0 ≤ calculateWindowContrast image centerRow centerCol windowSize ∧
      calculateWindowContrast image centerRow centerCol windowSize ≤ 255 := fun hne =>
    ⟨calculateWindowContrast_nonneg image centerRow centerCol windowSize hs hr hne,
     contrastOver_le image centerRow centerCol _ hs hr hne⟩
  refine ⟨key, ?_, ?_, ?_⟩
  · intro hw hb
    exact key ⟨centerRow, centerCol, inWindow_center image centerRow centerCol windowSize hw hb⟩
  · intro hr5 hne
    rw [v1_contrast_eq_windowSize_five]
    exact ⟨calculateWindowContrast_nonneg image centerRow centerCol 5 hs hr5 hne,
      contrastOver_le image centerRow centerCol _ hs hr5 hne⟩
  · intro hne rest
    exact selectionLoop_first _ image rest (by have := (key hne).1; linarith)

theorem C27_contrast_range_witness :
    (0 : ℚ) ≤ calculateWindowContrast sampleGray 1 1 3 ∧
      calculateWindowContrast sampleGray 1 1 3 ≤ 255 :=
  (C27_contrast_range sampleGray 1 1 3 sampleGray_sizeOk
    (scenario_windowInRange 1 1 (by decide))).2.1 (by decide) (by unfold inBounds; decide)

/-- C28: the fixed 5x5 contrast of Version1 equals the parameterised contrast of Version2
(the same function as in Version3 and pthread/Version2) called with `windowSize = 5`, for
every image and every centre. -/
theorem C28_fixed_window_is_windowSize_five (image : RasterImage) (row col : Int) :
    Version1.calculateWindowContrast image row col = calculateWindowContrast image row col 5 := by
  unfold Version1.calculateWindowContrast calculateWindowContrast
  rw [windowOffsets_five]

/-! ## Claims C24 and C25: release order and contents of the lock set -/

theorem mem_lockSet_fold (out : RasterImage) (startRow endRow centerRow centerCol : Int)
    (L : List (Int × Int)) (regions : List Int) (x : Int) :
    x ∈ L.foldl (fun regions p =>
        Version3.lockSetBody out startRow endRow centerRow centerCol regions p.1 p.2) regions ↔
      x ∈ regions ∨ ∃ p ∈ L, (centerRow + p.1 ≥ startRow ∧ centerRow + p.1 < endRow ∧
        toUnsigned (centerCol + p.2) < out.width) ∧
        x = Version3.regionIndex out (centerRow + p.1) (toUnsigned (centerCol + p.2)) := by
  induction L generalizing regions with
  | nil => simp
  | cons q L ih =>
    rw [List.foldl_cons, ih]
    unfold Version3.lockSetBody
    simp only [List.mem_cons, exists_eq_or_imp]
    by_cases hg : centerRow + q.1 ≥ startRow ∧ centerRow + q.1 < endRow ∧
        0 ≤ toUnsigned (centerCol + q.2) ∧ toUnsigned (centerCol + q.2) < out.width
    · rw [if_pos hg, mem_setInsert]
      have hg2 : centerRow + q.1 ≥ startRow ∧ centerRow + q.1 < endRow ∧
          toUnsigned (centerCol + q.2) < out.width := ⟨hg.1, hg.2.1, hg.2.2.2⟩
      constructor
      · rintro ((h | h) | h)
        · exact Or.inr (Or.inl ⟨hg2, h⟩)
        · exact Or.inl h
        · exact Or.inr (Or.inr h)
      · rintro (h | h | h)
        · exact Or.inl (Or.inr h)
        · exact Or.inl (Or.inl h.2)
        · exact Or.inr h
    · rw [if_neg hg]
      constructor
      · rintro (h | h)
        · exact Or.inl h
        · exact Or.inr (Or.inr h)
      · rintro (h | h | h)
        · exact Or.inl h
        · exact absurd ⟨h.1.1, h.1.2.1, Nat.zero_le _, h.1.2.2⟩ hg
        · exact Or.inr h

/-- The lock set of an iteration: the cells of the window pixels that lie in the band of the
worker and inside the width of the image. -/
theorem mem_uniqueRegionIndices (out : RasterImage)
    (startRow endRow centerRow centerCol : Int) (x : Int) :
    x ∈ Version3.uniqueRegionIndices out startRow endRow centerRow centerCol ↔
      ∃ i ∈ windowOffsets 11, ∃ j ∈ windowOffsets 11,
        (centerRow + i ≥ startRow ∧ centerRow + i < endRow ∧
          toUnsigned (centerCol + j) < out.width) ∧
        x = Version3.regionIndex out (centerRow + i) (toUnsigned (centerCol + j)) := by
  unfold Version3.uniqueRegionIndices
  rw [foldl_nested (fun regions i j =>
    Version3.lockSetBody out startRow endRow centerRow centerCol regions i j),
    mem_lockSet_fold]
  simp only [List.not_mem_nil, false_or, List.mem_flatMap, List.mem_map, Prod.exists]
  constructor
  · rintro ⟨a, b, ⟨i, hi, j, hj, hp⟩, h⟩
    obtain ⟨rfl, rfl⟩ := Prod.mk.inj hp
    exact ⟨i, hi, j, hj, h⟩
  · rintro ⟨i, hi, j, hj, h⟩
    exact ⟨i, j, ⟨i, hi, j, hj, rfl⟩, h⟩

theorem regionIndex_of_inBounds (out : RasterImage) (r c : Int) (hs : out.SizeOk)
    (hw : 4 ≤ out.width) (hh : 4 ≤ out.height) (hb : inBounds out r c) :
    Version3.regionIndex out r (toUnsigned c)
      = r / ((out.height : Int) / 4) * 4 + c / ((out.width : Int) / 4) := by
  obtain ⟨h0, h1, h2, h3⟩ := hb
  have hsw := hs.1
  have hsh := hs.2
  unfold Version3.regionIndex Version3.GRID_ROWS Version3.GRID_COLS
  have hR : toUnsigned r = r.toNat := by
    unfold toUnsigned
    rw [Int.emod_eq_of_lt h0 (by omega)]
  have hC : toUnsigned c = c.toNat := by
    unfold toUnsigned
    rw [Int.emod_eq_of_lt h2 (by omega)]
  rw [hR, hC]
  have b1 : r.toNat / (out.height / 4) < 8 := by
    rw [Nat.div_lt_iff_lt_mul (by omega)]
    omega
  have b2 : c.toNat / (out.width / 4) < 8 := by
    rw [Nat.div_lt_iff_lt_mul (by omega)]
    omega
  rw [toSigned_of_lt _ (by omega)]
  push_cast
  rw [Int.toNat_of_nonneg h0, Int.toNat_of_nonneg h2]

/-- For a centre sampled from the band (row in the band, column in `[0, width)`) the set
`uniqueRegionIndices` contains the value of the expression `regionIndex` at the centre pixel;
for a centre inside an image of at least 4x4 pixels that value is
`(row / (height / 4)) * 4 + col / (width / 4)`, which is the id of a cell only if it is below
`numRegions`. -/
theorem uniqueRegionIndices_centre (outputImage : RasterImage)
    (startRow endRow centerRow centerCol : Int) (hs : outputImage.SizeOk)
    (hw : 4 ≤ outputImage.width) (hh : 4 ≤ outputImage.height)
    (hrow : startRow ≤ centerRow ∧ centerRow < endRow)
    (hcol : 0 ≤ centerCol ∧ centerCol < outputImage.width) :
    Version3.regionIndex outputImage centerRow (toUnsigned centerCol)
      ∈ Version3.uniqueRegionIndices outputImage startRow endRow centerRow centerCol ∧
    Version3.uniqueRegionIndices outputImage startRow endRow centerRow centerCol ≠ [] ∧
    (0 ≤ centerRow → centerRow < outputImage.height →
      Version3.regionIndex outputImage centerRow (toUnsigned centerCol)
        = centerRow / ((outputImage.height : Int) / 4) * 4
          + centerCol / ((outputImage.width : Int) / 4)) := by
  have hmem : Version3.regionIndex outputImage centerRow (toUnsigned centerCol)
      ∈ Version3.uniqueRegionIndices outputImage startRow endRow centerRow centerCol := by
    rw [mem_uniqueRegionIndices]
    have h0 : (0 : Int) ∈ windowOffsets 11 := by decide
    refine ⟨0, h0, 0, h0, ?_, ?_⟩
    · rw [add_zero, add_zero]
      refine ⟨hrow.1, hrow.2, ?_⟩
      rw [toUnsigned_lt_iff centerCol _ (by unfold FitsInt; have := hs.1; omega) hs.1]
      exact hcol
    · rw [add_zero, add_zero]
  refine ⟨hmem, List.ne_nil_of_mem hmem, ?_⟩
  intro h0 h1
  exact regionIndex_of_inBounds outputImage centerRow centerCol hs hw hh
    ⟨h0, h1, hcol.1, hcol.2⟩

/-- C25: on a 5x5 output image (as wide and high as the 4x4 grid requires), for the worker
with the non-empty band `[4, 5)` and the centre `(4, 2)` sampled from it, the set
`uniqueRegionIndices` is `[16, 17, 18, 19, 20]`: it contains the value 18 of the expression
`regionIndex` at the centre pixel, but no cell id, the cells and the mutexes of
`regionMutexes` being numbered `0 .. numRegions - 1 = 0 .. 15`. -/
theorem C25_lock_set_without_cell_id :
    (4 ≤ (uniformGray 5 5 0).width ∧ 4 ≤ (uniformGray 5 5 0).height ∧
      inBounds (uniformGray 5 5 0) 4 2) ∧
    Version3.uniqueRegionIndices (uniformGray 5 5 0) 4 5 4 2 = [16, 17, 18, 19, 20] ∧
    Version3.regionIndex (uniformGray 5 5 0) 4 (toUnsigned 2) = 18 ∧
    Version3.numRegions = 16 ∧
    (∀ x ∈ Version3.uniqueRegionIndices (uniformGray 5 5 0) 4 5 4 2,
      ¬ (0 ≤ x ∧ x < (Version3.numRegions : Int))) := by
  have h : Version3.uniqueRegionIndices (uniformGray 5 5 0) 4 5 4 2 = [16, 17, 18, 19, 20] := by
    decide
  refine ⟨⟨by decide, by decide, by unfold inBounds; decide⟩, h, by decide, rfl, ?_⟩
  rw [h]
  decide

theorem iterationLogged_unlocked (imageStack : List RasterImage) (out : RasterImage)
    (startRow endRow centerRow centerCol : Int) :
    (Version3.iterationLogged imageStack out startRow endRow centerRow centerCol).2.unlocked
      = Version3.uniqueRegionIndices out startRow endRow centerRow centerCol := rfl

/-- C24 (as amended): in every iteration of a Version3 worker the region locks are released
in the same order in which they were acquired, the ascending order of the cell ids (not in
the reverse order); the locks released are exactly the locks acquired, each once. With two or
more locks the release order differs from the reverse of the acquisition order. -/
theorem C24_release_in_acquisition_order (imageStack : List RasterImage)
    (outputImage : RasterImage) (startRow endRow centerRow centerCol : Int) :
    (Version3.iterationLogged imageStack outputImage startRow endRow centerRow
        centerCol).2.unlocked
      = (Version3.iterationLogged imageStack outputImage startRow endRow centerRow
        centerCol).2.locked ∧
    (∀ x, x ∈ (Version3.iterationLogged imageStack outputImage startRow endRow centerRow
        centerCol).2.unlocked ↔
      x ∈ (Version3.iterationLogged imageStack outputImage startRow endRow centerRow
        centerCol).2.locked) ∧
    (Version3.iterationLogged imageStack outputImage startRow endRow centerRow
        centerCol).2.unlocked.Pairwise (· < ·) ∧
    (2 ≤ (Version3.iterationLogged imageStack outputImage startRow endRow centerRow
        centerCol).2.locked.length →
      (Version3.iterationLogged imageStack outputImage startRow endRow centerRow
        centerCol).2.unlocked
      ≠ (Version3.iterationLogged imageStack outputImage startRow endRow centerRow
        centerCol).2.locked.reverse) := by
  rw [iterationLogged_unlocked, iterationLogged_locked]
  have hp := uniqueRegionIndices_pairwise outputImage startRow endRow centerRow centerCol
  refine ⟨rfl, fun x => Iff.rfl, hp, ?_⟩
  generalize Version3.uniqueRegionIndices outputImage startRow endRow centerRow centerCol = L
    at hp
  intro hlen heq
  match L, hp, hlen, heq with
  | a :: b :: rest, hp, _, heq =>
    have hab : a < b := (List.pairwise_cons.1 hp).1 b (List.mem_cons_self _ _)
    have hrev : ((a :: b :: rest).reverse).Pairwise (fun x y => y < x) :=
      List.pairwise_reverse.2 hp
    rw [← heq] at hrev
    have hba : b < a := (List.pairwise_cons.1 hrev).1 b (List.mem_cons_self _ _)
    omega

theorem C24_counterexample :
    ¬ ((Version3.iterationLogged [uniformGray 16 16 128] (uniformGray 16 16 0)
          4 8 4 8).2.unlocked
        = (Version3.iterationLogged [uniformGray 16 16 128] (uniformGray 16 16 0)
          4 8 4 8).2.locked.reverse) := by
  rw [iterationLogged_unlocked, iterationLogged_locked]
  have h : Version3.uniqueRegionIndices (uniformGray 16 16 0) 4 8 4 8 = [4, 5, 6, 7] := by
    decide
  rw [h]
  decide

/-! ## Claim C21: the loop condition of the random-sampling workers -/

theorem copyBest_raster_frame (imageStack : List RasterImage) (best : Int)
    (out : RasterImage) (row col r k : Int) (h : r ≠ row) :
    (copyBest imageStack best out row col).raster2D r k = out.raster2D r k := by
  unfold copyBest
  split
  · split
    · exact copyPixel_raster_frame _ _ _ _ _ _ (fun hc => h hc.1)
    · rfl
  · rfl

theorem foldl_pixelStep_frame (imageStack : List RasterImage) (L : List (Int × Int))
    (out : RasterImage) (r k : Int) (h : ∀ p ∈ L, p.1 ≠ r) :
    (L.foldl (pixelStep imageStack) out).raster2D r k = out.raster2D r k := by
  induction L generalizing out with
  | nil => rfl
  | cons p L ih =>
    rw [List.foldl_cons, ih _ (fun q hq => h q (List.mem_cons_of_mem _ hq))]
    exact copyBest_raster_frame _ _ _ _ _ _ _ (fun e => h p (List.mem_cons_self _ _) e.symm)

theorem bandPixels_row (width : Nat) (rows : List Int) (p : Int × Int)
    (h : p ∈ bandPixels width rows) : p.1 ∈ rows := by
  unfold bandPixels at h
  rw [List.mem_flatMap] at h
  obtain ⟨row, hrow, hp⟩ := h
  rw [List.mem_map] at hp
  obtain ⟨col, _, rfl⟩ := hp
  exact hrow

theorem mem_bandPixels_congr (width : Nat) (rows1 rows2 : List Int)
    (h : ∀ x, x ∈ rows1 ↔ x ∈ rows2) (p : Int × Int) :
    p ∈ bandPixels width rows1 ↔ p ∈ bandPixels width rows2 := by
  unfold bandPixels
  simp only [List.mem_flatMap, h]

theorem v1_logged_rows (imageStack : List RasterImage) (out : RasterImage)
    (startRow endRow : Int) (p : Int × Int)
    (hp : p ∈ (Version1.focusStackingThreadLogged imageStack (out, []) startRow endRow).2) :
    startRow ≤ p.1 ∧ p.1 < endRow := by
  rw [focusStackingThreadLogged_eq, foldl_loggedStep] at hp
  simp only [List.nil_append] at hp
  have h := bandPixels_row _ _ p (List.mem_filter.1 hp).1
  rw [mem_intRange] at h
  omega

/-- C23: a Version1 worker given the band `[startRow, endRow)` changes no byte of the output
whose row is outside the band, and every call of `copyPixel` it makes is for a row of the
band, while the 5x5 window of `calculateWindowContrast` at a pixel reads every in-bounds pixel
within two rows and columns of it, whether or not that row belongs to the band; hence the
workers of two disjoint bands never write the same output pixel. -/
theorem C23_band_ownership (imageStack : List RasterImage) (outputImage : RasterImage)
    (startRow endRow : Int) :
    (∀ r k : Int, ¬ (startRow ≤ r ∧ r < endRow) →
      (Version1.focusStackingThread imageStack outputImage startRow endRow).raster2D r k
        = outputImage.raster2D r k) ∧
    (∀ p ∈ (Version1.focusStackingThreadLogged imageStack (outputImage, [])
        startRow endRow).2, startRow ≤ p.1 ∧ p.1 < endRow) ∧
    (∀ (image : RasterImage) (row col r c : Int), image.SizeOk → WindowInRange row col 5 →
      inWindow image row col 5 r c →
      (calculateWindowContrastLogged image row col 5).1
          = Version1.calculateWindowContrast image row col ∧
        (r, c) ∈ (calculateWindowContrastLogged image row col 5).2) ∧
    (∀ (otherOutput : RasterImage) (startRow2 endRow2 : Int),
      endRow ≤ startRow2 ∨ endRow2 ≤ startRow →
      ∀ p ∈ (Version1.focusStackingThreadLogged imageStack (outputImage, [])
          startRow endRow).2,
        p ∉ (Version1.focusStackingThreadLogged imageStack (otherOutput, [])
          startRow2 endRow2).2) := by
  refine ⟨?_, fun p hp => v1_logged_rows imageStack outputImage startRow endRow p hp, ?_, ?_⟩
  · intro r k hr
    rw [focusStackingThread_eq]
    apply foldl_pixelStep_frame
    intro p hp e
    have h := bandPixels_row _ _ p hp
    rw [mem_intRange] at h
    omega
  · intro image row col r c hs hwr hw
    rw [calculateWindowContrastLogged_eq]
    exact ⟨(v1_contrast_eq_windowSize_five image row col).symm,
      (mem_windowTargets_iff image row col _ hs hwr r c).2 hw⟩
  · intro otherOutput startRow2 endRow2 hdis p hp hp2
    have h1 := v1_logged_rows imageStack outputImage startRow endRow p hp
    have h2 := v1_logged_rows imageStack otherOutput startRow2 endRow2 p hp2
    omega

/-- C26: for every worker count `numThreads ≥ 1` and every stack whose images have the
format of the output, the band workers that `main` of Version1 creates, run one after the
other in any order, produce the same output image as one worker run over the rows
`[0, height)`; so does the run in creation order, `runThreads`. -/
theorem C26_worker_count_independence (imageStack : List RasterImage)
    (imageOut : RasterImage) (numThreads : Int) (order : List (Int × Int))
    (hn : 1 ≤ numThreads) (hmatch : ∀ img ∈ imageStack, MatchesOutput imageOut img)
    (horder : order.Perm (Version1.bands imageOut.height numThreads)) :
    order.foldl (fun out band => Version1.focusStackingThread imageStack out band.1 band.2)
        imageOut
      = Version1.focusStackingThread imageStack imageOut 0 imageOut.height ∧
    Version1.runThreads imageStack imageOut numThreads
      = Version1.focusStackingThread imageStack imageOut 0 imageOut.height := by
  obtain ⟨m, rfl⟩ : ∃ m : Nat, numThreads = (m : Int) + 1 :=
    ⟨(numThreads - 1).toNat, by omega⟩
  have hty : ∀ img ∈ imageStack, img.type = imageOut.type := fun img hi => (hmatch img hi).2.2
  constructor
  · rw [bands_fold_eq, focusStackingThread_eq]
    apply rasterImage_ext
    · rw [foldl_pixelStep_type, foldl_pixelStep_type]
    · rw [foldl_pixelStep_width, foldl_pixelStep_width]
    · rw [foldl_pixelStep_height, foldl_pixelStep_height]
    · intro r k
      rw [foldl_pixelStep_raster _ _ _ _ _ hty, foldl_pixelStep_raster _ _ _ _ _ hty]
      have hmem : ∀ p, p ∈ bandPixels imageOut.width
            (order.flatMap (fun b => intRange b.1 (b.2 - 1))) ↔
          p ∈ bandPixels imageOut.width (intRange 0 ((imageOut.height : Int) - 1)) := by
        apply mem_bandPixels_congr
        intro x
        rw [← bands_rows imageOut.height m]
        simp only [List.mem_flatMap]
        constructor
        · rintro ⟨b, hb, hx⟩
          exact ⟨b, horder.mem_iff.1 hb, hx⟩
        · rintro ⟨b, hb, hx⟩
          exact ⟨b, horder.mem_iff.2 hb, hx⟩
      simp only [hmem]
  · rw [runThreads_eq _ _ _ hn, focusStackingThread_eq]

theorem C26_worker_count_independence_witness :
    [((2 : Int), (4 : Int)), (0, 2)].foldl
        (fun out band => Version1.focusStackingThread [sampleGray] out band.1 band.2)
        sampleFlat
      = Version1.focusStackingThread [sampleGray] sampleFlat 0 sampleFlat.height :=
  (C26_worker_count_independence [sampleGray] sampleFlat 2 [(2, 4), (0, 2)] (by decide)
    (fun img h => by
      rw [List.mem_singleton.1 h]
      exact ⟨rfl, rfl, rfl⟩)
    (by
      have h : Version1.bands sampleFlat.height 2 = [(0, 2), (2, 4)] := by decide
      rw [h]
      exact List.Perm.swap _ _ _)).1

/-! ## Claims C22 and C29: the effect of one random-sampling iteration -/

/-- After a sequence of `copyPixel` calls from `src`, a byte of the output holds the byte of
`src` if its pixel is among the copied ones and its previous value otherwise. -/
theorem foldl_copyPixel_raster (src : RasterImage) (L : List (Int × Int))
    (out : RasterImage) (r k : Int) (hs : src.type = out.type) :
    (L.foldl (fun o p => copyPixel src o p.1 p.2) out).raster2D r k
      = if (r, k / bytesPerPixel out.type) ∈ L then src.raster2D r k
        else out.raster2D r k := by
  induction L generalizing out with
  | nil => simp
  | cons p L ih =>
    rw [List.foldl_cons, ih _ (hs.trans (copyPixel_type src out p.1 p.2).symm),
      copyPixel_type, copyPixel_raster src out p.1 p.2 r k hs]
    by_cases h1 : (r, k / bytesPerPixel out.type) ∈ L
    · rw [if_pos h1, if_pos (List.mem_cons_of_mem _ h1)]
    · rw [if_neg h1]
      by_cases h2 : r = p.1 ∧ k / bytesPerPixel out.type = p.2
      · rw [if_pos h2, if_pos]
        rw [List.mem_cons]
        exact Or.inl (Prod.ext h2.1 h2.2)
      · rw [if_neg h2, if_neg]
        rw [List.mem_cons]
        rintro (h | h)
        · exact h2 ⟨congrArg Prod.fst h, congrArg Prod.snd h⟩
        · exact h1 h

/-- A stack whose first image has an in-bounds pixel in the window has a winner. -/
theorem selectBest_winner (first : RasterImage) (rest : List RasterImage)
    (centerRow centerCol windowSize : Int) (hs : first.SizeOk)
    (hr : WindowInRange centerRow centerCol windowSize)
    (hne : ∃ r c, inWindow first centerRow centerCol windowSize r c) :
    ∃ (best : Nat) (winner : RasterImage), (first :: rest)[best]? = some winner ∧
      Version2.selectBest (first :: rest) centerRow centerCol windowSize = (best : Int) := by
  unfold Version2.selectBest
  rcases bestImageIndex_spec
    (fun image => calculateWindowContrast image centerRow centerCol windowSize)
    (first :: rest) with h | ⟨k, img, hk, hbest, _⟩
  · have h1 := h.2 first (List.mem_cons_self _ _)
    have h2 := calculateWindowContrast_nonneg first centerRow centerCol windowSize hs hr hne
    simp only at h1
    linarith
  · exact ⟨k, img, hk, hbest⟩

theorem mem_window_eleven (out : RasterImage) (centerRow centerCol : Int) (hs : out.SizeOk)
    (hr : WindowInRange centerRow centerCol 11) (p q : Int) :
    (p, q) ∈ windowTargets out.width out.height centerRow centerCol (windowOffsets 11) ↔
      (centerRow - 5 ≤ p ∧ p ≤ centerRow + 5 ∧ centerCol - 5 ≤ q ∧ q ≤ centerCol + 5 ∧
        inBounds out p q) := by
  rw [mem_windowTargets_iff out centerRow centerCol _ hs hr]
  unfold inWindowOffs
  rw [windowOffsets_eleven, mem_intRange, mem_intRange]
  constructor
  · rintro ⟨h1, h2, h3⟩
    exact ⟨by omega, by omega, by omega, by omega, h3⟩
  · rintro ⟨h1, h2, h3, h4, h5⟩
    exact ⟨by omega, by omega, h5⟩

/-- C22: one iteration of the random-sampling worker of Version2 (and of pthread/Version2)
with the sampled centre `(r, c)` in the bounds of the output, window size 11 and a non-empty
stack of images that match the output has a winner; the output after the iteration has the
format and size it had before, every in-bounds pixel `(r + i, c + j)` with `|i| ≤ 5` and
`|j| ≤ 5` holds the pixel of the winning image at that position, and every byte outside
that clipped window is unchanged. -/
theorem C22_random_sampling_iteration (imageStack : List RasterImage)
    (outputImage : RasterImage) (r c : Int) (hne : imageStack ≠ [])
    (hmatch : ∀ img ∈ imageStack, MatchesOutput outputImage img)
    (hs : outputImage.SizeOk) (hcentre : inBounds outputImage r c)
    (hr : WindowInRange r c 11) :
    ∃ (best : Nat) (winner : RasterImage),
      imageStack[best]? = some winner ∧
      Version2.selectBest imageStack r c 11 = (best : Int) ∧
      (Version2.iteration imageStack outputImage r c).type = outputImage.type ∧
      (Version2.iteration imageStack outputImage r c).width = outputImage.width ∧
      (Version2.iteration imageStack outputImage r c).height = outputImage.height ∧
      (∀ i j : Int, -5 ≤ i → i ≤ 5 → -5 ≤ j → j ≤ 5 → inBounds outputImage (r + i) (c + j) →
        pixelBytes (Version2.iteration imageStack outputImage r c) (r + i) (c + j)
          = pixelBytes winner (r + i) (c + j)) ∧
      (∀ p k : Int,
        ¬ (r - 5 ≤ p ∧ p ≤ r + 5 ∧ c - 5 ≤ k / bytesPerPixel outputImage.type ∧
            k / bytesPerPixel outputImage.type ≤ c + 5 ∧
            inBounds outputImage p (k / bytesPerPixel outputImage.type)) →
        (Version2.iteration imageStack outputImage r c).raster2D p k
          = outputImage.raster2D p k) := by
  cases imageStack with
  | nil => exact absurd rfl hne
  | cons first rest =>
    obtain ⟨hw, hh, ht⟩ := hmatch first (List.mem_cons_self _ _)
    have hsf : first.SizeOk := by
      unfold RasterImage.SizeOk at hs ⊢
      rw [hw, hh]
      exact hs
    have hbf : inBounds first r c := by
      unfold inBounds at hcentre ⊢
      rw [hw, hh]
      exact hcentre
    obtain ⟨best, winner, hwin, hbest⟩ := selectBest_winner first rest r c 11 hsf hr
      ⟨r, c, inWindow_center first r c 11 (by decide) hbf⟩
    have hty : winner.type = outputImage.type :=
      (hmatch winner (List.getElem?_mem hwin)).2.2
    refine ⟨best, winner, hwin, hbest, iteration_type _ _ _ _, iteration_width _ _ _ _,
      iteration_height _ _ _ _, ?_, ?_⟩
    · intro i j hi1 hi2 hj1 hj2 hb
      unfold pixelBytes
      rw [iteration_type, hty]
      apply List.map_congr_left
      intro b hbm
      rw [mem_intRange] at hbm
      rw [iteration_of_winner _ _ _ _ best winner hwin hbest, windowCopy_eq,
        foldl_copyPixel_raster _ _ _ _ _ hty, pixel_ediv _ _ _ hbm.1 hbm.2, if_pos]
      rw [mem_window_eleven outputImage r c hs hr]
      exact ⟨by omega, by omega, by omega, by omega, hb⟩
    · intro p k hout
      apply iteration_raster_frame
      rw [mem_window_eleven outputImage r c hs hr]
      exact hout

theorem C22_random_sampling_iteration_witness :
    ∃ (best : Nat) (winner : RasterImage),
      [sampleGray, sampleFlat][best]? = some winner ∧
      Version2.selectBest [sampleGray, sampleFlat] 1 1 11 = (best : Int) ∧
      (Version2.iteration [sampleGray, sampleFlat] sampleFlat 1 1).type = sampleFlat.type ∧
      (Version2.iteration [sampleGray, sampleFlat] sampleFlat 1 1).width = sampleFlat.width ∧
      (Version2.iteration [sampleGray, sampleFlat] sampleFlat 1 1).height
        = sampleFlat.height ∧
      (∀ i j : Int, -5 ≤ i → i ≤ 5 → -5 ≤ j → j ≤ 5 → inBounds sampleFlat (1 + i) (1 + j) →
        pixelBytes (Version2.iteration [sampleGray, sampleFlat] sampleFlat 1 1) (1 + i) (1 + j)
          = pixelBytes winner (1 + i) (1 + j)) ∧
      (∀ p k : Int,
        ¬ (1 - 5 ≤ p ∧ p ≤ 1 + 5 ∧ 1 - 5 ≤ k / bytesPerPixel sampleFlat.type ∧
            k / bytesPerPixel sampleFlat.type ≤ 1 + 5 ∧
            inBounds sampleFlat p (k / bytesPerPixel sampleFlat.type)) →
        (Version2.iteration [sampleGray, sampleFlat] sampleFlat 1 1).raster2D p k
          = sampleFlat.raster2D p k) :=
  C22_random_sampling_iteration [sampleGray, sampleFlat] sampleFlat 1 1
    (List.cons_ne_nil _ _)
    (fun img h => by
      rcases List.mem_cons.1 h with rfl | h
      · exact ⟨rfl, rfl, rfl⟩
      · rw [List.mem_singleton.1 h]
        exact ⟨rfl, rfl, rfl⟩)
    (by unfold RasterImage.SizeOk; decide) (by unfold inBounds; decide)
    (by unfold WindowInRange OffsetsInRange FitsInt; decide)

/-! ## Claim C29: the write footprint of a Version3 worker -/

theorem iterationLogged_output (imageStack : List RasterImage) (out : RasterImage)
    (startRow endRow centerRow centerCol : Int) :
    (Version3.iterationLogged imageStack out startRow endRow centerRow centerCol).1
      = Version2.iteration imageStack out centerRow centerCol := by
  unfold Version3.iterationLogged Version2.iteration
  simp only
  split
  · split
    · rw [windowCopyLogged_eq]
    · rfl
  · rfl

/-- One iteration with a centre in the band `[startRow, endRow)` changes no byte outside the
rows `[max 0 (startRow - 5), min (height - 1) (endRow + 4)]` and the columns within 5 of the
centre. -/
theorem iteration_footprint (imageStack : List RasterImage) (out : RasterImage)
    (startRow endRow centerRow centerCol r k : Int) (hs : out.SizeOk)
    (hband : startRow ≤ centerRow ∧ centerRow < endRow)
    (hr : WindowInRange centerRow centerCol 11)
    (hout : ¬ (max 0 (startRow - 5) ≤ r ∧ r ≤ min ((out.height : Int) - 1) (endRow + 4) ∧
      centerCol - 5 ≤ k / bytesPerPixel out.type ∧
      k / bytesPerPixel out.type ≤ centerCol + 5)) :
    (Version2.iteration imageStack out centerRow centerCol).raster2D r k
      = out.raster2D r k := by
  apply iteration_raster_frame
  rw [mem_window_eleven out centerRow centerCol hs hr]
  intro h
  apply hout
  obtain ⟨h1, h2, h3, h4, h5⟩ := h
  unfold inBounds at h5
  refine ⟨?_, ?_, h3, h4⟩
  · rw [max_le_iff]; omega
  · rw [le_min_iff]; omega

theorem version3_worker_frame (imageStack : List RasterImage) (startRow endRow : Int)
    (inputs : List LoopInput) (st : WorkerState) (r k : Int) (hs : st.outputImage.SizeOk)
    (hband : ∀ inp ∈ inputs, startRow ≤ inp.centerRow ∧ inp.centerRow < endRow ∧
      WindowInRange inp.centerRow inp.centerCol 11)
    (hout : ∀ inp ∈ inputs,
      ¬ (max 0 (startRow - 5) ≤ r ∧
        r ≤ min ((st.outputImage.height : Int) - 1) (endRow + 4) ∧
        inp.centerCol - 5 ≤ k / bytesPerPixel st.outputImage.type ∧
        k / bytesPerPixel st.outputImage.type ≤ inp.centerCol + 5)) :
    (Version3.focusStackingThread imageStack startRow endRow st inputs).outputImage.raster2D
        r k
      = st.outputImage.raster2D r k := by
  induction inputs generalizing st with
  | nil => rfl
  | cons inp rest ih =>
    unfold Version3.focusStackingThread
    simp only []
    have hb := hband inp (List.mem_cons_self _ _)
    rw [ih]
    · simp only [iterationLogged_output]
      exact iteration_footprint imageStack st.outputImage startRow endRow _ _ r k hs
        ⟨hb.1, hb.2.1⟩ hb.2.2 (hout inp (List.mem_cons_self _ _))
    · simp only [iterationLogged_output]
      unfold RasterImage.SizeOk
      rw [iteration_width, iteration_height]
      exact hs
    · exact fun x hx => hband x (List.mem_cons_of_mem _ hx)
    · intro x hx
      simp only [iterationLogged_output]
      rw [iteration_height, iteration_type]
      exact hout x (List.mem_cons_of_mem _ hx)

/-- C29: a Version3 worker with the band `[startRow, endRow)`, whatever the number of its
iterations with centres sampled from the band, changes a byte of the output image of height
`h` only if its row lies in `[max(0, startRow - 5), min(h - 1, endRow + 4)]` and its column
lies within 5 columns of the centre of one of the iterations; every other byte of the output
is as it was before the worker started. -/
theorem C29_version3_write_footprint (imageStack : List RasterImage)
    (outputImage : RasterImage) (startRow endRow : Int) (inputs : List LoopInput)
    (hs : outputImage.SizeOk)
    (hband : ∀ inp ∈ inputs, startRow ≤ inp.centerRow ∧ inp.centerRow < endRow ∧
      WindowInRange inp.centerRow inp.centerCol 11) :
    (∀ r k : Int,
      (∀ inp ∈ inputs,
        ¬ (max 0 (startRow - 5) ≤ r ∧
          r ≤ min ((outputImage.height : Int) - 1) (endRow + 4) ∧
          inp.centerCol - 5 ≤ k / bytesPerPixel outputImage.type ∧
          k / bytesPerPixel outputImage.type ≤ inp.centerCol + 5)) →
      (Version3.focusStackingThread imageStack startRow endRow ⟨outputImage, [], false⟩
          inputs).outputImage.raster2D r k
        = outputImage.raster2D r k) ∧
    (∀ r k : Int,
      ¬ (max 0 (startRow - 5) ≤ r ∧
        r ≤ min ((outputImage.height : Int) - 1) (endRow + 4)) →
      (Version3.focusStackingThread imageStack startRow endRow ⟨outputImage, [], false⟩
          inputs).outputImage.raster2D r k
        = outputImage.raster2D r k) := by
  constructor
  · intro r k hout
    exact version3_worker_frame imageStack startRow endRow inputs ⟨outputImage, [], false⟩
      r k hs hband hout
  · intro r k hrow
    exact version3_worker_frame imageStack startRow endRow inputs ⟨outputImage, [], false⟩
      r k hs hband (fun inp _ h => hrow ⟨h.1, h.2.1⟩)

theorem C29_version3_write_footprint_witness :
    (Version3.focusStackingThread [uniformGray 16 16 128] 4 8 ⟨uniformGray 16 16 0, [], false⟩
        [⟨true, 4, 8⟩, ⟨true, 7, 0⟩]).outputImage.raster2D 15 3
      = (uniformGray 16 16 0).raster2D 15 3 :=
  (C29_version3_write_footprint [uniformGray 16 16 128] (uniformGray 16 16 0) 4 8
    [⟨true, 4, 8⟩, ⟨true, 7, 0⟩] (by unfold RasterImage.SizeOk; decide)
    (by
      intro inp h
      rcases List.mem_cons.1 h with rfl | h
      · exact ⟨by decide, by decide, by unfold WindowInRange OffsetsInRange FitsInt; decide⟩
      · rw [List.mem_singleton.1 h]
        exact ⟨by decide, by decide,
          by unfold WindowInRange OffsetsInRange FitsInt; decide⟩)).2 15 3 (by decide)

/-! ## The contrast loops in `double` arithmetic -/

theorem rounded_calculateWindowContrast_eq (rnd : ℚ → ℚ) (image : RasterImage)
    (centerRow centerCol windowSize : Int) :
    Rounded.calculateWindowContrast rnd image centerRow centerCol windowSize
      = Rounded.contrastOver rnd image centerRow centerCol (windowOffsets windowSize) := rfl

theorem rounded_v1_calculateWindowContrast_eq (rnd : ℚ → ℚ) (image : RasterImage)
    (row col : Int) :
    Rounded.Version1.calculateWindowContrast rnd image row col
      = Rounded.contrastOver rnd image row col (intRange (-2) 2) := rfl

theorem rounded_v1_contrast_eq_windowSize_five (rnd : ℚ → ℚ) (image : RasterImage)
    (row col : Int) :
    Rounded.Version1.calculateWindowContrast rnd image row col
      = Rounded.calculateWindowContrast rnd image row col 5 := by
  rw [rounded_v1_calculateWindowContrast_eq, rounded_calculateWindowContrast_eq,
    windowOffsets_five]

theorem rounded_v1_selectBest_eq (rnd : ℚ → ℚ) (imageStack : List RasterImage)
    (row col : Int) :
    Rounded.Version1.selectBest rnd imageStack row col
      = Rounded.Version2.selectBest rnd imageStack row col 5 := by
  unfold Rounded.Version1.selectBest Rounded.Version2.selectBest
  simp only [rounded_v1_contrast_eq_windowSize_five]

theorem rounded_contrastBody_eq (rnd : ℚ → ℚ) (image : RasterImage)
    (centerRow centerCol : Int) (acc : ℚ × ℚ)
    (i j : Int) (hs : image.SizeOk) (hi : FitsInt (centerRow + i))
    (hj : FitsInt (centerCol + j)) :
    Rounded.contrastBody rnd image centerRow centerCol acc i j
      = if inBounds image (centerRow + i) (centerCol + j) then
          (min acc.1 (Rounded.convertToGrayscale rnd image (centerRow + i) (centerCol + j)),
           max acc.2 (Rounded.convertToGrayscale rnd image (centerRow + i) (centerCol + j)))
        else acc := by
  unfold Rounded.contrastBody inBounds
  have hr := toUnsigned_lt_iff (centerRow + i) image.height hi hs.2
  have hc := toUnsigned_lt_iff (centerCol + j) image.width hj hs.1
  by_cases hb : (0 ≤ centerRow + i ∧ centerRow + i < image.height)
      ∧ (0 ≤ centerCol + j ∧ centerCol + j < image.width)
  · have e1 := toSigned_toUnsigned (centerRow + i) image.height hs.2 hb.1.1 hb.1.2
    have e2 := toSigned_toUnsigned (centerCol + j) image.width hs.1 hb.2.1 hb.2.2
    have c1 : 0 ≤ toUnsigned (centerRow + i) ∧ toUnsigned (centerRow + i) < image.height ∧
        0 ≤ toUnsigned (centerCol + j) ∧ toUnsigned (centerCol + j) < image.width :=
      ⟨Nat.zero_le _, hr.2 hb.1, Nat.zero_le _, hc.2 hb.2⟩
    have c2 : 0 ≤ centerRow + i ∧ centerRow + i < image.height ∧
        0 ≤ centerCol + j ∧ centerCol + j < image.width := ⟨hb.1.1, hb.1.2, hb.2.1, hb.2.2⟩
    simp only [c1, c2, and_self, if_true, e1, e2]
  · have c1 : ¬ (0 ≤ toUnsigned (centerRow + i) ∧ toUnsigned (centerRow + i) < image.height ∧
        0 ≤ toUnsigned (centerCol + j) ∧ toUnsigned (centerCol + j) < image.width) := by
      rintro ⟨_, h1, _, h2⟩
      exact hb ⟨hr.1 h1, hc.1 h2⟩
    have c2 : ¬ (0 ≤ centerRow + i ∧ centerRow + i < image.height ∧
        0 ≤ centerCol + j ∧ centerCol + j < image.width) := by
      rintro ⟨h1, h2, h3, h4⟩
      exact hb ⟨⟨h1, h2⟩, ⟨h3, h4⟩⟩
    rw [if_neg c1, if_neg c2]

theorem rounded_contrast_fold (rnd : ℚ → ℚ) (image : RasterImage)
    (centerRow centerCol : Int) (hs : image.SizeOk) (L : List (Int × Int))
    (hL : ∀ p ∈ L, FitsInt (centerRow + p.1) ∧ FitsInt (centerCol + p.2)) (acc : ℚ × ℚ) :
    L.foldl (fun acc p => Rounded.contrastBody rnd image centerRow centerCol acc p.1 p.2) acc
      = ((Rounded.grayList rnd image centerRow centerCol L).foldl min acc.1,
         (Rounded.grayList rnd image centerRow centerCol L).foldl max acc.2) := by
  induction L generalizing acc with
  | nil => rfl
  | cons p L ih =>
    have hp := hL p (List.mem_cons_self _ _)
    have hL2 : ∀ q ∈ L, FitsInt (centerRow + q.1) ∧ FitsInt (centerCol + q.2) :=
      fun q hq => hL q (List.mem_cons_of_mem _ hq)
    rw [List.foldl_cons, ih hL2,
      rounded_contrastBody_eq rnd image centerRow centerCol acc p.1 p.2 hs hp.1 hp.2]
    unfold Rounded.grayList
    by_cases hb : inBounds image (centerRow + p.1) (centerCol + p.2)
    · simp [hb, List.filter_cons]
    · simp [hb, List.filter_cons]

theorem rounded_contrastOver_eq (rnd : ℚ → ℚ) (image : RasterImage)
    (centerRow centerCol : Int) (offs : List Int)
    (hs : image.SizeOk) (hr : OffsetsInRange centerRow centerCol offs) :
    Rounded.contrastOver rnd image centerRow centerCol offs
      = rnd ((Rounded.grayList rnd image centerRow centerCol
            (offs.flatMap (fun i => offs.map (fun j => (i, j))))).foldl max 0
        - (Rounded.grayList rnd image centerRow centerCol
            (offs.flatMap (fun i => offs.map (fun j => (i, j))))).foldl min 255) := by
  unfold Rounded.contrastOver
  rw [foldl_nested (fun acc i j => Rounded.contrastBody rnd image centerRow centerCol acc i j)
    offs offs]
  rw [rounded_contrast_fold rnd image centerRow centerCol hs]
  intro p hp
  rw [mem_offsetPairs] at hp
  exact ⟨(hr p.1 hp.1).1, (hr p.2 hp.2).2⟩

theorem rounded_mem_grayList_of_inWindowOffs (rnd : ℚ → ℚ) (image : RasterImage)
    (centerRow centerCol : Int) (offs : List Int) (r c : Int)
    (h : inWindowOffs image centerRow centerCol offs r c) :
    Rounded.convertToGrayscale rnd image r c ∈ Rounded.grayList rnd image centerRow centerCol
      (offs.flatMap (fun i => offs.map (fun j => (i, j)))) := by
  unfold Rounded.grayList
  rw [List.mem_map]
  refine ⟨(r - centerRow, c - centerCol), ?_, ?_⟩
  · rw [List.mem_filter]
    refine ⟨(mem_offsetPairs _ _).2 ⟨h.1, h.2.1⟩, ?_⟩
    have e1 : centerRow + (r - centerRow) = r := by ring
    have e2 : centerCol + (c - centerCol) = c := by ring
    simp only [e1, e2, decide_eq_true_eq]
    exact h.2.2
  · have e1 : centerRow + (r - centerRow) = r := by ring
    have e2 : centerCol + (c - centerCol) = c := by ring
    simp only [e1, e2]

/-- In `double` arithmetic the contrast of a window with an in-bounds pixel is not
negative. -/
theorem rounded_contrastOver_nonneg (rnd : ℚ → ℚ) (hrnd : RoundsNonneg rnd)
    (image : RasterImage) (centerRow centerCol : Int) (offs : List Int)
    (hs : image.SizeOk) (hr : OffsetsInRange centerRow centerCol offs)
    (hne : ∃ r c, inWindowOffs image centerRow centerCol offs r c) :
    0 ≤ Rounded.contrastOver rnd image centerRow centerCol offs := by
  obtain ⟨r0, c0, h0⟩ := hne
  have hmem := rounded_mem_grayList_of_inWindowOffs rnd image centerRow centerCol offs r0 c0 h0
  rw [rounded_contrastOver_eq rnd image centerRow centerCol offs hs hr]
  apply hrnd
  have h1 := foldl_min_le_mem _ 255 _ hmem
  have h2 := mem_le_foldl_max _ 0 _ hmem
  linarith

theorem rounded_calculateWindowContrast_nonneg (rnd : ℚ → ℚ) (hrnd : RoundsNonneg rnd)
    (image : RasterImage) (centerRow centerCol windowSize : Int)
    (hs : image.SizeOk) (hr : WindowInRange centerRow centerCol windowSize)
    (hne : ∃ r c, inWindow image centerRow centerCol windowSize r c) :
    0 ≤ Rounded.calculateWindowContrast rnd image centerRow centerCol windowSize :=
  rounded_contrastOver_nonneg rnd hrnd image centerRow centerCol _ hs hr hne

theorem rounded_convertToGrayscale_gray (rnd : ℚ → ℚ) (image : RasterImage)
    (h : image.type = ImageType.GRAY_RASTER) (row col : Int) :
    Rounded.convertToGrayscale rnd image row col = convertToGrayscale image row col := by
  unfold Rounded.convertToGrayscale convertToGrayscale
  rw [h]
  simp

/-- For a Gray image the intensities are exact, and the contrast in `double` arithmetic is
the rounded exact contrast. -/
theorem rounded_contrastOver_gray (rnd : ℚ → ℚ) (image : RasterImage)
    (h : image.type = ImageType.GRAY_RASTER) (centerRow centerCol : Int) (offs : List Int) :
    Rounded.contrastOver rnd image centerRow centerCol offs
      = rnd (contrastOver image centerRow centerCol offs) := by
  unfold Rounded.contrastOver contrastOver
  have e : (fun (acc : ℚ × ℚ) (i : Int) =>
        offs.foldl (fun acc j => Rounded.contrastBody rnd image centerRow centerCol acc i j)
          acc)
      = (fun (acc : ℚ × ℚ) (i : Int) =>
        offs.foldl (fun acc j => contrastBody image centerRow centerCol acc i j) acc) := by
    funext acc i
    congr 1
    funext acc j
    unfold Rounded.contrastBody contrastBody
    simp only [rounded_convertToGrayscale_gray rnd image h]
  rw [e]

/-! ## The rounding of IEEE 754 binary64 -/

theorem roundHalfEven_nonneg (x : ℚ) (hx : 0 ≤ x) : 0 ≤ roundHalfEven x := by
  have hf : (0 : Int) ≤ ⌊x⌋ := Int.floor_nonneg.2 hx
  unfold roundHalfEven
  split
  · exact hf
  · split
    · omega
    · split
      · exact hf
      · omega

/-- A rational number at distance less than `1/2` from the integer `m` is rounded to `m`. -/
theorem roundHalfEven_eq (x : ℚ) (m : Int) (h1 : x - m < 1 / 2) (h2 : (m : ℚ) - x < 1 / 2) :
    roundHalfEven x = m := by
  unfold roundHalfEven
  by_cases hle : (m : ℚ) ≤ x
  · have hfl : ⌊x⌋ = m := by
      rw [Int.floor_eq_iff]
      exact ⟨hle, by linarith⟩
    rw [hfl, if_pos h1]
  · have hfl : ⌊x⌋ = m - 1 := by
      rw [Int.floor_eq_iff]
      push_cast
      constructor
      · linarith
      · linarith
    rw [hfl]
    push_cast
    rw [if_neg (by linarith), if_pos (by linarith)]
    omega

theorem roundHalfEven_intCast (n : Int) : roundHalfEven (n : ℚ) = n :=
  roundHalfEven_eq _ n (by norm_num) (by norm_num)

/-- The rounding `roundDouble` maps non-negative numbers to non-negative numbers. -/
theorem roundDouble_nonneg : RoundsNonneg roundDouble := by
  intro x hx
  unfold roundDouble
  split
  · exact le_refl _
  · apply div_nonneg
    · have h : (0 : ℚ) ≤ x * (2 : ℚ) ^ (52 - Int.log 2 |x|) :=
        mul_nonneg hx (le_of_lt (zpow_pos (by norm_num) _))
      exact_mod_cast roundHalfEven_nonneg _ h
    · exact le_of_lt (zpow_pos (by norm_num) _)

/-- Evaluation of `roundDouble`: for `2^e ≤ |x| < 2^(e+1)` and an integer `m` at distance
less than `1/2` from `x * 2^(52-e)`, the rounded value is `m / 2^(52-e)`. -/
theorem roundDouble_eval (x : ℚ) (e m : Int) (hx : x ≠ 0)
    (h1 : (2 : ℚ) ^ e ≤ |x|) (h2 : |x| < (2 : ℚ) ^ (e + 1))
    (hm1 : x * (2 : ℚ) ^ (52 - e) - m < 1 / 2) (hm2 : (m : ℚ) - x * (2 : ℚ) ^ (52 - e) < 1 / 2) :
    roundDouble x = (m : ℚ) / (2 : ℚ) ^ (52 - e) := by
  have hpos : (0 : ℚ) < |x| := abs_pos.2 hx
  have hlog : Int.log 2 |x| = e := by
    have a1 : e ≤ Int.log 2 |x| := by
      rw [← Int.zpow_le_iff_le_log (by norm_num) hpos]
      exact_mod_cast h1
    have a2 : Int.log 2 |x| < e + 1 := by
      rw [← Int.lt_zpow_iff_log_lt (by norm_num) hpos]
      exact_mod_cast h2
    omega
  unfold roundDouble
  rw [if_neg hx, hlog, roundHalfEven_eq _ m hm1 hm2]

/-- Integers of magnitude below `2^53` are represented exactly. -/
theorem roundDouble_intCast (n : Int) (h : n.natAbs < 2 ^ 53) : roundDouble (n : ℚ) = n := by
  by_cases h0 : n = 0
  · subst h0
    unfold roundDouble
    simp
  · have hx : (n : ℚ) ≠ 0 := by exact_mod_cast h0
    have habs : |(n : ℚ)| = ((n.natAbs : Nat) : ℚ) := by
      rw [Nat.cast_natAbs, Int.cast_abs]
    have hlog : Int.log 2 |(n : ℚ)| = (Nat.log 2 n.natAbs : Int) := by
      rw [habs, Int.log_natCast]
    have hlt : Nat.log 2 n.natAbs < 53 :=
      Nat.log_lt_of_lt_pow (by omega) h
    unfold roundDouble
    rw [if_neg hx, hlog]
    obtain ⟨k, hk⟩ : ∃ k : Nat, (52 : Int) - (Nat.log 2 n.natAbs : Int) = (k : Int) :=
      ⟨52 - Nat.log 2 n.natAbs, by omega⟩
    rw [hk, zpow_natCast]
    have e : (n : ℚ) * (2 : ℚ) ^ k = ((n * 2 ^ k : Int) : ℚ) := by push_cast; ring
    rw [e, roundHalfEven_intCast]
    push_cast
    field_simp
/-! ## An example where the rounding decides the selection -/

theorem roundDouble_four_thirds :
    roundDouble (4 / 3) = 6004799503160661 / 4503599627370496 := by
  have h := roundDouble_eval (4 / 3) 0 6004799503160661 (by norm_num)
    (by rw [abs_of_pos (by norm_num)]; norm_num)
    (by rw [abs_of_pos (by norm_num)]; norm_num) (by norm_num) (by norm_num)
  rw [h]
  norm_num

theorem roundDouble_one_third :
    roundDouble (1 / 3) = 6004799503160661 / 18014398509481984 := by
  have h := roundDouble_eval (1 / 3) (-2) 6004799503160661 (by norm_num)
    (by rw [abs_of_pos (by norm_num)]; norm_num)
    (by rw [abs_of_pos (by norm_num)]; norm_num) (by norm_num) (by norm_num)
  rw [h]
  norm_num

theorem roundDouble_exact_low :
    roundDouble (1501199875790165 / 4503599627370496)
      = 1501199875790165 / 4503599627370496 := by
  have h := roundDouble_eval (1501199875790165 / 4503599627370496) (-2) 6004799503160660
    (by norm_num)
    (by rw [abs_of_pos (by norm_num)]; norm_num)
    (by rw [abs_of_pos (by norm_num)]; norm_num) (by norm_num) (by norm_num)
  rw [h]
  norm_num

theorem roundDouble_exact_high :
    roundDouble (6004799503160661 / 18014398509481984)
      = 6004799503160661 / 18014398509481984 := by
  have h := roundDouble_eval (6004799503160661 / 18014398509481984) (-2) 6004799503160661
    (by norm_num)
    (by rw [abs_of_pos (by norm_num)]; norm_num)
    (by rw [abs_of_pos (by norm_num)]; norm_num) (by norm_num) (by norm_num)
  rw [h]
  norm_num

theorem sampleX_window_pairs :
    ((intRange (-2) 2).flatMap (fun i => (intRange (-2) 2).map (fun j => (i, j)))).filter
        (fun p => decide (inBounds sampleX (0 + p.1) (0 + p.2)))
      = [(0, 0), (0, 1)] := by
  decide

theorem sampleY_window_pairs :
    ((intRange (-2) 2).flatMap (fun i => (intRange (-2) 2).map (fun j => (i, j)))).filter
        (fun p => decide (inBounds sampleY (0 + p.1) (0 + p.2)))
      = [(0, 0), (0, 1)] := by
  decide

theorem sampleXY_sizes :
    sampleX.SizeOk ∧ sampleY.SizeOk ∧ OffsetsInRange 0 0 (intRange (-2) 2) := by
  refine ⟨by unfold RasterImage.SizeOk; decide, by unfold RasterImage.SizeOk; decide, ?_⟩
  unfold OffsetsInRange FitsInt
  decide

/-- The contrast of `sampleX` at `(0, 0)` in `double` arithmetic: `4/3.0 - 1.0`. -/
theorem rounded_contrast_sampleX :
    Rounded.Version1.calculateWindowContrast roundDouble sampleX 0 0
      = 1501199875790165 / 4503599627370496 := by
  rw [rounded_v1_calculateWindowContrast_eq,
    rounded_contrastOver_eq roundDouble sampleX 0 0 _ sampleXY_sizes.1 sampleXY_sizes.2.2]
  unfold Rounded.grayList
  rw [sampleX_window_pairs]
  have g0 : Rounded.convertToGrayscale roundDouble sampleX (0 + 0) (0 + 0)
      = 6004799503160661 / 4503599627370496 := by
    unfold Rounded.convertToGrayscale sampleX
    simp only [if_true]
    norm_num
    exact roundDouble_four_thirds
  have g1 : Rounded.convertToGrayscale roundDouble sampleX (0 + 0) (0 + 1)
      = 1 := by
    unfold Rounded.convertToGrayscale sampleX
    simp only [if_true]
    norm_num
    exact roundDouble_intCast 1 (by decide)
  simp only [List.map_cons, List.map_nil, List.foldl_cons, List.foldl_nil, g0, g1]
  norm_num
  exact roundDouble_exact_low

/-- The contrast of `sampleY` at `(0, 0)` in `double` arithmetic: `1/3.0 - 0.0`. -/
theorem rounded_contrast_sampleY :
    Rounded.Version1.calculateWindowContrast roundDouble sampleY 0 0
      = 6004799503160661 / 18014398509481984 := by
  rw [rounded_v1_calculateWindowContrast_eq,
    rounded_contrastOver_eq roundDouble sampleY 0 0 _ sampleXY_sizes.2.1 sampleXY_sizes.2.2]
  unfold Rounded.grayList
  rw [sampleY_window_pairs]
  have g0 : Rounded.convertToGrayscale roundDouble sampleY (0 + 0) (0 + 0)
      = 6004799503160661 / 18014398509481984 := by
    unfold Rounded.convertToGrayscale sampleY
    simp only [if_true]
    norm_num
    exact roundDouble_one_third
  have g1 : Rounded.convertToGrayscale roundDouble sampleY (0 + 0) (0 + 1)
      = 0 := by
    unfold Rounded.convertToGrayscale sampleY
    simp only [if_true]
    norm_num
    unfold roundDouble
    simp
  simp only [List.map_cons, List.map_nil, List.foldl_cons, List.foldl_nil, g0, g1]
  norm_num
  exact roundDouble_exact_high

/-- On the stack `[sampleX, sampleY]` the two exact contrasts at `(0, 0)` are both `1/3`, so
that exact arithmetic selects index 0, while in `double` arithmetic
`4/3.0 - 1.0 < 1/3.0` and the selection loop returns index 1. -/
theorem rounding_decides_selection :
    Version1.calculateWindowContrast sampleX 0 0 = 1 / 3 ∧
    Version1.calculateWindowContrast sampleY 0 0 = 1 / 3 ∧
    Version1.selectBest [sampleX, sampleY] 0 0 = 0 ∧
    Rounded.Version1.calculateWindowContrast roundDouble sampleX 0 0
      < Rounded.Version1.calculateWindowContrast roundDouble sampleY 0 0 ∧
    Rounded.Version1.selectBest roundDouble [sampleX, sampleY] 0 0 = 1 := by
  have eX : Version1.calculateWindowContrast sampleX 0 0 = 1 / 3 := by
    rw [v1_contrast_eq_windowSize_five, calculateWindowContrast_eq_scaled]
    have e : contrastOverScaled sampleX 0 0 (windowOffsets 5) = 1 := by decide
    rw [e]
    norm_num
  have eY : Version1.calculateWindowContrast sampleY 0 0 = 1 / 3 := by
    rw [v1_contrast_eq_windowSize_five, calculateWindowContrast_eq_scaled]
    have e : contrastOverScaled sampleY 0 0 (windowOffsets 5) = 1 := by decide
    rw [e]
    norm_num
  have hlt : Rounded.Version1.calculateWindowContrast roundDouble sampleX 0 0
      < Rounded.Version1.calculateWindowContrast roundDouble sampleY 0 0 := by
    rw [rounded_contrast_sampleX, rounded_contrast_sampleY]
    norm_num
  refine ⟨eX, eY, ?_, hlt, ?_⟩
  · obtain ⟨m, imgm, _, hm, _, hle, _⟩ := bestImageIndex_lowest_max
      (fun image => Version1.calculateWindowContrast image 0 0) [sampleX, sampleY] 0 sampleX rfl
      (by simp only [eX]; norm_num)
      (by
        intro img2 h
        simp only [List.mem_cons, List.mem_singleton, List.not_mem_nil, or_false] at h
        rcases h with h | h
        · rw [h]
        · rw [h]
          simp only [eX, eY]
          exact le_refl _)
    unfold Version1.selectBest
    rw [hm]
    have : m = 0 := by omega
    rw [this]
    rfl
  · exact bestImageIndex_unique_max
      (fun image => Rounded.Version1.calculateWindowContrast roundDouble image 0 0)
      [sampleX, sampleY] 1 sampleY rfl
      (by simp only [rounded_contrast_sampleY]; norm_num)
      (by
        intro j img2 hj h
        match j, hj, h with
        | 0, _, h =>
          simp only [List.getElem?_cons_zero, Option.some.injEq] at h
          rw [← h]
          exact hlt
        | 1, hj, _ => exact absurd rfl hj
        | (n + 2), _, h => simp at h)

/-! ## The Version1 workers in `double` arithmetic -/

theorem foldl_pixelStepWith_width (sel : Int → Int → Int) (imageStack : List RasterImage)
    (L : List (Int × Int)) (out : RasterImage) :
    (L.foldl (pixelStepWith sel imageStack) out).width = out.width := by
  induction L generalizing out with
  | nil => rfl
  | cons p L ih =>
    rw [List.foldl_cons, ih]
    exact copyBest_width _ _ _ _ _

theorem foldl_pixelStepWith_height (sel : Int → Int → Int) (imageStack : List RasterImage)
    (L : List (Int × Int)) (out : RasterImage) :
    (L.foldl (pixelStepWith sel imageStack) out).height = out.height := by
  induction L generalizing out with
  | nil => rfl
  | cons p L ih =>
    rw [List.foldl_cons, ih]
    exact copyBest_height _ _ _ _ _

theorem foldl_loggedStepWith (sel : Int → Int → Int) (imageStack : List RasterImage)
    (L : List (Int × Int)) (st : RasterImage × List (Int × Int)) :
    L.foldl (loggedStepWith sel imageStack) st
      = (L.foldl (pixelStepWith sel imageStack) st.1,
         st.2 ++ L.filter (fun p => decide (sel p.1 p.2 ≠ -1))) := by
  induction L generalizing st with
  | nil => simp
  | cons p L ih =>
    rw [List.foldl_cons, ih, List.foldl_cons]
    unfold loggedStepWith pixelStepWith
    by_cases hb : sel p.1 p.2 = -1
    · have e : copyBest imageStack (-1) st.1 p.1 p.2 = st.1 := by
        unfold copyBest
        simp
      simp [hb, List.filter_cons, e]
    · simp [hb, List.filter_cons]

theorem rows_fold_logged_with_eq (sel : Int → Int → Int) (imageStack : List RasterImage)
    (width : Nat) (rows : List Int) (st : RasterImage × List (Int × Int)) :
    rows.foldl
        (fun st row => (List.range width).foldl
          (fun (st : RasterImage × List (Int × Int)) col =>
            let best := sel row (toSigned col)
            if best ≠ -1 then
              (copyBest imageStack best st.1 row (toSigned col), st.2 ++ [(row, toSigned col)])
            else st)
          st)
        st
      = (bandPixels width rows).foldl (loggedStepWith sel imageStack) st := by
  induction rows generalizing st with
  | nil => rfl
  | cons row rows ih =>
    unfold bandPixels
    rw [List.foldl_cons, List.flatMap_cons, List.foldl_append, List.foldl_map]
    exact ih _

theorem rounded_focusStackingThread_eq (rnd : ℚ → ℚ) (imageStack : List RasterImage)
    (out : RasterImage) (startRow endRow : Int) :
    Rounded.Version1.focusStackingThread rnd imageStack out startRow endRow
      = (bandPixels out.width (intRange startRow (endRow - 1))).foldl
          (pixelStepWith (Rounded.Version1.selectBest rnd imageStack) imageStack) out := by
  unfold Rounded.Version1.focusStackingThread
  exact rows_fold_with_eq (Rounded.Version1.selectBest rnd imageStack) imageStack out.width _
    out

theorem rounded_bands_fold_eq (rnd : ℚ → ℚ) (imageStack : List RasterImage)
    (B : List (Int × Int)) (out : RasterImage) :
    B.foldl
        (fun out band => Rounded.Version1.focusStackingThread rnd imageStack out band.1 band.2)
        out
      = (bandPixels out.width (B.flatMap (fun b => intRange b.1 (b.2 - 1)))).foldl
          (pixelStepWith (Rounded.Version1.selectBest rnd imageStack) imageStack) out := by
  induction B generalizing out with
  | nil => rfl
  | cons b B ih =>
    rw [List.foldl_cons, ih, rounded_focusStackingThread_eq, foldl_pixelStepWith_width,
      List.flatMap_cons, bandPixels_append, List.foldl_append]

theorem rounded_runThreads_eq (rnd : ℚ → ℚ) (imageStack : List RasterImage)
    (out : RasterImage) (numThreads : Int) (hn : 1 ≤ numThreads) :
    Rounded.Version1.runThreads rnd imageStack out numThreads
      = (bandPixels out.width (intRange 0 ((out.height : Int) - 1))).foldl
          (pixelStepWith (Rounded.Version1.selectBest rnd imageStack) imageStack) out := by
  obtain ⟨m, rfl⟩ : ∃ m : Nat, numThreads = (m : Int) + 1 :=
    ⟨(numThreads - 1).toNat, by omega⟩
  unfold Rounded.Version1.runThreads
  rw [rounded_bands_fold_eq, bands_rows]

theorem rounded_focusStackingThreadLogged_eq (rnd : ℚ → ℚ) (imageStack : List RasterImage)
    (st : RasterImage × List (Int × Int)) (startRow endRow : Int) :
    Rounded.Version1.focusStackingThreadLogged rnd imageStack st startRow endRow
      = (bandPixels st.1.width (intRange startRow (endRow - 1))).foldl
          (loggedStepWith (Rounded.Version1.selectBest rnd imageStack) imageStack) st := by
  unfold Rounded.Version1.focusStackingThreadLogged
  exact rows_fold_logged_with_eq (Rounded.Version1.selectBest rnd imageStack) imageStack
    st.1.width _ st

theorem rounded_bands_fold_logged_eq (rnd : ℚ → ℚ) (imageStack : List RasterImage)
    (B : List (Int × Int)) (st : RasterImage × List (Int × Int)) :
    B.foldl
        (fun st band =>
          Rounded.Version1.focusStackingThreadLogged rnd imageStack st band.1 band.2) st
      = (bandPixels st.1.width (B.flatMap (fun b => intRange b.1 (b.2 - 1)))).foldl
          (loggedStepWith (Rounded.Version1.selectBest rnd imageStack) imageStack) st := by
  induction B generalizing st with
  | nil => rfl
  | cons b B ih =>
    rw [List.foldl_cons, ih, rounded_focusStackingThreadLogged_eq, List.flatMap_cons,
      bandPixels_append, List.foldl_append]
    congr 2
    rw [foldl_loggedStepWith]
    exact foldl_pixelStepWith_width _ _ _ _

/-- The logged run performs the same writes as the plain run, and its log is the list of the
visited pixels that had a winner. -/
theorem rounded_runThreadsLogged_eq (rnd : ℚ → ℚ) (imageStack : List RasterImage)
    (out : RasterImage) (numThreads : Int) (hn : 1 ≤ numThreads) :
    Rounded.Version1.runThreadsLogged rnd imageStack out numThreads
      = (Rounded.Version1.runThreads rnd imageStack out numThreads,
         (bandPixels out.width (intRange 0 ((out.height : Int) - 1))).filter
           (fun p => decide (Rounded.Version1.selectBest rnd imageStack p.1 p.2 ≠ -1))) := by
  rw [rounded_runThreads_eq rnd imageStack out numThreads hn]
  obtain ⟨m, rfl⟩ : ∃ m : Nat, numThreads = (m : Int) + 1 :=
    ⟨(numThreads - 1).toNat, by omega⟩
  unfold Rounded.Version1.runThreadsLogged
  rw [rounded_bands_fold_logged_eq, bands_rows, foldl_loggedStepWith]
  simp

theorem rounded_v1_selectBest_ne_neg_one (rnd : ℚ → ℚ) (hrnd : RoundsNonneg rnd)
    (imageStack : List RasterImage) (out : RasterImage)
    (r c : Int) (hne : imageStack ≠ [])
    (hmatch : ∀ img ∈ imageStack, MatchesOutput out img)
    (hsize : out.width ≤ 2147483645 ∧ out.height ≤ 2147483645) (hb : inBounds out r c) :
    Rounded.Version1.selectBest rnd imageStack r c ≠ -1 := by
  cases imageStack with
  | nil => exact absurd rfl hne
  | cons first rest =>
    intro h
    unfold Rounded.Version1.selectBest at h
    rw [bestImageIndex_eq_neg_one_iff] at h
    have h1 := h first (List.mem_cons_self _ _)
    obtain ⟨hw, hh, _⟩ := hmatch first (List.mem_cons_self _ _)
    have hbf : inBounds first r c := by
      unfold inBounds at hb ⊢
      rw [hw, hh]
      exact hb
    have hsf : first.SizeOk := by
      unfold RasterImage.SizeOk
      rw [hw, hh]
      omega
    have h2 := rounded_calculateWindowContrast_nonneg rnd hrnd first r c 5 hsf
      (windowInRange_five out r c hsize hb)
      ⟨r, c, inWindow_center first r c 5 (by decide) hbf⟩
    simp only [rounded_v1_contrast_eq_windowSize_five] at h1
    linarith

/-- After the band workers have run, every byte of every in-bounds pixel holds the byte of
the image selected for that pixel. -/
theorem rounded_runThreads_byte (rnd : ℚ → ℚ) (hrnd : RoundsNonneg rnd)
    (imageStack : List RasterImage) (out : RasterImage) (numThreads : Int)
    (hn : 1 ≤ numThreads) (hne : imageStack ≠ [])
    (hmatch : ∀ img ∈ imageStack, MatchesOutput out img)
    (hsize : out.width ≤ 2147483645 ∧ out.height ≤ 2147483645)
    (r k : Int) (hb : inBounds out r (k / bytesPerPixel out.type)) :
    (Rounded.Version1.runThreads rnd imageStack out numThreads).raster2D r k
      = srcByte imageStack
          (Rounded.Version1.selectBest rnd imageStack r (k / bytesPerPixel out.type)) r k := by
  rw [rounded_runThreads_eq rnd imageStack out numThreads hn,
    foldl_pixelStepWith_raster (Rounded.Version1.selectBest rnd imageStack) imageStack
      (fun r c => bestImageIndex_range _ imageStack) _ out r k
      (fun img h => (hmatch img h).2.2)]
  rw [if_pos ⟨(mem_allPixels out r _ hsize).2 hb,
    rounded_v1_selectBest_ne_neg_one rnd hrnd imageStack out r _ hne hmatch hsize hb⟩]

theorem rounded_contrast_gray (rnd : ℚ → ℚ) (image : RasterImage)
    (h : image.type = ImageType.GRAY_RASTER) (centerRow centerCol windowSize : Int) :
    Rounded.calculateWindowContrast rnd image centerRow centerCol windowSize
      = rnd (calculateWindowContrast image centerRow centerCol windowSize) := by
  rw [rounded_calculateWindowContrast_eq, calculateWindowContrast_eq,
    rounded_contrastOver_gray rnd image h]

theorem rounded_sampleGray_contrast_center :
    Rounded.calculateWindowContrast roundDouble sampleGray 1 1 3 = 150 := by
  rw [rounded_contrast_gray roundDouble sampleGray rfl, sampleGray_contrast_center]
  exact_mod_cast roundDouble_intCast 150 (by decide)

theorem rounded_sampleFlat_contrast_center :
    Rounded.calculateWindowContrast roundDouble sampleFlat 1 1 3 = 0 := by
  rw [rounded_contrast_gray roundDouble sampleFlat rfl, sampleFlat_contrast_center]
  exact_mod_cast roundDouble_intCast 0 (by decide)

/-! ## Gray images: the contrast is exact in `double` arithmetic -/

theorem selectionLoop_congr (f g : RasterImage → ℚ) (l : List RasterImage)
    (h : ∀ img ∈ l, f img = g img) (i : Nat) (acc : ℚ × Int) :
    selectionLoop f l i acc = selectionLoop g l i acc := by
  induction l generalizing i acc with
  | nil => rfl
  | cons img l ih =>
    unfold selectionLoop
    simp only [h img (List.mem_cons_self _ _)]
    split
    · exact ih (fun x hx => h x (List.mem_cons_of_mem _ hx)) _ _
    · exact ih (fun x hx => h x (List.mem_cons_of_mem _ hx)) _ _

theorem bestImageIndex_congr (f g : RasterImage → ℚ) (l : List RasterImage)
    (h : ∀ img ∈ l, f img = g img) : bestImageIndex f l = bestImageIndex g l := by
  unfold bestImageIndex
  rw [selectionLoop_congr f g l h]

theorem gray_byte (image : RasterImage) (h : image.type = ImageType.GRAY_RASTER)
    (row col : Int) :
    convertToGrayscale image row col = (((image.raster2D row col).val : Int) : ℚ) := by
  unfold convertToGrayscale
  rw [h]
  simp

/-- The exact contrast of a Gray image is an integer of magnitude at most 255. -/
theorem gray_contrast_int (image : RasterImage) (h : image.type = ImageType.GRAY_RASTER)
    (centerRow centerCol windowSize : Int)
    (hs : image.SizeOk) (hr : WindowInRange centerRow centerCol windowSize) :
    ∃ n : Int, n.natAbs < 2 ^ 53 ∧
      calculateWindowContrast image centerRow centerCol windowSize = (n : ℚ) := by
  by_cases hne : ∃ r c, inWindow image centerRow centerCol windowSize r c
  · obtain ⟨rmax, cmax, rmin, cmin, _, _, he, _⟩ :=
      contrastOver_spec image centerRow centerCol (windowOffsets windowSize) hs hr hne
    refine ⟨((image.raster2D rmax cmax).val : Int) - ((image.raster2D rmin cmin).val : Int),
      ?_, ?_⟩
    · have h1 := (image.raster2D rmax cmax).isLt
      have h2 := (image.raster2D rmin cmin).isLt
      omega
    · rw [calculateWindowContrast_eq, he, gray_byte image h, gray_byte image h]
      push_cast
      ring
  · refine ⟨-255, by decide, ?_⟩
    rw [calculateWindowContrast_eq,
      contrastOver_empty image centerRow centerCol _ hs hr (fun r c hw => hne ⟨r, c, hw⟩)]
    norm_num

theorem rounded_contrast_gray_exact (image : RasterImage)
    (h : image.type = ImageType.GRAY_RASTER) (centerRow centerCol windowSize : Int)
    (hs : image.SizeOk) (hr : WindowInRange centerRow centerCol windowSize) :
    Rounded.calculateWindowContrast roundDouble image centerRow centerCol windowSize
      = calculateWindowContrast image centerRow centerCol windowSize := by
  obtain ⟨n, hn, he⟩ := gray_contrast_int image h centerRow centerCol windowSize hs hr
  rw [rounded_contrast_gray roundDouble image h, he]
  exact roundDouble_intCast n hn

/-- On a stack of Gray images the selection in `double` arithmetic is the selection in exact
arithmetic. -/
theorem rounded_selectBest_gray (imageStack : List RasterImage)
    (centerRow centerCol windowSize : Int)
    (hgray : ∀ img ∈ imageStack, img.type = ImageType.GRAY_RASTER ∧ img.SizeOk)
    (hr : WindowInRange centerRow centerCol windowSize) :
    Rounded.Version2.selectBest roundDouble imageStack centerRow centerCol windowSize
      = Version2.selectBest imageStack centerRow centerCol windowSize := by
  unfold Rounded.Version2.selectBest Version2.selectBest
  apply bestImageIndex_congr
  intro img himg
  exact rounded_contrast_gray_exact img (hgray img himg).1 centerRow centerCol windowSize
    (hgray img himg).2 hr

theorem scenario_gray (a b bg : Fin 256) :
    ∀ img ∈ [scenarioA, scenarioB a b bg, scenarioC],
      img.type = ImageType.GRAY_RASTER ∧ img.SizeOk := by
  intro img h
  simp only [List.mem_cons, List.mem_singleton, List.not_mem_nil, or_false] at h
  rcases h with h | h | h
  · rw [h]; exact ⟨rfl, by unfold RasterImage.SizeOk; decide⟩
  · rw [h]; exact ⟨rfl, by unfold RasterImage.SizeOk scenarioB; simp⟩
  · rw [h]; exact ⟨rfl, by unfold RasterImage.SizeOk; decide⟩

/-! ## Claims C4, C6 and C16 in `double` arithmetic -/

/-- C6 (as the code behaves), with the contrast computed in `double` arithmetic, for every
rounding `rnd`: if an image of the stack attains the maximal contrast at the window and that
contrast is above the initial `highestContrast = -1.0`, the selection loop returns the lowest
index among the images of maximal contrast: the returned image has the maximal contrast, its
index is at most that of every image attaining it, and every image before it has strictly
smaller contrast. The loop reads only the stack and the window, so the index is a function
of them. The contrast of an image is above `-1.0` whenever its window contains an in-bounds
pixel, for a rounding that maps non-negative numbers to non-negative numbers. -/
theorem C6_tie_break_lowest_index (rnd : ℚ → ℚ) (imageStack : List RasterImage)
    (centerRow centerCol windowSize : Int) (k : Nat) (image : RasterImage)
    (hk : imageStack[k]? = some image)
    (hpos : -1 < Rounded.calculateWindowContrast rnd image centerRow centerCol windowSize)
    (hmax : ∀ img2 ∈ imageStack,
      Rounded.calculateWindowContrast rnd img2 centerRow centerCol windowSize
        ≤ Rounded.calculateWindowContrast rnd image centerRow centerCol windowSize) :
    (∃ (m : Nat) (imgm : RasterImage), imageStack[m]? = some imgm ∧
      Rounded.Version2.selectBest rnd imageStack centerRow centerCol windowSize = (m : Int) ∧
      Rounded.calculateWindowContrast rnd imgm centerRow centerCol windowSize
        = Rounded.calculateWindowContrast rnd image centerRow centerCol windowSize ∧
      m ≤ k ∧
      ∀ (j : Nat) (img2 : RasterImage), j < m → imageStack[j]? = some img2 →
        Rounded.calculateWindowContrast rnd img2 centerRow centerCol windowSize
          < Rounded.calculateWindowContrast rnd image centerRow centerCol windowSize) ∧
    (windowSize = 5 →
      Rounded.Version1.selectBest rnd imageStack centerRow centerCol
        = Rounded.Version2.selectBest rnd imageStack centerRow centerCol windowSize) ∧
    (∀ img : RasterImage, RoundsNonneg rnd → img.SizeOk →
      WindowInRange centerRow centerCol windowSize →
      (∃ r c, inWindow img centerRow centerCol windowSize r c) →
      -1 < Rounded.calculateWindowContrast rnd img centerRow centerCol windowSize) := by
  refine ⟨bestImageIndex_lowest_max _ imageStack k image hk hpos hmax, ?_, ?_⟩
  · intro h5
    rw [h5]
    exact rounded_v1_selectBest_eq rnd imageStack centerRow centerCol
  · intro img hrnd hs hr hne
    have := rounded_calculateWindowContrast_nonneg rnd hrnd img centerRow centerCol windowSize
      hs hr hne
    linarith

theorem C6_tie_break_lowest_index_witness :
    ∃ (m : Nat) (imgm : RasterImage), [sampleFlat, sampleGray, sampleGray][m]? = some imgm ∧
      Rounded.Version2.selectBest roundDouble [sampleFlat, sampleGray, sampleGray] 1 1 3
        = (m : Int) ∧
      Rounded.calculateWindowContrast roundDouble imgm 1 1 3
        = Rounded.calculateWindowContrast roundDouble sampleGray 1 1 3 ∧
      m ≤ 2 ∧
      ∀ (j : Nat) (img2 : RasterImage), j < m →
        [sampleFlat, sampleGray, sampleGray][j]? = some img2 →
        Rounded.calculateWindowContrast roundDouble img2 1 1 3
          < Rounded.calculateWindowContrast roundDouble sampleGray 1 1 3 :=
  (C6_tie_break_lowest_index roundDouble [sampleFlat, sampleGray, sampleGray] 1 1 3 2
    sampleGray rfl
    (by rw [rounded_sampleGray_contrast_center]; norm_num)
    (by
      intro img2 h
      simp only [List.mem_cons, List.mem_singleton, List.not_mem_nil, or_false] at h
      rcases h with h | h | h
      · rw [h, rounded_sampleGray_contrast_center, rounded_sampleFlat_contrast_center]
        norm_num
      · rw [h]
      · rw [h])).1

/-- C6 fails as stated: both images of the stack `[sampleGray, sampleGray]` yield the identical
maximal contrast `-255` at the window of size 11 centred at `(20, 20)`, which lies outside
them; the lowest index among them is 0, but the loop returns `-1`. -/
theorem C6_counterexample :
    (∀ img ∈ [sampleGray, sampleGray],
      Rounded.calculateWindowContrast roundDouble img 20 20 11 = -255) ∧
    Rounded.Version2.selectBest roundDouble [sampleGray, sampleGray] 20 20 11 = -1 ∧
    Rounded.Version2.selectBest roundDouble [sampleGray, sampleGray] 20 20 11 ≠ 0 := by
  have hc : Rounded.calculateWindowContrast roundDouble sampleGray 20 20 11 = -255 := by
    rw [rounded_contrast_gray_exact sampleGray rfl 20 20 11 sampleGray_sizeOk
      (by unfold WindowInRange OffsetsInRange FitsInt; decide),
      calculateWindowContrast_eq_scaled]
    have e : contrastOverScaled sampleGray 20 20 (windowOffsets 11) = -765 := by decide
    rw [e]
    norm_num
  have e : Rounded.Version2.selectBest roundDouble [sampleGray, sampleGray] 20 20 11 = -1 := by
    unfold Rounded.Version2.selectBest
    rw [bestImageIndex_eq_neg_one_iff]
    intro img h
    simp only [List.mem_cons, List.mem_singleton, List.not_mem_nil, or_false, or_self] at h
    rw [h, hc]
    norm_num
  refine ⟨?_, e, ?_⟩
  · intro img h
    simp only [List.mem_cons, List.mem_singleton, List.not_mem_nil, or_false, or_self] at h
    rw [h, hc]
  · rw [e]; decide

/-- C4: Version1 with the contrast computed in `double` arithmetic, for every rounding `rnd`
that maps non-negative numbers to non-negative numbers, at least one worker, a non-empty
stack whose images have the width, height and format of the output image (sizes at most
`2^31 - 3`, so that `row + 2` and `col + 2` are representable as `int`): after all band
workers have run, every output pixel `(r, c)` equals pixel `(r, c)` of the stack image
selected at `(r, c)`, which has the highest 5x5 window contrast centred there and the lowest
index among the images of that contrast; the log of `copyPixel` calls contains every pixel
of the output exactly once and nothing else. -/
theorem C4_static_partition_compositing (rnd : ℚ → ℚ) (hrnd : RoundsNonneg rnd)
    (imageStack : List RasterImage) (imageOut : RasterImage) (numThreads : Int)
    (hn : 1 ≤ numThreads) (hne : imageStack ≠ [])
    (hmatch : ∀ img ∈ imageStack, MatchesOutput imageOut img)
    (hsize : imageOut.width ≤ 2147483645 ∧ imageOut.height ≤ 2147483645) :
    (∀ r c : Int, inBounds imageOut r c →
      ∃ (k : Nat) (best : RasterImage), imageStack[k]? = some best ∧
        Rounded.Version1.selectBest rnd imageStack r c = (k : Int) ∧
        (∀ img ∈ imageStack, Rounded.Version1.calculateWindowContrast rnd img r c
          ≤ Rounded.Version1.calculateWindowContrast rnd best r c) ∧
        (∀ (j : Nat) (img : RasterImage), j < k → imageStack[j]? = some img →
          Rounded.Version1.calculateWindowContrast rnd img r c
            < Rounded.Version1.calculateWindowContrast rnd best r c) ∧
        pixelBytes (Rounded.Version1.runThreads rnd imageStack imageOut numThreads) r c
          = pixelBytes best r c) ∧
    (Rounded.Version1.runThreadsLogged rnd imageStack imageOut numThreads).1
      = Rounded.Version1.runThreads rnd imageStack imageOut numThreads ∧
    (∀ r c : Int, inBounds imageOut r c →
      (Rounded.Version1.runThreadsLogged rnd imageStack imageOut numThreads).2.count (r, c)
        = 1) ∧
    (∀ p ∈ (Rounded.Version1.runThreadsLogged rnd imageStack imageOut numThreads).2,
      inBounds imageOut p.1 p.2) := by
  have htype : (Rounded.Version1.runThreads rnd imageStack imageOut numThreads).type
      = imageOut.type := by
    rw [rounded_runThreads_eq rnd imageStack imageOut numThreads hn, foldl_pixelStepWith_type]
  refine ⟨?_, ?_, ?_, ?_⟩
  · intro r c hb
    have hwin := rounded_v1_selectBest_ne_neg_one rnd hrnd imageStack imageOut r c hne hmatch
      hsize hb
    rcases bestImageIndex_spec
        (fun img => Rounded.Version1.calculateWindowContrast rnd img r c)
        imageStack with ⟨he, _⟩ | ⟨k, best, hk, he, _, hbefore, hall⟩
    · exact absurd he hwin
    · refine ⟨k, best, hk, he, hall, hbefore, ?_⟩
      have htb : best.type = imageOut.type := (hmatch best (List.getElem?_mem hk)).2.2
      unfold pixelBytes
      rw [htype, htb]
      apply List.map_congr_left
      intro i hi
      rw [mem_intRange] at hi
      have hdiv := pixel_ediv imageOut.type c i hi.1 hi.2
      have hb2 : inBounds imageOut r
          ((c * bytesPerPixel imageOut.type + i) / bytesPerPixel imageOut.type) := by
        rw [hdiv]; exact hb
      rw [rounded_runThreads_byte rnd hrnd imageStack imageOut numThreads hn hne hmatch hsize
        r _ hb2, hdiv]
      have he2 : Rounded.Version1.selectBest rnd imageStack r c = (k : Int) := he
      rw [he2, srcByte_of_getElem? imageStack k best hk]
  · rw [rounded_runThreadsLogged_eq rnd imageStack imageOut numThreads hn]
  · intro r c hb
    rw [rounded_runThreadsLogged_eq rnd imageStack imageOut numThreads hn]
    simp only
    apply nodup_count_one
    · exact List.Nodup.filter _
        (bandPixels_nodup _ _ (by omega) (intRange_nodup _ _))
    · rw [List.mem_filter]
      refine ⟨(mem_allPixels imageOut r c hsize).2 hb, ?_⟩
      simp only [decide_eq_true_eq]
      exact rounded_v1_selectBest_ne_neg_one rnd hrnd imageStack imageOut r c hne hmatch
        hsize hb
  · intro p hp
    rw [rounded_runThreadsLogged_eq rnd imageStack imageOut numThreads hn] at hp
    simp only at hp
    rw [List.mem_filter] at hp
    exact (mem_allPixels imageOut p.1 p.2 hsize).1 hp.1

theorem sampleXY_matches : ∀ img ∈ [sampleX, sampleY], MatchesOutput sampleX img := by
  intro img h
  simp only [List.mem_cons, List.mem_singleton, List.not_mem_nil, or_false] at h
  rcases h with h | h
  · rw [h]; exact ⟨rfl, rfl, rfl⟩
  · rw [h]; exact ⟨rfl, rfl, rfl⟩

theorem C4_static_partition_compositing_witness :
    (∃ (k : Nat) (best : RasterImage), [sampleX, sampleY][k]? = some best ∧
        Rounded.Version1.selectBest roundDouble [sampleX, sampleY] 0 0 = (k : Int) ∧
        (∀ img ∈ [sampleX, sampleY],
          Rounded.Version1.calculateWindowContrast roundDouble img 0 0
            ≤ Rounded.Version1.calculateWindowContrast roundDouble best 0 0) ∧
        (∀ (j : Nat) (img : RasterImage), j < k → [sampleX, sampleY][j]? = some img →
          Rounded.Version1.calculateWindowContrast roundDouble img 0 0
            < Rounded.Version1.calculateWindowContrast roundDouble best 0 0) ∧
        pixelBytes (Rounded.Version1.runThreads roundDouble [sampleX, sampleY] sampleX 1) 0 0
          = pixelBytes best 0 0) ∧
      (Rounded.Version1.runThreadsLogged roundDouble [sampleX, sampleY] sampleX 1).2.count
          (0, 0) = 1 :=
  ⟨(C4_static_partition_compositing roundDouble roundDouble_nonneg [sampleX, sampleY] sampleX
      1 (by decide) (by simp) sampleXY_matches (by decide)).1 0 0 (by unfold inBounds; decide),
   (C4_static_partition_compositing roundDouble roundDouble_nonneg [sampleX, sampleY] sampleX
      1 (by decide) (by simp) sampleXY_matches (by decide)).2.2.1 0 0
      (by unfold inBounds; decide)⟩

/-- On the stack `[sampleX, sampleY]`, whose exact contrasts tie at `(0, 0)`, the Version1
worker in `double` arithmetic writes the pixel of `sampleY`. -/
theorem rounded_run_writes_sampleY :
    pixelBytes (Rounded.Version1.runThreads roundDouble [sampleX, sampleY] sampleX 1) 0 0
      = pixelBytes sampleY 0 0 := by
  unfold pixelBytes
  have htype : (Rounded.Version1.runThreads roundDouble [sampleX, sampleY] sampleX 1).type
      = sampleX.type := by
    rw [rounded_runThreads_eq roundDouble _ sampleX 1 (by decide), foldl_pixelStepWith_type]
  rw [htype]
  have hty : sampleY.type = sampleX.type := rfl
  rw [hty]
  apply List.map_congr_left
  intro i hi
  rw [mem_intRange] at hi
  have hdiv := pixel_ediv sampleX.type 0 i hi.1 hi.2
  have hb2 : inBounds sampleX 0
      ((0 * bytesPerPixel sampleX.type + i) / bytesPerPixel sampleX.type) := by
    rw [hdiv]; unfold inBounds; decide
  rw [rounded_runThreads_byte roundDouble roundDouble_nonneg [sampleX, sampleY] sampleX 1
    (by decide) (by simp) sampleXY_matches (by decide) 0 _ hb2, hdiv,
    rounding_decides_selection.2.2.2.2]
  exact srcByte_of_getElem? [sampleX, sampleY] 1 sampleY rfl 0 _

/-- C16 (as the code behaves), in `double` arithmetic (`roundDouble`): the stack `[A, B, C]`
of grayscale 4x4 images, A uniformly 128, B with a 2x2 0/255 checkerboard on rows and
columns 0..1 (either polarity) on a uniform background that differs from B's value at
`(1, 1)`, C uniformly 50. The selection loop with the contrast of window size 3 returns B
(index 1) at every pixel whose row and column are both in 0..2 and A (index 0, the lowest
index of the contrast-0 tie) at every other pixel. No variant composites with window size 3:
the static compositor of Version1 (5x5 window) selects B at every pixel, so that after all
band workers have run the 4x4 output holds B's pixel everywhere, and the selection loop of
the random-sampling variants (window size 11) returns B at every centre. -/
theorem C16_end_to_end_scenario (a b bg : Fin 256)
    (hab : (a = 0 ∧ b = 255) ∨ (a = 255 ∧ b = 0)) (hbg : a ≠ bg)
    (out : RasterImage)
    (hout : out.type = ImageType.GRAY_RASTER ∧ out.width = 4 ∧ out.height = 4)
    (numThreads : Int) (hn : 1 ≤ numThreads)
    (r c : Int) (hb : 0 ≤ r ∧ r < 4 ∧ 0 ≤ c ∧ c < 4) :
    ((r ≤ 2 ∧ c ≤ 2) →
      Rounded.Version2.selectBest roundDouble [scenarioA, scenarioB a b bg, scenarioC] r c 3
        = 1) ∧
    (¬ (r ≤ 2 ∧ c ≤ 2) →
      Rounded.Version2.selectBest roundDouble [scenarioA, scenarioB a b bg, scenarioC] r c 3
        = 0) ∧
    (Rounded.Version1.selectBest roundDouble [scenarioA, scenarioB a b bg, scenarioC] r c
        = 1 ∧
      pixelBytes (Rounded.Version1.runThreads roundDouble
          [scenarioA, scenarioB a b bg, scenarioC] out numThreads) r c
        = pixelBytes (scenarioB a b bg) r c) ∧
    Rounded.Version2.selectBest roundDouble [scenarioA, scenarioB a b bg, scenarioC] r c 11
      = 1 := by
  have hne : a ≠ b := by
    rcases hab with ⟨h1, h2⟩ | ⟨h1, h2⟩
    · rw [h1, h2]; decide
    · rw [h1, h2]; decide
  have hg := scenario_gray a b bg
  have hsel3 := selectBest_three scenarioA (scenarioB a b bg) scenarioC r c 3
    (contrast_uniformGray_scenario 128 r c hb) (contrast_uniformGray_scenario 50 r c hb)
  have hB3 := contrast_scenarioB a b bg hne hbg r c hb
  have hsel5 : Version2.selectBest [scenarioA, scenarioB a b bg, scenarioC] r c 5 = 1 :=
    (selectBest_three scenarioA (scenarioB a b bg) scenarioC r c 5
      (contrast_uniformGray_any 128 r c 5 hb (by decide))
      (contrast_uniformGray_any 50 r c 5 hb (by decide))).1
      (contrast_scenarioB_wide a b bg hne hbg r c 5 hb (Or.inl rfl))
  have hsel11 : Version2.selectBest [scenarioA, scenarioB a b bg, scenarioC] r c 11 = 1 :=
    (selectBest_three scenarioA (scenarioB a b bg) scenarioC r c 11
      (contrast_uniformGray_any 128 r c 11 hb (by decide))
      (contrast_uniformGray_any 50 r c 11 hb (by decide))).1
      (contrast_scenarioB_wide a b bg hne hbg r c 11 hb (Or.inr rfl))
  have e3 := rounded_selectBest_gray [scenarioA, scenarioB a b bg, scenarioC] r c 3 hg
    (scenario_windowInRange_any r c 3 hb (by decide))
  have e5 := rounded_selectBest_gray [scenarioA, scenarioB a b bg, scenarioC] r c 5 hg
    (scenario_windowInRange_any r c 5 hb (by decide))
  have e11 := rounded_selectBest_gray [scenarioA, scenarioB a b bg, scenarioC] r c 11 hg
    (scenario_windowInRange_any r c 11 hb (by decide))
  have hv1 : Rounded.Version1.selectBest roundDouble
      [scenarioA, scenarioB a b bg, scenarioC] r c = 1 := by
    rw [rounded_v1_selectBest_eq, e5]
    exact hsel5
  refine ⟨fun hrc => e3.trans (hsel3.1 (hB3.1 hrc)), fun hrc => e3.trans (hsel3.2 (hB3.2 hrc)),
    ⟨hv1, ?_⟩, e11.trans hsel11⟩
  have hmatch : ∀ img ∈ [scenarioA, scenarioB a b bg, scenarioC], MatchesOutput out img := by
    intro img h
    simp only [List.mem_cons, List.mem_singleton, List.not_mem_nil, or_false] at h
    unfold MatchesOutput
    rw [hout.1, hout.2.1, hout.2.2]
    rcases h with h | h | h
    · rw [h]; exact ⟨rfl, rfl, rfl⟩
    · rw [h]; exact ⟨rfl, rfl, rfl⟩
    · rw [h]; exact ⟨rfl, rfl, rfl⟩
  have hsize : out.width ≤ 2147483645 ∧ out.height ≤ 2147483645 := by
    rw [hout.2.1, hout.2.2]
    decide
  have hbpp : bytesPerPixel out.type = 1 := by rw [hout.1]; rfl
  have hbo : inBounds out r (c / bytesPerPixel out.type) := by
    rw [hbpp, Int.ediv_one]
    unfold inBounds
    rw [hout.2.1, hout.2.2]
    omega
  have htr : (Rounded.Version1.runThreads roundDouble
      [scenarioA, scenarioB a b bg, scenarioC] out numThreads).type
      = ImageType.GRAY_RASTER := by
    rw [rounded_runThreads_eq _ _ _ _ hn, foldl_pixelStepWith_type]
    exact hout.1
  have hbyte := rounded_runThreads_byte roundDouble roundDouble_nonneg
    [scenarioA, scenarioB a b bg, scenarioC] out numThreads hn
    (List.cons_ne_nil _ _) hmatch hsize r c hbo
  rw [hbpp, Int.ediv_one, hv1] at hbyte
  rw [pixelBytes_gray _ r c htr, pixelBytes_gray _ r c rfl, hbyte]
  rfl

theorem C16_end_to_end_scenario_witness :
    (Rounded.Version2.selectBest roundDouble [scenarioA, scenarioB 0 255 128, scenarioC]
        3 3 3 = 0) ∧
    (Rounded.Version1.selectBest roundDouble [scenarioA, scenarioB 0 255 128, scenarioC] 3 3
        = 1 ∧
      pixelBytes (Rounded.Version1.runThreads roundDouble
          [scenarioA, scenarioB 0 255 128, scenarioC] (uniformGray 4 4 0) 2) 3 3
        = pixelBytes (scenarioB 0 255 128) 3 3) :=
  ⟨(C16_end_to_end_scenario 0 255 128 (Or.inl ⟨rfl, rfl⟩) (by decide) (uniformGray 4 4 0)
      ⟨rfl, rfl, rfl⟩ 2 (by decide) 3 3 (by decide)).2.1 (by decide),
   (C16_end_to_end_scenario 0 255 128 (Or.inl ⟨rfl, rfl⟩) (by decide) (uniformGray 4 4 0)
      ⟨rfl, rfl, rfl⟩ 2 (by decide) 3 3 (by decide)).2.2.1⟩

/-- C16 fails as stated. With the background of B equal to B's value at `(1, 1)`
(`scenarioB 0 255 0`: the checkerboard 0/255 on rows and columns 0..1, 0 elsewhere) the
window of size 3 centred at `(2, 2)` meets the checkerboard only in pixel `(1, 1)`, B has
contrast 0 there and the selection loop returns A, not B. And on the static compositor of the
program, Version1 with its 5x5 window, B is selected at `(3, 3)`, a pixel outside rows and
columns 0..2, also for the background 128: the output does not hold A's pixel there. -/
theorem C16_counterexample :
    (Rounded.Version2.selectBest roundDouble [scenarioA, scenarioB 0 255 0, scenarioC] 2 2 3
        = 0 ∧
      Rounded.Version2.selectBest roundDouble [scenarioA, scenarioB 0 255 0, scenarioC] 2 2 3
        ≠ 1) ∧
    (Rounded.Version1.selectBest roundDouble [scenarioA, scenarioB 0 255 128, scenarioC] 3 3
        = 1 ∧
      Rounded.Version1.selectBest roundDouble [scenarioA, scenarioB 0 255 128, scenarioC] 3 3
        ≠ 0) := by
  have hB : calculateWindowContrast (scenarioB 0 255 0) 2 2 3 = 0 := by
    rw [calculateWindowContrast_eq_scaled]
    have e : contrastOverScaled (scenarioB 0 255 0) 2 2 (windowOffsets 3) = 0 := by decide
    rw [e]
    norm_num
  have h1 : Rounded.Version2.selectBest roundDouble
      [scenarioA, scenarioB 0 255 0, scenarioC] 2 2 3 = 0 := by
    rw [rounded_selectBest_gray _ 2 2 3 (scenario_gray 0 255 0)
      (scenario_windowInRange_any 2 2 3 (by decide) (by decide))]
    exact (selectBest_three scenarioA (scenarioB 0 255 0) scenarioC 2 2 3
      (contrast_uniformGray_scenario 128 2 2 (by decide))
      (contrast_uniformGray_scenario 50 2 2 (by decide))).2 hB
  have h2 : Rounded.Version1.selectBest roundDouble
      [scenarioA, scenarioB 0 255 128, scenarioC] 3 3 = 1 := by
    rw [rounded_v1_selectBest_eq, rounded_selectBest_gray _ 3 3 5 (scenario_gray 0 255 128)
      (scenario_windowInRange_any 3 3 5 (by decide) (by decide))]
    exact (selectBest_three scenarioA (scenarioB 0 255 128) scenarioC 3 3 5
      (contrast_uniformGray_any 128 3 3 5 (by decide) (by decide))
      (contrast_uniformGray_any 50 3 3 5 (by decide) (by decide))).1
      (contrast_scenarioB_wide 0 255 128 (by decide) (by decide) 3 3 5 (by decide)
        (Or.inl rfl))
  refine ⟨⟨h1, ?_⟩, h2, ?_⟩
  · rw [h1]; decide
  · rw [h2]; decide

